import Mathlib

/-!
visgeom: the multi-hypothesis depth map of `src/reconstruction/depth_map.cpp`.

A shallow embedding of `DepthMap` and of the operations defined in
`depth_map.cpp`.

Conventions of the embedding
* `double` values are exact rationals (`ℚ`); `int` values are mathematical
  integers (`Int`), `uint32_t` flag words are natural numbers.
* `std::vector<T>` is `List T`.  Every subscript `v[i]` is a checked access: an
  index outside the vector is the fault `Fault.outOfBounds` — in C++ it is
  undefined behaviour — and integer division by zero is `Fault.divByZero`.
* What `depth_map.cpp` uses but does not define is a parameter: the constants
  and flag masks of `depth_map.h` and the Eigen operations `norm` and
  `normalized` (record `Env`), the camera (`ICamera`), the grid/pixel
  conversions (`ScaleParameters`), the mask matrix (`Mat8u`), the rigid
  transformation (`Transformation`), the map returned by the constructor
  `DepthMap(camera, params)` and the function `setTo`.
-/

namespace Visgeom

/-! ## Faults and checked vector access -/

/-- Ways in which an execution of the C++ code leaves defined behaviour. -/
inductive Fault where
  | outOfBounds
  | divByZero
  | assertFailed
  deriving DecidableEq, Repr

deriving instance DecidableEq for Except

/-- Checked read `v[i]` with an `int` subscript. -/
def rd {α : Type} (v : List α) (i : Int) : Except Fault α :=
  if 0 ≤ i then
    match v[i.toNat]? with
    | some a => .ok a
    | none => .error .outOfBounds
  else .error .outOfBounds

/-- Checked write `v[i] = a` with an `int` subscript. -/
def wr {α : Type} (v : List α) (i : Int) (a : α) : Except Fault (List α) :=
  if 0 ≤ i ∧ i.toNat < v.length then .ok (v.set i.toNat a) else .error .outOfBounds

/-- A counted loop `for (k = lo; k < lo + cnt; k++) s = body(k, s)`. -/
def forLoop {σ : Type} (body : Int → σ → Except Fault σ) : Int → Nat → σ → Except Fault σ
  | _, 0, s => .ok s
  | lo, n + 1, s =>
    match body lo s with
    | .ok s' => forLoop body (lo + 1) n s'
    | .error f => .error f

/-! ## Data model -/

/-- The type `Vector2d`: an image point `(u, v)`. -/
abbrev Vector2d := ℚ × ℚ

/-- The type `Vector3d`. -/
structure Vector3d where
  x : ℚ
  y : ℚ
  z : ℚ
  deriving DecidableEq, Repr

/-- The vector `Vector3d(0, 0, 0)`. -/
def Vector3d.zero : Vector3d := ⟨0, 0, 0⟩

/-- Product `X * s` of a vector with a scalar. -/
def Vector3d.scale (X : Vector3d) (s : ℚ) : Vector3d := ⟨X.x * s, X.y * s, X.z * s⟩

/-- Dot product `X.dot(Y)`. -/
def Vector3d.dot (X Y : Vector3d) : ℚ := X.x * Y.x + X.y * Y.y + X.z * Y.z

/-- Cross product `X.cross(Y)`. -/
def Vector3d.cross (X Y : Vector3d) : Vector3d :=
  ⟨X.y * Y.z - X.z * Y.y, X.z * Y.x - X.x * Y.z, X.x * Y.y - X.y * Y.x⟩

/-- What `depth_map.cpp` takes from headers that are not part of the sources:
the depth constants and the reconstruction flag masks of `depth_map.h`, and the
Eigen operations `norm()` and `normalized()`.  All of them are parameters. -/
structure Env where
  MIN_DEPTH : ℚ
  OUT_OF_RANGE : ℚ
  DEFAULT_DEPTH : ℚ
  DEFAULT_SIGMA_DEPTH : ℚ
  IMAGE_VALUES : Nat
  MINMAX : Nat
  ALL_HYPOTHESES : Nat
  DEFAULT_VALUES : Nat
  SIGMA_VALUE : Nat
  QUERY_POINTS : Nat
  QUERY_INDICES : Nat
  INDEX_MAPPING : Nat
  norm : Vector3d → ℚ
  normalized : Vector3d → Vector3d

/-- The camera interface `ICamera`, as far as `depth_map.cpp` calls it. -/
structure ICamera where
  projectPoint : Vector3d → Option Vector2d
  reconstructPoint : Vector2d → Option Vector3d
  projectPointCloud : List Vector3d → List Vector2d
  reconstructPointCloud : List Vector2d → List Vector3d × List Bool

/-- The grid/pixel conversion `ScaleParameters`: `xConv`, `yConv` send an image
coordinate to a grid coordinate, `uConv`, `vConv` a grid coordinate to an image
coordinate. -/
structure ScaleParameters where
  xMax : Int
  yMax : Int
  xConv : ℚ → Int
  yConv : ℚ → Int
  uConv : Int → Int
  vConv : Int → Int

/-- The class `DepthMap`: the scale parameters it inherits, the number of
hypotheses, the three parallel arrays and the camera it points to. -/
structure DepthMap extends ScaleParameters where
  hMax : Int
  valVec : List ℚ
  sigmaVec : List ℚ
  costVec : List ℚ
  cameraPtr : ICamera

/-- The member `hStep`, equal to `xMax * yMax`. -/
def DepthMap.hStep (dm : DepthMap) : Int := dm.xMax * dm.yMax

/-- The mask matrix `Mat8u`; `mask r c` is the byte at row `r`, column `c`. -/
abbrev Mat8u := Int → Int → Nat

/-- The flattened index `x + y*xMax + h*hStep` of `at`, `sigma` and `cost`. -/
def DepthMap.flatIdx (dm : DepthMap) (x y h : Int) : Int :=
  x + y * dm.xMax + h * dm.hStep

/-- The function `DepthMap::isValid(x, y, h)`. -/
def DepthMap.isValid (dm : DepthMap) (x y h : Int) : Bool :=
  decide (x ≥ 0) && decide (x < dm.xMax) && decide (y ≥ 0) && decide (y < dm.yMax)
    && decide (h ≥ 0) && decide (h < dm.hMax)

/-- The scan `while (h < hMax and at(x, y, h) >= MIN_DEPTH) h++` of
`pushHypothesis`; the last argument bounds the number of iterations. -/
def findSlot (e : Env) (dm : DepthMap) (x y : Int) : Int → Nat → Except Fault Int
  | h, 0 => .ok h
  | h, n + 1 =>
    if h < dm.hMax then
      match rd dm.valVec (dm.flatIdx x y h) with
      | .ok d => if d ≥ e.MIN_DEPTH then findSlot e dm x y (h + 1) n else .ok h
      | .error f => .error f
    else .ok h

/-- The function `DepthMap::pushHypothesis(X, sigmaVal)`: the returned flag and
the depth map after the call. -/
def DepthMap.pushHypothesis (e : Env) (dm : DepthMap) (X : Vector3d) (sigmaVal : ℚ) :
    Except Fault (Bool × DepthMap) :=
  match dm.cameraPtr.projectPoint X with
  | none => .ok (false, dm)
  | some pt =>
    let x := dm.xConv pt.1
    let y := dm.yConv pt.2
    if ¬ dm.isValid x y 0 then .ok (false, dm)
    else
      match findSlot e dm x y 0 dm.hMax.toNat with
      | .error f => .error f
      | .ok h =>
        if h = dm.hMax then .ok (false, dm)
        else
          let d := e.norm X
          match wr dm.valVec (dm.flatIdx x y h) d with
          | .error f => .error f
          | .ok vals =>
            match wr dm.sigmaVec (dm.flatIdx x y h) sigmaVal with
            | .error f => .error f
            | .ok sigmas => .ok (true, { dm with valVec := vals, sigmaVec := sigmas })

/-- The functions `DepthMap::nearest(u, v, h)` and `nearest(pt, h)`: both convert
the image coordinates with `xConv`, `yConv`; an `int` coordinate is passed as
the number it denotes. -/
def DepthMap.nearest (e : Env) (dm : DepthMap) (u v : ℚ) (h : Int) : Except Fault ℚ :=
  let xd := dm.xConv u
  let yd := dm.yConv v
  if dm.isValid xd yd h then rd dm.valVec (dm.flatIdx xd yd h) else .ok e.OUT_OF_RANGE

/-- The functions `DepthMap::nearestSigma(u, v, h)` and `nearestSigma(pt, h)`. -/
def DepthMap.nearestSigma (e : Env) (dm : DepthMap) (u v : ℚ) (h : Int) : Except Fault ℚ :=
  let xd := dm.xConv u
  let yd := dm.yConv v
  if dm.isValid xd yd h then rd dm.sigmaVec (dm.flatIdx xd yd h) else .ok e.OUT_OF_RANGE

/-- The functions `DepthMap::nearestCost(u, v, h)` and `nearestCost(pt, h)`. -/
def DepthMap.nearestCost (e : Env) (dm : DepthMap) (u v : ℚ) (h : Int) : Except Fault ℚ :=
  let xd := dm.xConv u
  let yd := dm.yConv v
  if dm.isValid xd yd h then rd dm.costVec (dm.flatIdx xd yd h) else .ok e.OUT_OF_RANGE

/-- The innermost loop of `applyMask`: `for h < hMax: at(x, y, h) = 0`. -/
def maskColumn (dm : DepthMap) (x y : Int) (vals : List ℚ) : Except Fault (List ℚ) :=
  forLoop (fun h vs => wr vs (dm.flatIdx x y h) 0) 0 dm.hMax.toNat vals

/-- The loop over `x` of `applyMask`, for one row `y`. -/
def maskRow (dm : DepthMap) (mask : Mat8u) (y : Int) (vals : List ℚ) : Except Fault (List ℚ) :=
  forLoop (fun x vs => if mask (dm.vConv y) (dm.uConv x) = 0 then maskColumn dm x y vs else .ok vs)
    0 dm.xMax.toNat vals

/-- The function `DepthMap::applyMask(mask)`: the depth map after the call. -/
def DepthMap.applyMask (dm : DepthMap) (mask : Mat8u) : Except Fault DepthMap :=
  match forLoop (fun y vs => maskRow dm mask y vs) 0 dm.yMax.toNat dm.valVec with
  | .ok vals => .ok { dm with valVec := vals }
  | .error f => .error f

/-- The C++ remainder `a % b` on `int`: truncated, undefined for `b = 0`. -/
def cRem (a b : Int) : Except Fault Int :=
  if b = 0 then .error .divByZero else .ok (a.tmod b)

/-- The C++ quotient `a / b` on `int`: truncated, undefined for `b = 0`. -/
def cQuot (a b : Int) : Except Fault Int :=
  if b = 0 then .error .divByZero else .ok (a.tdiv b)

/-- The function `DepthMap::getPointVec(idxVec)`. -/
def DepthMap.getPointVec (dm : DepthMap) : List Int → Except Fault (List Vector2d)
  | [] => .ok []
  | idx :: rest =>
    match cRem idx dm.hStep with
    | .error f => .error f
    | .ok idxh =>
      match cRem idxh dm.xMax with
      | .error f => .error f
      | .ok xi =>
        match cQuot idxh dm.xMax with
        | .error f => .error f
        | .ok yi =>
          match DepthMap.getPointVec dm rest with
          | .ok pts => .ok (((dm.uConv xi : ℚ), (dm.vConv yi : ℚ)) :: pts)
          | .error f => .error f

/-- The function `DepthMap::getIdxVec(queryPointVec)`; the call `getIdxVec()`
passes the empty vector. -/
def DepthMap.getIdxVec (e : Env) (dm : DepthMap) (queryPointVec : List Vector2d) :
    Except Fault (List Int) :=
  if queryPointVec.length ≠ 0 then
    .ok (queryPointVec.map fun p =>
      let xd := dm.xConv p.1
      let yd := dm.yConv p.2
      if dm.isValid xd yd 0 then xd + yd * dm.xMax else -1)
  else
    forLoop (fun i out =>
      match rd dm.valVec i with
      | .ok d => .ok (if d ≥ e.MIN_DEPTH then out ++ [i] else out)
      | .error f => .error f) 0 dm.hStep.toNat []

/-- The structure `MHPack`. -/
structure MHPack where
  imagePointVec : List Vector2d
  idxVec : List Int
  hypIdxVec : List Int
  costVec : List ℚ
  sigmaVec : List ℚ
  valVec : List ℚ
  idxMapVec : List Int
  cloud : List Vector3d
  deriving DecidableEq, Repr

/-- A pack all of whose vectors are empty: the state after the eight `clear()`
calls of `reconstruct`. -/
def MHPack.cleared : MHPack := ⟨[], [], [], [], [], [], [], []⟩

/-- The test `reconstFlags & FLAG` of a flag word against a mask. -/
def hasFlag (reconstFlags mask : Nat) : Bool := (reconstFlags &&& mask) != 0

/-- The pushes at the end of the body of the hypothesis loop of `reconstruct`,
for an entry with the final `depth` and `sigma`: onto `depthVec` (second
component) and onto the vectors of the pack. -/
def emitEntry (e : Env) (reconstFlags : Nat) (i queryIdx h : Int) (depth sigma : ℚ)
    (st : MHPack × List ℚ) : MHPack × List ℚ :=
  let depthVec :=
    if hasFlag reconstFlags e.MINMAX then
      st.2 ++ [max (depth - 2 * sigma) e.MIN_DEPTH, depth + 2 * sigma]
    else st.2 ++ [depth]
  let r := st.1
  let r := if hasFlag reconstFlags e.SIGMA_VALUE then { r with sigmaVec := r.sigmaVec ++ [sigma] } else r
  let r := { r with idxVec := r.idxVec ++ [queryIdx], hypIdxVec := r.hypIdxVec ++ [h] }
  let r := if hasFlag reconstFlags e.INDEX_MAPPING then { r with idxMapVec := r.idxMapVec ++ [i] } else r
  (r, depthVec)

/-- The body of the loop `for (h = 0; h < numHyps; h++)` of `reconstruct`, for
query position `i` holding `queryIdx`. -/
def hypBody (e : Env) (dm : DepthMap) (reconstFlags : Nat) (i queryIdx h : Int)
    (st : MHPack × List ℚ) : Except Fault (MHPack × List ℚ) :=
  match rd dm.valVec (queryIdx + h * dm.hStep), rd dm.sigmaVec (queryIdx + h * dm.hStep) with
  | .ok depth, .ok sigma =>
    if depth < e.MIN_DEPTH then
      if hasFlag reconstFlags e.DEFAULT_VALUES then
        .ok (emitEntry e reconstFlags i queryIdx h e.DEFAULT_DEPTH e.DEFAULT_SIGMA_DEPTH st)
      else .ok st
    else .ok (emitEntry e reconstFlags i queryIdx h depth sigma st)
  | .error f, _ => .error f
  | _, .error f => .error f

/-- The loop `for (i = 0; i < queryIdxVec.size(); i++)` of `reconstruct`, from
position `i` on, over the remaining query indices. -/
def queryLoop (e : Env) (dm : DepthMap) (reconstFlags : Nat) (numHyps : Int) :
    List Int → Int → MHPack × List ℚ → Except Fault (MHPack × List ℚ)
  | [], _, st => .ok st
  | q :: rest, i, st =>
    if q < 0 ∨ q > dm.hStep then queryLoop e dm reconstFlags numHyps rest (i + 1) st
    else
      match forLoop (fun h s => hypBody e dm reconstFlags i q h s) 0 numHyps.toNat st with
      | .ok st' => queryLoop e dm reconstFlags numHyps rest (i + 1) st'
      | .error f => .error f

/-- The loop `for (i = 0; i < cloud.size(); i++)` of `reconstruct`, from position
`i` on, over the remaining rays of the camera; `out` is `result.cloud`. -/
def cloudLoop (e : Env) (reconstFlags : Nat) (maskVec : List Bool) (depthVec : List ℚ) :
    List Vector3d → Int → List Vector3d → Except Fault (List Vector3d)
  | [], _, out => .ok out
  | X :: rest, i, out =>
    match rd maskVec i with
    | .error f => .error f
    | .ok true =>
      if hasFlag reconstFlags e.MINMAX then
        match rd depthVec (2 * i) with
        | .error f => .error f
        | .ok d0 =>
          match rd depthVec (2 * i + 1) with
          | .error f => .error f
          | .ok d1 =>
            cloudLoop e reconstFlags maskVec depthVec rest (i + 1)
              (out ++ [(e.normalized X).scale d0, (e.normalized X).scale d1])
      else
        match rd depthVec i with
        | .ok d =>
          cloudLoop e reconstFlags maskVec depthVec rest (i + 1) (out ++ [(e.normalized X).scale d])
        | .error f => .error f
    | .ok false =>
      if hasFlag reconstFlags e.MINMAX then
        cloudLoop e reconstFlags maskVec depthVec rest (i + 1) (out ++ [Vector3d.zero, Vector3d.zero])
      else
        cloudLoop e reconstFlags maskVec depthVec rest (i + 1) (out ++ [Vector3d.zero])

/-- The query index list `queryIdxVec` that `reconstruct` resolves from the
pack and the flags. -/
def DepthMap.queryIdxVec (e : Env) (dm : DepthMap) (result : MHPack) (reconstFlags : Nat) :
    Except Fault (List Int) :=
  if hasFlag reconstFlags e.QUERY_INDICES then .ok result.idxVec
  else if hasFlag reconstFlags e.QUERY_POINTS then dm.getIdxVec e result.imagePointVec
  else dm.getIdxVec e []

/-- The function `DepthMap::reconstruct(MHPack & result, reconstFlags)`: the pack
after the call. -/
def DepthMap.reconstruct (e : Env) (dm : DepthMap) (result : MHPack) (reconstFlags : Nat) :
    Except Fault MHPack :=
  if hasFlag reconstFlags e.IMAGE_VALUES then .error .assertFailed
  else
    let numHyps := if hasFlag reconstFlags e.ALL_HYPOTHESES then dm.hMax else 1
    match dm.queryIdxVec e result reconstFlags with
    | .error f => .error f
    | .ok queryIdxVec =>
      match queryLoop e dm reconstFlags numHyps queryIdxVec 0 (MHPack.cleared, []) with
      | .error f => .error f
      | .ok (res, depthVec) =>
        match dm.getPointVec res.idxVec with
        | .error f => .error f
        | .ok pts =>
          let rays := dm.cameraPtr.reconstructPointCloud pts
          match cloudLoop e reconstFlags rays.2 depthVec rays.1 0 [] with
          | .error f => .error f
          | .ok cloud => .ok { res with imagePointVec := pts, cloud := cloud }

/-- Consecutive calls `pushHypothesis(X, sigmaVal)` for the pairs of a list, in
order: the returned flags and the map after the last call. -/
def pushAll (e : Env) : DepthMap → List (Vector3d × ℚ) → Except Fault (List Bool × DepthMap)
  | dm, [] => .ok ([], dm)
  | dm, p :: ps =>
    match dm.pushHypothesis e p.1 p.2 with
    | .error f => .error f
    | .ok (b, dm1) =>
      match pushAll e dm1 ps with
      | .error f => .error f
      | .ok (bs, dm2) => .ok (b :: bs, dm2)

/-- The depth array `vs` in the course of `applyMask`: the addressable cells
selected by `done` hold their final value (0 where the mask is zero, the initial
depth elsewhere), the other addressable cells their initial depth. -/
def MaskedUpTo (dm : DepthMap) (mask : Mat8u) (done : Int → Int → Int → Prop)
    (vs : List ℚ) : Prop :=
  vs.length = dm.valVec.length ∧
    ∀ x y h, dm.isValid x y h = true →
      (done x y h → rd vs (dm.flatIdx x y h) =
        if mask (dm.vConv y) (dm.uConv x) = 0 then .ok 0 else rd dm.valVec (dm.flatIdx x y h)) ∧
      (¬ done x y h → rd vs (dm.flatIdx x y h) = rd dm.valVec (dm.flatIdx x y h))

/-! ## The entries recorded by `reconstruct` -/

/-- One pass through the end of the hypothesis loop of `reconstruct`: the grid
index pushed on `idxVec`, the slot pushed on `hypIdxVec`, the final depth and
sigma (after default substitution) and the query position `i`. -/
structure Entry where
  idx : Int
  hyp : Int
  depth : ℚ
  sigma : ℚ
  pos : Int
  deriving DecidableEq, Repr

/-- The pushes of `emitEntry` for a list of entries, in order. -/
def appendEntries (e : Env) (reconstFlags : Nat) (st : MHPack × List ℚ) (es : List Entry) :
    MHPack × List ℚ :=
  es.foldl (fun s en => emitEntry e reconstFlags en.pos en.idx en.hyp en.depth en.sigma s) st

/-- The entries (none or one) that the body of the hypothesis loop records for
query position `i`, query index `q` and slot `h`. -/
def slotEntries (e : Env) (dm : DepthMap) (reconstFlags : Nat) (i q h : Int) : List Entry :=
  match rd dm.valVec (q + h * dm.hStep), rd dm.sigmaVec (q + h * dm.hStep) with
  | .ok depth, .ok sigma =>
    if depth < e.MIN_DEPTH then
      if hasFlag reconstFlags e.DEFAULT_VALUES then
        [⟨q, h, e.DEFAULT_DEPTH, e.DEFAULT_SIGMA_DEPTH, i⟩]
      else []
    else [⟨q, h, depth, sigma, i⟩]
  | _, _ => []

/-- Concatenation of `f lo, f (lo+1), ..., f (lo+cnt-1)`. -/
def slotsFrom (f : Int → List Entry) : Int → Nat → List Entry
  | _, 0 => []
  | lo, n + 1 => f lo ++ slotsFrom f (lo + 1) n

/-- The entries that the query loop of `reconstruct` records for the query
indices `qs`, the first of which is at position `i`. -/
def allEntries (e : Env) (dm : DepthMap) (reconstFlags : Nat) (numHyps : Int) :
    List Int → Int → List Entry
  | [], _ => []
  | q :: rest, i =>
    (if q < 0 ∨ q > dm.hStep then []
      else slotsFrom (fun h => slotEntries e dm reconstFlags i q h) 0 numHyps.toNat)
      ++ allEntries e dm reconstFlags numHyps rest (i + 1)

/-- The vector `depthVec` that `reconstruct` builds for a list of entries. -/
def depthVecOf (e : Env) (reconstFlags : Nat) (es : List Entry) : List ℚ :=
  if hasFlag reconstFlags e.MINMAX then
    es.flatMap fun en => [max (en.depth - 2 * en.sigma) e.MIN_DEPTH, en.depth + 2 * en.sigma]
  else es.map fun en => en.depth

/-- Both reads of the hypothesis loop at query index `q` and slot `h` are inside
the arrays. -/
def SlotReadable (dm : DepthMap) (q h : Int) : Prop :=
  (∃ d, rd dm.valVec (q + h * dm.hStep) = .ok d) ∧
    (∃ s, rd dm.sigmaVec (q + h * dm.hStep) = .ok s)

/-- The number of slots per query index, `numHyps`, of `reconstruct`. -/
def numHypsOf (e : Env) (dm : DepthMap) (reconstFlags : Nat) : Int :=
  if hasFlag reconstFlags e.ALL_HYPOTHESES then dm.hMax else 1

/-- The pack that `reconstruct` leaves for a list of entries, the image points
`pts` and the cloud `cloud`. -/
def packOf (e : Env) (reconstFlags : Nat) (es : List Entry) (pts : List Vector2d)
    (cloud : List Vector3d) : MHPack where
  imagePointVec := pts
  idxVec := es.map fun en => en.idx
  hypIdxVec := es.map fun en => en.hyp
  costVec := []
  sigmaVec := if hasFlag reconstFlags e.SIGMA_VALUE then es.map (fun en => en.sigma) else []
  valVec := []
  idxMapVec := if hasFlag reconstFlags e.INDEX_MAPPING then es.map (fun en => en.pos) else []
  cloud := cloud

/-- An entry agrees with the arrays of the map: its depth and sigma are the
stored ones when the stored depth is at least `MIN_DEPTH`, and the defaults
(which requires `DEFAULT_VALUES`) when it is below. -/
def EntryOK (e : Env) (dm : DepthMap) (reconstFlags : Nat) (en : Entry) : Prop :=
  ∃ v s, rd dm.valVec (en.idx + en.hyp * dm.hStep) = .ok v ∧
    rd dm.sigmaVec (en.idx + en.hyp * dm.hStep) = .ok s ∧
    ((e.MIN_DEPTH ≤ v ∧ en.depth = v ∧ en.sigma = s) ∨
      (v < e.MIN_DEPTH ∧ hasFlag reconstFlags e.DEFAULT_VALUES = true ∧
        en.depth = e.DEFAULT_DEPTH ∧ en.sigma = e.DEFAULT_SIGMA_DEPTH))

/-- The slot-0 depth of column `q` can be read and is at least `MIN_DEPTH`. -/
def DepthMap.validAt (e : Env) (dm : DepthMap) (q : Int) : Bool :=
  match rd dm.valVec q with
  | .ok d => decide (e.MIN_DEPTH ≤ d)
  | .error _ => false

/-- The grid index that `getIdxVec` computes for a query point. -/
def DepthMap.idxOfPoint (dm : DepthMap) (p : Vector2d) : Int :=
  if dm.isValid (dm.xConv p.1) (dm.yConv p.2) 0 then dm.xConv p.1 + dm.yConv p.2 * dm.xMax
  else -1

/-- Two flag words give the same answer to every flag test of `reconstruct`
other than `QUERY_INDICES` and `QUERY_POINTS`. -/
def FlagsAgree (e : Env) (f g : Nat) : Prop :=
  hasFlag f e.IMAGE_VALUES = hasFlag g e.IMAGE_VALUES ∧
  hasFlag f e.MINMAX = hasFlag g e.MINMAX ∧
  hasFlag f e.ALL_HYPOTHESES = hasFlag g e.ALL_HYPOTHESES ∧
  hasFlag f e.DEFAULT_VALUES = hasFlag g e.DEFAULT_VALUES ∧
  hasFlag f e.SIGMA_VALUE = hasFlag g e.SIGMA_VALUE ∧
  hasFlag f e.INDEX_MAPPING = hasFlag g e.INDEX_MAPPING

/-! ## Plane synthesis -/

/-- The class `Transformation<double>`, as far as `depth_map.cpp` calls it:
`trans()`, the columns `rotMat().col(k)`, and the two bulk maps. -/
structure Transformation where
  trans : Vector3d
  rotMatCol : Nat → Vector3d
  transform : List Vector3d → List Vector3d
  inverseTransform : List Vector3d → List Vector3d

/-- The edge loop of `generatePlane`, from edge `i` on, with its `break`: the
value of `inside` after the loop.  The last argument counts the remaining
iterations. -/
def insideLoop (vec : Vector3d) (polygonCamVec : List Vector3d) : Int → Nat → Except Fault Bool
  | _, 0 => .ok true
  | i, n + 1 =>
    match cRem (i + 1) polygonCamVec.length with
    | .error f => .error f
    | .ok j =>
      match rd polygonCamVec i with
      | .error f => .error f
      | .ok pi =>
        match rd polygonCamVec j with
        | .error f => .error f
        | .ok pj =>
          if vec.dot (pi.cross pj) < 0 then .ok false
          else insideLoop vec polygonCamVec (i + 1) n

/-- The body of the two loops of `generatePlane` for the cell `(u, v)`, on the
depth and sigma arrays of the new map `depth`. -/
def planeCell (e : Env) (camera : ICamera) (depth : DepthMap) (t z : Vector3d)
    (polygonCamVec : List Vector3d) (u v : Int) (st : List ℚ × List ℚ) :
    Except Fault (List ℚ × List ℚ) :=
  match wr st.1 (depth.flatIdx u v 0) e.OUT_OF_RANGE with
  | .error f => .error f
  | .ok vals =>
    match wr st.2 (depth.flatIdx u v 0) e.OUT_OF_RANGE with
    | .error f => .error f
    | .ok sigmas =>
      match camera.reconstructPoint ((depth.uConv u : ℚ), (depth.vConv v : ℚ)) with
      | none => .ok (vals, sigmas)
      | some vec =>
        if z.dot vec < 1 / 1000 then .ok (vals, sigmas)
        else
          match insideLoop vec polygonCamVec 0 polygonCamVec.length with
          | .error f => .error f
          | .ok false => .ok (vals, sigmas)
          | .ok true =>
            match wr vals (depth.flatIdx u v 0)
                (e.norm (vec.scale (t.dot z / z.dot vec))) with
            | .error f => .error f
            | .ok vals' =>
              match wr sigmas (depth.flatIdx u v 0) 1 with
              | .error f => .error f
              | .ok sigmas' => .ok (vals', sigmas')

/-- The function `DepthMap::generatePlane(camera, params, TcameraPlane,
polygonVec)`.  The argument `depth` is the map that the constructor
`DepthMap(camera, params)` of `depth_map.h` returns; `params` are its scale
parameters. -/
def DepthMap.generatePlane (e : Env) (camera : ICamera) (depth : DepthMap)
    (TcameraPlane : Transformation) (polygonVec : List Vector3d) : Except Fault DepthMap :=
  let t := TcameraPlane.trans
  let z := TcameraPlane.rotMatCol 2
  let polygonCamVec := TcameraPlane.transform polygonVec
  match forLoop (fun v st =>
      forLoop (fun u st' => planeCell e camera depth t z polygonCamVec u v st') 0
        depth.xMax.toNat st) 0 depth.yMax.toNat (depth.valVec, depth.sigmaVec) with
  | .error f => .error f
  | .ok st => .ok { depth with valVec := st.1, sigmaVec := st.2 }

/-- The ray `vec` is on the non-negative side of every edge of the polygon:
`vec · (p_i × p_{(i+1) mod n}) ≥ 0` for every `i`. -/
def InsideCone (vec : Vector3d) (polygon : List Vector3d) : Prop :=
  ∀ (i : Nat) (pi pj : Vector3d), polygon[i]? = some pi →
    polygon[(i + 1) % polygon.length]? = some pj → 0 ≤ vec.dot (pi.cross pj)

/-- The ray `vec` of cell `(u, v)` hits the plane inside the polygon: the camera
reconstructs the pixel to `vec`, `z · vec ≥ 1e-3`, and `vec` is inside the cone
of the polygon. -/
def PlaneHit (camera : ICamera) (depth : DepthMap) (z : Vector3d) (polygon : List Vector3d)
    (u v : Int) (vec : Vector3d) : Prop :=
  camera.reconstructPoint ((depth.uConv u : ℚ), (depth.vConv v : ℚ)) = some vec ∧
    1 / 1000 ≤ z.dot vec ∧ InsideCone vec polygon

/-- The depth `d` and sigma `s` that a cell `(u, v)` must hold after
`generatePlane`, for the polygon against which the rays are tested. -/
def PlaneCellSpec (e : Env) (camera : ICamera) (depth : DepthMap) (t z : Vector3d)
    (polygon : List Vector3d) (u v : Int) (d s : ℚ) : Prop :=
  (∀ vec, PlaneHit camera depth z polygon u v vec →
    d = e.norm (vec.scale (t.dot z / z.dot vec)) ∧ s = 1) ∧
  ((¬ ∃ vec, PlaneHit camera depth z polygon u v vec) →
    d = e.OUT_OF_RANGE ∧ s = e.OUT_OF_RANGE)

/-- The arrays `st` in the course of `generatePlane`: the cells selected by `done`
hold their final depth and sigma. -/
def PlaneUpTo (e : Env) (camera : ICamera) (depth : DepthMap) (t z : Vector3d)
    (polygon : List Vector3d) (done : Int → Int → Prop) (st : List ℚ × List ℚ) : Prop :=
  st.1.length = depth.valVec.length ∧ st.2.length = depth.sigmaVec.length ∧
    ∀ u v, 0 ≤ u → u < depth.xMax → 0 ≤ v → v < depth.yMax → done u v →
      ∃ d s, rd st.1 (depth.flatIdx u v 0) = .ok d ∧ rd st.2 (depth.flatIdx u v 0) = .ok s ∧
        PlaneCellSpec e camera depth t z polygon u v d s

/-! ## Cross-frame warping -/

/-- The conversion of a `double` to `int`: truncation towards zero. -/
def truncInt (q : ℚ) : Int := q.num.tdiv q.den

/-- The function `DepthMap::isValid(pt, h)` on a `Vector2d`: its coordinates are
converted to `int` and passed to `isValid(x, y, h)`. -/
def DepthMap.isValidPt (dm : DepthMap) (pt : Vector2d) (h : Int) : Bool :=
  dm.isValid (truncInt pt.1) (truncInt pt.2) h

/-- Step 4 of `wrapDepth(T12, scaleParams)`: the loop over `idx12Vec`, from
position `i` on, on the depth, sigma and cost arrays of `dMap2`; `src` is the
source map `*this`. -/
def wrapFillLoop (e : Env) (src : DepthMap) (cloud11MH : MHPack) (cloud12 : List Vector3d)
    (point12Vec : List Vector2d) :
    List Int → Int → List ℚ × List ℚ × List ℚ → Except Fault (List ℚ × List ℚ × List ℚ)
  | [], _, st => .ok st
  | idx2 :: rest, i, st =>
    match rd cloud11MH.idxVec idx2 with
    | .error f => .error f
    | .ok idx1 =>
      match rd point12Vec i with
      | .error f => .error f
      | .ok pt =>
        if src.isValidPt pt 0 then
          match rd cloud12 idx2 with
          | .error f => .error f
          | .ok X =>
            match wr st.1 idx2 (e.norm X) with
            | .error f => .error f
            | .ok vals =>
              match rd src.sigmaVec idx1 with
              | .error f => .error f
              | .ok s =>
                match wr st.2.1 idx2 s with
                | .error f => .error f
                | .ok sigmas =>
                  match rd src.costVec idx1 with
                  | .error f => .error f
                  | .ok c =>
                    match wr st.2.2 idx2 c with
                    | .error f => .error f
                    | .ok costs =>
                      wrapFillLoop e src cloud11MH cloud12 point12Vec rest (i + 1)
                        (vals, sigmas, costs)
        else wrapFillLoop e src cloud11MH cloud12 point12Vec rest (i + 1) st

/-- The function `DepthMap::wrapDepth(T12, scaleParams)` (the variant that
returns a new map), called on the source map `src`.  The argument `dMap2` is the
map that the constructor `DepthMap(cameraPtr, scaleParams)` of `depth_map.h`
returns. -/
def DepthMap.wrapDepth (e : Env) (src : DepthMap) (dMap2 : DepthMap) (T12 : Transformation) :
    Except Fault DepthMap :=
  match src.reconstruct e MHPack.cleared 0 with
  | .error f => .error f
  | .ok cloud11MH =>
    let cloud12 := T12.inverseTransform cloud11MH.cloud
    let point12Vec := dMap2.cameraPtr.projectPointCloud cloud12
    match src.getIdxVec e point12Vec with
    | .error f => .error f
    | .ok idx12Vec =>
      match wrapFillLoop e src cloud11MH cloud12 point12Vec idx12Vec 0
          (dMap2.valVec, dMap2.sigmaVec, dMap2.costVec) with
      | .error f => .error f
      | .ok st => .ok { dMap2 with valVec := st.1, sigmaVec := st.2.1, costVec := st.2.2 }

/-- Step 6 of `wrapDepth(dMap1, dMap2, T12, output)`: the loop over
`cloud22MH.idxVec`, from position `i` on, on the depth and sigma arrays of
`output`. -/
def wrapProjectLoop (e : Env) (cloud11MH cloud22MH : MHPack) (cloud21 : List Vector3d) :
    List Int → Int → List ℚ × List ℚ → Except Fault (List ℚ × List ℚ)
  | [], _, st => .ok st
  | idx1 :: rest, i, st =>
    match rd cloud11MH.idxVec idx1 with
    | .error f => .error f
    | .ok idx0 =>
      match rd cloud21 i with
      | .error f => .error f
      | .ok X2 =>
        match rd cloud11MH.cloud idx0 with
        | .error f => .error f
        | .ok X1 =>
          match wr st.1 idx0 (X2.dot (e.normalized X1)) with
          | .error f => .error f
          | .ok vals =>
            match rd cloud22MH.valVec idx1 with
            | .error f => .error f
            | .ok s =>
              match wr st.2 idx0 s with
              | .error f => .error f
              | .ok sigmas => wrapProjectLoop e cloud11MH cloud22MH cloud21 rest (i + 1) (vals, sigmas)

/-- The function `DepthMap::wrapDepth(dMap1, dMap2, T12, output)` (the variant
that fills an existing map): the map `output` after the call.  The function
`setTo` of `depth_map.h` is a parameter: `setTo d` is `d` after `d.setTo(0, 1)`. -/
def DepthMap.wrapDepthInto (e : Env) (setTo : DepthMap → DepthMap) (dMap1 dMap2 : DepthMap)
    (T12 : Transformation) : Except Fault DepthMap :=
  match dMap1.reconstruct e MHPack.cleared 0 with
  | .error f => .error f
  | .ok cloud11MH =>
    let cloud12 := T12.inverseTransform cloud11MH.cloud
    let _point12Vec := dMap2.cameraPtr.projectPointCloud cloud12
    match dMap2.reconstruct e MHPack.cleared e.QUERY_POINTS with
    | .error f => .error f
    | .ok cloud22MH =>
      let cloud21 := T12.transform cloud22MH.cloud
      let output := setTo dMap1
      match wrapProjectLoop e cloud11MH cloud22MH cloud21 cloud22MH.idxVec 0
          (output.valVec, output.sigmaVec) with
      | .error f => .error f
      | .ok st => .ok { output with valVec := st.1, sigmaVec := st.2 }

/-! ## Well-formed maps and collaborators -/

/-- The storage invariant of a depth map: non-negative dimensions and three
arrays of length `xMax * yMax * hMax`. -/
def DepthMap.WF (dm : DepthMap) : Prop :=
  0 ≤ dm.xMax ∧ 0 ≤ dm.yMax ∧ 0 ≤ dm.hMax ∧
    (dm.valVec.length : Int) = dm.xMax * dm.yMax * dm.hMax ∧
    (dm.sigmaVec.length : Int) = dm.xMax * dm.yMax * dm.hMax ∧
    (dm.costVec.length : Int) = dm.xMax * dm.yMax * dm.hMax

instance (dm : DepthMap) : Decidable dm.WF := by
  unfold DepthMap.WF; infer_instance

/-- The contract of `ICamera::reconstructPointCloud`: as many rays and as many
mask entries as image points. -/
def ICamera.LengthPreserving (cam : ICamera) : Prop :=
  ∀ pts, (cam.reconstructPointCloud pts).1.length = pts.length ∧
    (cam.reconstructPointCloud pts).2.length = pts.length

/-! ## A concrete environment, camera and map

They instantiate the parameters of the embedding so that the operations can be
evaluated on explicit inputs. -/

/-- The value of `X.norm()` on the vectors along a coordinate axis, the only
ones the explicit inputs below contain: there the sum of the absolute values of
the coordinates is the Euclidean norm. -/
def axisNorm (X : Vector3d) : ℚ := |X.x| + |X.y| + |X.z|

/-- The value of `X.normalized()` on the vectors along a coordinate axis. -/
def axisNormalized (X : Vector3d) : Vector3d :=
  if axisNorm X = 0 then X else ⟨X.x / axisNorm X, X.y / axisNorm X, X.z / axisNorm X⟩

/-- An environment with explicit constants and one-bit flag masks. -/
def demoEnv : Env where
  MIN_DEPTH := 1 / 10
  OUT_OF_RANGE := 0
  DEFAULT_DEPTH := 1
  DEFAULT_SIGMA_DEPTH := 100
  IMAGE_VALUES := 1
  MINMAX := 2
  ALL_HYPOTHESES := 4
  DEFAULT_VALUES := 8
  SIGMA_VALUE := 16
  QUERY_POINTS := 32
  QUERY_INDICES := 64
  INDEX_MAPPING := 128
  norm := axisNorm
  normalized := axisNormalized

/-- A pinhole camera with unit focal length and principal point `(0, 0)`. -/
def demoCamera : ICamera where
  projectPoint := fun X => if 0 < X.z then some (X.x / X.z, X.y / X.z) else none
  reconstructPoint := fun p => some ⟨p.1, p.2, 1⟩
  projectPointCloud := fun Xs => Xs.map fun X => (X.x / X.z, X.y / X.z)
  reconstructPointCloud := fun ps => (ps.map fun p => ⟨p.1, p.2, 1⟩, ps.map fun _ => true)

/-- An empty `xMax × yMax × hMax` map over `demoCamera` whose grid cells are the
unit pixels. -/
def demoMap (xMax yMax hMax : Nat) : DepthMap where
  xMax := xMax
  yMax := yMax
  xConv := fun u => Rat.floor u
  yConv := fun v => Rat.floor v
  uConv := fun x => x
  vConv := fun y => y
  hMax := hMax
  valVec := List.replicate (xMax * yMax * hMax) 0
  sigmaVec := List.replicate (xMax * yMax * hMax) 0
  costVec := List.replicate (xMax * yMax * hMax) 0
  cameraPtr := demoCamera

/-- The 4×4×2 map over `demoCamera` whose column `(0, 0)` holds depth 5, sigma 1
in slot 0 and depth 10, sigma 1 in slot 1; all other cells are empty. -/
def demoFilled : DepthMap :=
  { demoMap 4 4 2 with
    valVec := 5 :: List.replicate 15 0 ++ 10 :: List.replicate 15 0
    sigmaVec := 1 :: List.replicate 15 0 ++ 1 :: List.replicate 15 0 }

/-- The empty 4×4×1 map after depth `d` and sigma 1 have been stored in slot 0 of
cell `(0, 0)`. -/
def demoPushed (d : ℚ) : DepthMap :=
  { demoMap 4 4 1 with
    valVec := (demoMap 4 4 1).valVec.set 0 d
    sigmaVec := (demoMap 4 4 1).sigmaVec.set 0 1 }

/-- The rigid transformation with identity rotation and translation `t`. -/
def demoShift (t : Vector3d) : Transformation where
  trans := t
  rotMatCol := fun k => if k = 0 then ⟨1, 0, 0⟩ else if k = 1 then ⟨0, 1, 0⟩ else ⟨0, 0, 1⟩
  transform := fun Xs => Xs.map fun X => ⟨X.x + t.x, X.y + t.y, X.z + t.z⟩
  inverseTransform := fun Xs => Xs.map fun X => ⟨X.x - t.x, X.y - t.y, X.z - t.z⟩

/-- A square around the optical axis, counter-clockwise, at distance 1. -/
def demoSquare : List Vector3d := [⟨-1, -1, 1⟩, ⟨1, -1, 1⟩, ⟨1, 1, 1⟩, ⟨-1, 1, 1⟩]

/-- The 4×4×1 map over `demoCamera` whose only valid depth is 3 (sigma 1, cost 0)
at cell `(1, 1)`, grid index 5. -/
def demoOffAxis : DepthMap :=
  { demoMap 4 4 1 with
    valVec := (demoMap 4 4 1).valVec.set 5 3
    sigmaVec := (demoMap 4 4 1).sigmaVec.set 5 1 }

/-- The 4×4×1 map over `demoCamera` with depth 5 at cell `(0, 0)` and depth 3 at
cell `(1, 1)`, both with sigma 1. -/
def demoTwoCells : DepthMap :=
  { demoMap 4 4 1 with
    valVec := ((demoMap 4 4 1).valVec.set 0 5).set 5 3
    sigmaVec := ((demoMap 4 4 1).sigmaVec.set 0 1).set 5 1 }

/-- Modelled from the spec: `setTo(0, 1)` of `depth_map.h`, which is not among the
sources.  It resets hypothesis layer 0 of the map: depth 0 and sigma 1 in the
first `xMax * yMax` entries. -/
def demoSetTo (dm : DepthMap) : DepthMap :=
  { dm with
    valVec := List.replicate dm.hStep.toNat 0 ++ dm.valVec.drop dm.hStep.toNat
    sigmaVec := List.replicate dm.hStep.toNat 1 ++ dm.sigmaVec.drop dm.hStep.toNat }

/-! ## Checked access and counted loops -/

theorem rd_eq_ok_iff {α : Type} (v : List α) (i : Int) (a : α) :
    rd v i = .ok a ↔ 0 ≤ i ∧ v[i.toNat]? = some a := by
  unfold rd
  by_cases hi : 0 ≤ i
  · rw [if_pos hi]
    cases hv : v[i.toNat]? with
    | none => simp [hi]
    | some b => simp [hi]
  · rw [if_neg hi]; simp [hi]

theorem rd_ok_of_bounds {α : Type} (v : List α) (i : Int) (h0 : 0 ≤ i)
    (h1 : i < (v.length : Int)) : ∃ a, rd v i = .ok a := by
  have hlt : i.toNat < v.length := by omega
  refine ⟨v[i.toNat], ?_⟩
  rw [rd_eq_ok_iff]
  exact ⟨h0, List.getElem?_eq_getElem hlt⟩

theorem rd_bounds_of_ok {α : Type} {v : List α} {i : Int} {a : α} (h : rd v i = .ok a) :
    0 ≤ i ∧ i < (v.length : Int) := by
  rw [rd_eq_ok_iff] at h
  obtain ⟨h0, h1⟩ := h
  have := (List.getElem?_eq_some_iff.mp h1).1
  exact ⟨h0, by omega⟩

theorem wr_eq_ok_iff {α : Type} (v : List α) (i : Int) (a : α) (v' : List α) :
    wr v i a = .ok v' ↔ (0 ≤ i ∧ i < (v.length : Int)) ∧ v' = v.set i.toNat a := by
  unfold wr
  by_cases h : 0 ≤ i ∧ i.toNat < v.length
  · rw [if_pos h]
    have : i < (v.length : Int) := by omega
    simp [h.1, this, eq_comm]
  · rw [if_neg h]
    have : ¬ (0 ≤ i ∧ i < (v.length : Int)) := by omega
    simp [this]

theorem wr_ok_of_bounds {α : Type} (v : List α) (i : Int) (a : α) (h0 : 0 ≤ i)
    (h1 : i < (v.length : Int)) : wr v i a = .ok (v.set i.toNat a) := by
  rw [wr_eq_ok_iff]; exact ⟨⟨h0, h1⟩, rfl⟩

theorem rd_set_same {α : Type} (v : List α) (i : Int) (a : α) (h0 : 0 ≤ i)
    (h1 : i < (v.length : Int)) : rd (v.set i.toNat a) i = .ok a := by
  rw [rd_eq_ok_iff]
  refine ⟨h0, ?_⟩
  rw [List.getElem?_set]
  have : i.toNat < v.length := by omega
  simp [this]

theorem rd_set_other {α : Type} (v : List α) (i j : Int) (a : α) (h0 : 0 ≤ i)
    (hne : j ≠ i) : rd (v.set i.toNat a) j = rd v j := by
  unfold rd
  by_cases hj : 0 ≤ j
  · rw [if_pos hj, if_pos hj, List.getElem?_set]
    have : i.toNat ≠ j.toNat := by omega
    simp [this]
  · rw [if_neg hj, if_neg hj]

/-- Total correctness of a counted loop from an invariant `P k s` ("before
iteration `k` the state is `s`"). -/
theorem forLoop_total {σ : Type} (body : Int → σ → Except Fault σ) (P : Int → σ → Prop)
    (cnt : Nat) : ∀ (lo : Int) (s : σ), P lo s →
      (∀ k t, lo ≤ k → k < lo + cnt → P k t → ∃ t', body k t = .ok t' ∧ P (k + 1) t') →
      ∃ s', forLoop body lo cnt s = .ok s' ∧ P (lo + cnt) s' := by
  induction cnt with
  | zero => intro lo s h _; exact ⟨s, rfl, by simpa using h⟩
  | succ n ih =>
    intro lo s h step
    obtain ⟨t, ht, hP⟩ := step lo s le_rfl (by push_cast; omega) h
    obtain ⟨s', hs', hP'⟩ := ih (lo + 1) t hP (fun k u hk1 hk2 hu =>
      step k u (by omega) (by push_cast at hk2 ⊢; omega) hu)
    refine ⟨s', ?_, ?_⟩
    · simp only [forLoop, ht]; exact hs'
    · have : lo + 1 + (n : Int) = lo + ((n + 1 : Nat) : Int) := by push_cast; ring
      rw [← this]; exact hP'

/-- Partial correctness of a counted loop from an invariant. -/
theorem forLoop_inv {σ : Type} (body : Int → σ → Except Fault σ) (P : Int → σ → Prop)
    (cnt : Nat) : ∀ (lo : Int) (s s' : σ), P lo s →
      (∀ k t t', lo ≤ k → k < lo + cnt → P k t → body k t = .ok t' → P (k + 1) t') →
      forLoop body lo cnt s = .ok s' → P (lo + cnt) s' := by
  induction cnt with
  | zero =>
    intro lo s s' h _ hrun
    simp only [forLoop, Except.ok.injEq] at hrun
    subst hrun; simpa using h
  | succ n ih =>
    intro lo s s' h step hrun
    simp only [forLoop] at hrun
    cases hb : body lo s with
    | error f => rw [hb] at hrun; cases hrun
    | ok t =>
      rw [hb] at hrun
      have hP := step lo s t le_rfl (by push_cast; omega) h hb
      have := ih (lo + 1) t s' hP (fun k u u' hk1 hk2 hu hbu =>
        step k u u' (by omega) (by push_cast at hk2 ⊢; omega) hu hbu) hrun
      have e : lo + 1 + (n : Int) = lo + ((n + 1 : Nat) : Int) := by push_cast; ring
      rw [← e]; exact this

/-! ## The flattened index -/

theorem flat_bounds_arith (X Y H x y h : Int) (hx0 : 0 ≤ x) (hx : x < X) (hy0 : 0 ≤ y)
    (hy : y < Y) (hh0 : 0 ≤ h) (hh : h < H) :
    0 ≤ x + y * X + h * (X * Y) ∧ x + y * X + h * (X * Y) < X * Y * H := by
  have hX : 0 < X := by omega
  have hY : 0 < Y := by omega
  have h1 : 0 ≤ y * X := mul_nonneg hy0 hX.le
  have h2 : 0 ≤ X * Y := (mul_pos hX hY).le
  have h3 : 0 ≤ h * (X * Y) := mul_nonneg hh0 h2
  have h4 : (y + 1) * X ≤ Y * X := mul_le_mul_of_nonneg_right (by omega) hX.le
  have h5 : (h + 1) * (X * Y) ≤ H * (X * Y) := mul_le_mul_of_nonneg_right (by omega) h2
  constructor
  · omega
  · nlinarith

theorem col_bounds_arith (X Y x y : Int) (hx0 : 0 ≤ x) (hx : x < X) (hy0 : 0 ≤ y)
    (hy : y < Y) : 0 ≤ x + y * X ∧ x + y * X < X * Y := by
  have hX : 0 < X := by omega
  have h1 : 0 ≤ y * X := mul_nonneg hy0 hX.le
  have h4 : (y + 1) * X ≤ Y * X := mul_le_mul_of_nonneg_right (by omega) hX.le
  constructor
  · omega
  · nlinarith

theorem decomp_unique (M a b a' b' : Int) (ha0 : 0 ≤ a) (ha : a < M) (ha0' : 0 ≤ a')
    (ha' : a' < M) (h : a + b * M = a' + b' * M) : a = a' ∧ b = b' := by
  have hb : b = b' := by
    by_contra hne
    rcases lt_or_gt_of_ne hne with hlt | hgt
    · have : (b + 1) * M ≤ b' * M := mul_le_mul_of_nonneg_right (by omega) (by omega)
      nlinarith
    · have : (b' + 1) * M ≤ b * M := mul_le_mul_of_nonneg_right (by omega) (by omega)
      nlinarith
  subst hb
  exact ⟨by linarith, rfl⟩

theorem isValid_iff (dm : DepthMap) (x y h : Int) :
    dm.isValid x y h = true ↔
      0 ≤ x ∧ x < dm.xMax ∧ 0 ≤ y ∧ y < dm.yMax ∧ 0 ≤ h ∧ h < dm.hMax := by
  simp [DepthMap.isValid, and_assoc]

theorem flatIdx_bounds (dm : DepthMap) (x y h : Int) (hv : dm.isValid x y h = true) :
    0 ≤ dm.flatIdx x y h ∧ dm.flatIdx x y h < dm.xMax * dm.yMax * dm.hMax := by
  rw [isValid_iff] at hv
  obtain ⟨a, b, c, d, f, g⟩ := hv
  exact flat_bounds_arith _ _ _ _ _ _ a b c d f g

theorem flatIdx_inj (dm : DepthMap) (x y h x' y' h' : Int) (hv : dm.isValid x y h = true)
    (hv' : dm.isValid x' y' h' = true) (heq : dm.flatIdx x y h = dm.flatIdx x' y' h') :
    x = x' ∧ y = y' ∧ h = h' := by
  rw [isValid_iff] at hv hv'
  obtain ⟨a, b, c, d, _, _⟩ := hv
  obtain ⟨a', b', c', d', _, _⟩ := hv'
  have hc := col_bounds_arith _ _ _ _ a b c d
  have hc' := col_bounds_arith _ _ _ _ a' b' c' d'
  unfold DepthMap.flatIdx DepthMap.hStep at heq
  obtain ⟨h1, h2⟩ := decomp_unique _ _ _ _ _ hc.1 hc.2 hc'.1 hc'.2 heq
  obtain ⟨h3, h4⟩ := decomp_unique _ _ _ _ _ a b a' b' h1
  exact ⟨h3, h4, h2⟩

/-- In a well-formed map every addressable cell can be read in each array. -/
theorem rd_cell_ok (dm : DepthMap) (hwf : dm.WF) (x y h : Int)
    (hv : dm.isValid x y h = true) :
    (∃ d, rd dm.valVec (dm.flatIdx x y h) = .ok d) ∧
    (∃ s, rd dm.sigmaVec (dm.flatIdx x y h) = .ok s) ∧
    (∃ c, rd dm.costVec (dm.flatIdx x y h) = .ok c) := by
  obtain ⟨_, _, _, h1, h2, h3⟩ := hwf
  have hb := flatIdx_bounds dm x y h hv
  exact ⟨rd_ok_of_bounds _ _ hb.1 (by rw [h1]; exact hb.2),
    rd_ok_of_bounds _ _ hb.1 (by rw [h2]; exact hb.2),
    rd_ok_of_bounds _ _ hb.1 (by rw [h3]; exact hb.2)⟩

/-! ## Nearest-neighbour accessors -/

/-- C6: for every pixel coordinate `(u, v)` and hypothesis index `h`, with
`xd = xConv(u)` and `yd = yConv(v)`: outside `0 ≤ xd < xMax`, `0 ≤ yd < yMax`,
`0 ≤ h < hMax` the accessors `nearest`, `nearestSigma`, `nearestCost` return
`OUT_OF_RANGE`; inside they return the depth, sigma and cost stored at the
flattened index of cell `(xd, yd, h)`, whatever the stored values are. -/
theorem nearest_accessors (e : Env) (dm : DepthMap) (hwf : dm.WF) (u v : ℚ) (h : Int) :
    (¬ (0 ≤ dm.xConv u ∧ dm.xConv u < dm.xMax ∧ 0 ≤ dm.yConv v ∧ dm.yConv v < dm.yMax ∧
          0 ≤ h ∧ h < dm.hMax) →
      dm.nearest e u v h = .ok e.OUT_OF_RANGE ∧
      dm.nearestSigma e u v h = .ok e.OUT_OF_RANGE ∧
      dm.nearestCost e u v h = .ok e.OUT_OF_RANGE) ∧
    ((0 ≤ dm.xConv u ∧ dm.xConv u < dm.xMax ∧ 0 ≤ dm.yConv v ∧ dm.yConv v < dm.yMax ∧
          0 ≤ h ∧ h < dm.hMax) →
      ∃ d s c : ℚ,
        dm.valVec[(dm.flatIdx (dm.xConv u) (dm.yConv v) h).toNat]? = some d ∧
        dm.sigmaVec[(dm.flatIdx (dm.xConv u) (dm.yConv v) h).toNat]? = some s ∧
        dm.costVec[(dm.flatIdx (dm.xConv u) (dm.yConv v) h).toNat]? = some c ∧
        dm.nearest e u v h = .ok d ∧
        dm.nearestSigma e u v h = .ok s ∧
        dm.nearestCost e u v h = .ok c) := by
  constructor
  · intro hout
    have hv : dm.isValid (dm.xConv u) (dm.yConv v) h = false := by
      rw [← Bool.not_eq_true, isValid_iff]; exact hout
    simp [DepthMap.nearest, DepthMap.nearestSigma, DepthMap.nearestCost, hv]
  · intro hin
    have hv : dm.isValid (dm.xConv u) (dm.yConv v) h = true := (isValid_iff _ _ _ _).2 hin
    obtain ⟨⟨d, hd⟩, ⟨s, hs⟩, ⟨c, hc⟩⟩ := rd_cell_ok dm hwf _ _ _ hv
    refine ⟨d, s, c, ((rd_eq_ok_iff _ _ _).1 hd).2, ((rd_eq_ok_iff _ _ _).1 hs).2,
      ((rd_eq_ok_iff _ _ _).1 hc).2, ?_, ?_, ?_⟩
    · simp [DepthMap.nearest, hv, hd]
    · simp [DepthMap.nearestSigma, hv, hs]
    · simp [DepthMap.nearestCost, hv, hc]

/-- C6 at an explicit input: the empty 4×4×1 map, pixel `(1, 2)`, slot 0. -/
theorem nearest_accessors_witness :
    (demoMap 4 4 1).WF ∧ (demoMap 4 4 1).nearest demoEnv 1 2 0 = .ok 0 ∧
      (demoMap 4 4 1).nearest demoEnv 1 2 1 = .ok demoEnv.OUT_OF_RANGE :=
  ⟨by decide,
    by
      obtain ⟨d, _, _, hd, _, _, hn, _, _⟩ :=
        (nearest_accessors demoEnv (demoMap 4 4 1) (by decide) 1 2 0).2 (by decide!)
      have : d = 0 := by
        have h0 : (demoMap 4 4 1).valVec[((demoMap 4 4 1).flatIdx
            ((demoMap 4 4 1).xConv 1) ((demoMap 4 4 1).yConv 2) 0).toNat]? = some 0 := by decide!
        rw [h0] at hd; exact (Option.some.inj hd).symm
      rw [hn, this],
    ((nearest_accessors demoEnv (demoMap 4 4 1) (by decide) 1 2 1).1 (by decide!)).1⟩

/-! ## Hypothesis insertion -/

/-- The slot scan of `pushHypothesis` on an in-grid column of a well-formed map:
it stops at the first slot with a depth below `MIN_DEPTH`, or at `hMax`. -/
theorem findSlot_spec (e : Env) (dm : DepthMap) (hwf : dm.WF) (x y : Int)
    (hx : 0 ≤ x ∧ x < dm.xMax) (hy : 0 ≤ y ∧ y < dm.yMax) :
    ∀ (n : Nat) (h0 : Int), 0 ≤ h0 → h0 + n = dm.hMax →
      ∃ h, findSlot e dm x y h0 n = .ok h ∧ h0 ≤ h ∧ h ≤ dm.hMax ∧
        (∀ k, h0 ≤ k → k < h →
          ∃ d, rd dm.valVec (dm.flatIdx x y k) = .ok d ∧ e.MIN_DEPTH ≤ d) ∧
        (h < dm.hMax → ∃ d, rd dm.valVec (dm.flatIdx x y h) = .ok d ∧ d < e.MIN_DEPTH) := by
  intro n
  induction n with
  | zero =>
    intro h0 _ hsum
    refine ⟨h0, rfl, le_rfl, by omega, ?_, ?_⟩
    · intro k hk1 hk2; omega
    · intro hlt; simp at hsum; omega
  | succ n ih =>
    intro h0 hnn hsum
    have hlt : h0 < dm.hMax := by push_cast at hsum; omega
    have hv : dm.isValid x y h0 = true := (isValid_iff _ _ _ _).2 ⟨hx.1, hx.2, hy.1, hy.2, hnn, hlt⟩
    obtain ⟨d, hd⟩ := (rd_cell_ok dm hwf x y h0 hv).1
    by_cases hge : e.MIN_DEPTH ≤ d
    · obtain ⟨h, hrun, hle, hmax, hfull, hfree⟩ := ih (h0 + 1) (by omega) (by push_cast at hsum; omega)
      refine ⟨h, ?_, by omega, hmax, ?_, hfree⟩
      · simp only [findSlot, if_pos hlt, hd, ge_iff_le, if_pos hge]; exact hrun
      · intro k hk1 hk2
        by_cases hk : k = h0
        · subst hk; exact ⟨d, hd, hge⟩
        · exact hfull k (by omega) hk2
    · refine ⟨h0, ?_, le_rfl, hlt.le, ?_, ?_⟩
      · simp only [findSlot, if_pos hlt, hd, ge_iff_le, if_neg hge]
      · intro k hk1 hk2; omega
      · intro _; exact ⟨d, hd, lt_of_not_le hge⟩

/-- The outcome of `pushHypothesis` on a well-formed map, case by case. -/
theorem pushHypothesis_cases (e : Env) (dm : DepthMap) (hwf : dm.WF) (X : Vector3d)
    (sigmaVal : ℚ) :
    (dm.cameraPtr.projectPoint X = none ∧ dm.pushHypothesis e X sigmaVal = .ok (false, dm)) ∨
    (∃ pt, dm.cameraPtr.projectPoint X = some pt ∧
      ¬ (0 ≤ dm.xConv pt.1 ∧ dm.xConv pt.1 < dm.xMax ∧ 0 ≤ dm.yConv pt.2 ∧
          dm.yConv pt.2 < dm.yMax ∧ 0 < dm.hMax) ∧
      dm.pushHypothesis e X sigmaVal = .ok (false, dm)) ∨
    (∃ pt, dm.cameraPtr.projectPoint X = some pt ∧
      (0 ≤ dm.xConv pt.1 ∧ dm.xConv pt.1 < dm.xMax ∧ 0 ≤ dm.yConv pt.2 ∧
          dm.yConv pt.2 < dm.yMax ∧ 0 < dm.hMax) ∧
      (∀ k, 0 ≤ k → k < dm.hMax → ∃ d,
        rd dm.valVec (dm.flatIdx (dm.xConv pt.1) (dm.yConv pt.2) k) = .ok d ∧ e.MIN_DEPTH ≤ d) ∧
      dm.pushHypothesis e X sigmaVal = .ok (false, dm)) ∨
    (∃ pt h, dm.cameraPtr.projectPoint X = some pt ∧
      (0 ≤ dm.xConv pt.1 ∧ dm.xConv pt.1 < dm.xMax ∧ 0 ≤ dm.yConv pt.2 ∧
          dm.yConv pt.2 < dm.yMax) ∧ 0 ≤ h ∧ h < dm.hMax ∧
      (∀ k, 0 ≤ k → k < h → ∃ d,
        rd dm.valVec (dm.flatIdx (dm.xConv pt.1) (dm.yConv pt.2) k) = .ok d ∧ e.MIN_DEPTH ≤ d) ∧
      (∃ d, rd dm.valVec (dm.flatIdx (dm.xConv pt.1) (dm.yConv pt.2) h) = .ok d ∧
        d < e.MIN_DEPTH) ∧
      dm.pushHypothesis e X sigmaVal = .ok (true,
        { dm with
          valVec := dm.valVec.set (dm.flatIdx (dm.xConv pt.1) (dm.yConv pt.2) h).toNat (e.norm X)
          sigmaVec :=
            dm.sigmaVec.set (dm.flatIdx (dm.xConv pt.1) (dm.yConv pt.2) h).toNat sigmaVal })) := by
  cases hp : dm.cameraPtr.projectPoint X with
  | none => left; exact ⟨rfl, by simp [DepthMap.pushHypothesis, hp]⟩
  | some pt =>
    right
    by_cases hv : dm.isValid (dm.xConv pt.1) (dm.yConv pt.2) 0 = true
    · right
      have hv' := (isValid_iff _ _ _ _).1 hv
      obtain ⟨hx0, hx1, hy0, hy1, _, hh⟩ := hv'
      obtain ⟨h, hrun, h0, hmax, hfull, hfree⟩ :=
        findSlot_spec e dm hwf _ _ ⟨hx0, hx1⟩ ⟨hy0, hy1⟩ dm.hMax.toNat 0 le_rfl (by omega)
      by_cases hfullcol : h = dm.hMax
      · left
        refine ⟨pt, rfl, ⟨hx0, hx1, hy0, hy1, hh⟩, ?_, ?_⟩
        · intro k hk0 hk1; exact hfull k hk0 (by omega)
        · simp [DepthMap.pushHypothesis, hp, hv, hrun, hfullcol]
      · right
        have hlt : h < dm.hMax := lt_of_le_of_ne hmax hfullcol
        have hvh : dm.isValid (dm.xConv pt.1) (dm.yConv pt.2) h = true :=
          (isValid_iff _ _ _ _).2 ⟨hx0, hx1, hy0, hy1, h0, hlt⟩
        have hb := flatIdx_bounds dm _ _ _ hvh
        obtain ⟨_, _, _, l1, l2, _⟩ := hwf
        refine ⟨pt, h, rfl, ⟨hx0, hx1, hy0, hy1⟩, h0, hlt, hfull, hfree hlt, ?_⟩
        simp [DepthMap.pushHypothesis, hp, hv, hrun, hfullcol,
          wr_ok_of_bounds _ _ _ hb.1 (by rw [l1]; exact hb.2),
          wr_ok_of_bounds _ _ _ hb.1 (by rw [l2]; exact hb.2)]
    · left
      refine ⟨pt, rfl, ?_, by simp [DepthMap.pushHypothesis, hp, hv]⟩
      intro hc
      exact hv ((isValid_iff _ _ _ _).2 ⟨hc.1, hc.2.1, hc.2.2.1, hc.2.2.2.1, le_rfl, hc.2.2.2.2⟩)

/-- C4: on a well-formed map `pushHypothesis(X, sigmaVal)` returns `false` if and
only if the camera fails to project `X`, or the projected point maps to grid
coordinates outside `0 ≤ x < xMax`, `0 ≤ y < yMax`, or every slot `0..hMax-1` of
the target column holds a depth `≥ MIN_DEPTH`; and when it returns `false` the
map (hence its depth, sigma and cost arrays) is unchanged. -/
theorem pushHypothesis_failure (e : Env) (dm : DepthMap) (hwf : dm.WF) (X : Vector3d)
    (sigmaVal : ℚ) :
    ∃ b dm', dm.pushHypothesis e X sigmaVal = .ok (b, dm') ∧
      (b = false ↔
        (dm.cameraPtr.projectPoint X = none ∨
          ∃ pt, dm.cameraPtr.projectPoint X = some pt ∧
            (¬ (0 ≤ dm.xConv pt.1 ∧ dm.xConv pt.1 < dm.xMax ∧
                0 ≤ dm.yConv pt.2 ∧ dm.yConv pt.2 < dm.yMax) ∨
              ∀ h, 0 ≤ h → h < dm.hMax → ∃ d,
                rd dm.valVec (dm.flatIdx (dm.xConv pt.1) (dm.yConv pt.2) h) = .ok d ∧
                  e.MIN_DEPTH ≤ d))) ∧
      (b = false → dm' = dm ∧ dm'.valVec = dm.valVec ∧ dm'.sigmaVec = dm.sigmaVec ∧
        dm'.costVec = dm.costVec) := by
  rcases pushHypothesis_cases e dm hwf X sigmaVal with
    ⟨hp, hr⟩ | ⟨pt, hp, hout, hr⟩ | ⟨pt, hp, hin, hfull, hr⟩ | ⟨pt, h, hp, hin, h0, h1, hfull, ⟨d, hd, hdlt⟩, hr⟩
  · exact ⟨false, dm, hr, ⟨fun _ => Or.inl hp, fun _ => rfl⟩, fun _ => ⟨rfl, rfl, rfl, rfl⟩⟩
  · refine ⟨false, dm, hr, ⟨fun _ => Or.inr ⟨pt, hp, ?_⟩, fun _ => rfl⟩, fun _ => ⟨rfl, rfl, rfl, rfl⟩⟩
    by_cases hg : 0 ≤ dm.xConv pt.1 ∧ dm.xConv pt.1 < dm.xMax ∧
        0 ≤ dm.yConv pt.2 ∧ dm.yConv pt.2 < dm.yMax
    · right
      intro k hk0 hk1
      exact absurd ⟨hg.1, hg.2.1, hg.2.2.1, hg.2.2.2, by omega⟩ hout
    · left; exact hg
  · exact ⟨false, dm, hr, ⟨fun _ => Or.inr ⟨pt, hp, Or.inr hfull⟩, fun _ => rfl⟩,
      fun _ => ⟨rfl, rfl, rfl, rfl⟩⟩
  · refine ⟨true, _, hr, ⟨fun hb => (by cases hb), ?_⟩, fun hb => (by cases hb)⟩
    rintro (hnone | ⟨pt', hp', hout | hfull'⟩)
    · rw [hp] at hnone; cases hnone
    · rw [hp] at hp'; cases hp'; exact absurd hin hout
    · rw [hp] at hp'; cases hp'
      obtain ⟨d', hd', hge⟩ := hfull' h h0 h1
      rw [hd] at hd'; cases hd'
      exact absurd hdlt (not_lt.2 hge)

/-- C4 at explicit inputs: a point behind the camera of the empty 4×4×1 map. -/
theorem pushHypothesis_failure_witness :
    (demoMap 4 4 1).WF ∧
      (demoMap 4 4 1).pushHypothesis demoEnv ⟨0, 0, -1⟩ 1 = .ok (false, demoMap 4 4 1) :=
  ⟨by decide, by
    obtain ⟨b, dm', hr, hiff, hsame⟩ :=
      pushHypothesis_failure demoEnv (demoMap 4 4 1) (by decide) ⟨0, 0, -1⟩ 1
    have hb : b = false := hiff.2 (Or.inl (by decide!))
    rw [hr, hb, (hsame hb).1]⟩

/-- C3: when `pushHypothesis(X, sigmaVal)` returns `true` on a well-formed map,
with `(x, y)` the grid coordinates of the projection of `X` and `h` the smallest
slot of that column whose depth was below `MIN_DEPTH`: afterwards the depth at
`(x, y, h)` is `|X|` and the sigma there is `sigmaVal`; every other entry of the
depth and sigma arrays (by flattened index, and by addressable cell) and the
whole cost array are unchanged. -/
theorem pushHypothesis_success_effect (e : Env) (dm : DepthMap) (hwf : dm.WF) (X : Vector3d)
    (sigmaVal : ℚ) (dm' : DepthMap) (hret : dm.pushHypothesis e X sigmaVal = .ok (true, dm')) :
    ∃ pt h, dm.cameraPtr.projectPoint X = some pt ∧
      (0 ≤ dm.xConv pt.1 ∧ dm.xConv pt.1 < dm.xMax ∧ 0 ≤ dm.yConv pt.2 ∧
        dm.yConv pt.2 < dm.yMax) ∧ 0 ≤ h ∧ h < dm.hMax ∧
      (∃ d, rd dm.valVec (dm.flatIdx (dm.xConv pt.1) (dm.yConv pt.2) h) = .ok d ∧
        d < e.MIN_DEPTH) ∧
      (∀ k, 0 ≤ k → k < h → ∃ d,
        rd dm.valVec (dm.flatIdx (dm.xConv pt.1) (dm.yConv pt.2) k) = .ok d ∧ e.MIN_DEPTH ≤ d) ∧
      rd dm'.valVec (dm.flatIdx (dm.xConv pt.1) (dm.yConv pt.2) h) = .ok (e.norm X) ∧
      rd dm'.sigmaVec (dm.flatIdx (dm.xConv pt.1) (dm.yConv pt.2) h) = .ok sigmaVal ∧
      (∀ j, j ≠ dm.flatIdx (dm.xConv pt.1) (dm.yConv pt.2) h →
        rd dm'.valVec j = rd dm.valVec j ∧ rd dm'.sigmaVec j = rd dm.sigmaVec j) ∧
      (∀ x' y' h', dm.isValid x' y' h' = true →
        (x', y', h') ≠ (dm.xConv pt.1, dm.yConv pt.2, h) →
        rd dm'.valVec (dm.flatIdx x' y' h') = rd dm.valVec (dm.flatIdx x' y' h') ∧
        rd dm'.sigmaVec (dm.flatIdx x' y' h') = rd dm.sigmaVec (dm.flatIdx x' y' h')) ∧
      dm'.valVec.length = dm.valVec.length ∧ dm'.sigmaVec.length = dm.sigmaVec.length ∧
      dm'.costVec = dm.costVec ∧ dm'.toScaleParameters = dm.toScaleParameters ∧
      dm'.hMax = dm.hMax ∧ dm'.cameraPtr = dm.cameraPtr := by
  rcases pushHypothesis_cases e dm hwf X sigmaVal with
    ⟨hp, hr⟩ | ⟨pt, hp, hout, hr⟩ | ⟨pt, hp, hin, hfull, hr⟩ | ⟨pt, h, hp, hin, h0, h1, hfull, hfree, hr⟩
  · rw [hr] at hret; cases hret
  · rw [hr] at hret; cases hret
  · rw [hr] at hret; cases hret
  · rw [hr] at hret
    simp only [Except.ok.injEq, Prod.mk.injEq, true_and] at hret
    subst hret
    have hvh : dm.isValid (dm.xConv pt.1) (dm.yConv pt.2) h = true :=
      (isValid_iff _ _ _ _).2 ⟨hin.1, hin.2.1, hin.2.2.1, hin.2.2.2, h0, h1⟩
    have hb := flatIdx_bounds dm _ _ _ hvh
    obtain ⟨_, _, _, l1, l2, _⟩ := hwf
    refine ⟨pt, h, hp, hin, h0, h1, hfree, hfull, ?_, ?_, ?_, ?_, ?_, ?_, rfl, rfl, rfl, rfl⟩
    · exact rd_set_same _ _ _ hb.1 (by rw [l1]; exact hb.2)
    · exact rd_set_same _ _ _ hb.1 (by rw [l2]; exact hb.2)
    · intro j hj
      exact ⟨rd_set_other _ _ _ _ hb.1 hj, rd_set_other _ _ _ _ hb.1 hj⟩
    · intro x' y' h' hv' hne
      have hj : dm.flatIdx x' y' h' ≠ dm.flatIdx (dm.xConv pt.1) (dm.yConv pt.2) h := by
        intro heq
        obtain ⟨a, b, c⟩ := flatIdx_inj dm _ _ _ _ _ _ hv' hvh heq
        exact hne (by rw [a, b, c])
      exact ⟨rd_set_other _ _ _ _ hb.1 hj, rd_set_other _ _ _ _ hb.1 hj⟩
    · simp
    · simp

/-- C3 at explicit inputs: the point `(0, 0, 5)` pushed with sigma 1 into the
empty 4×4×1 map. -/
theorem pushHypothesis_success_effect_witness :
    (demoMap 4 4 1).WF ∧
    (demoMap 4 4 1).pushHypothesis demoEnv ⟨0, 0, 5⟩ 1 = .ok (true, demoPushed 5) ∧
    (demoPushed 5).costVec = (demoMap 4 4 1).costVec ∧
    (demoPushed 5).valVec.length = (demoMap 4 4 1).valVec.length :=
  ⟨by decide, by with_unfolding_all rfl, by
    obtain ⟨_, _, _, _, _, _, _, _, _, _, _, _, hlen, _, hcost, _⟩ :=
      pushHypothesis_success_effect demoEnv (demoMap 4 4 1) (by decide) ⟨0, 0, 5⟩ 1
        (demoPushed 5) (by with_unfolding_all rfl)
    exact ⟨hcost, hlen⟩⟩

/-- A push into a column whose first free slot is `k0`: it succeeds and writes
slot `k0`. -/
theorem pushHypothesis_at_first_free (e : Env) (dm : DepthMap) (hwf : dm.WF) (x y k0 : Int)
    (hk0 : 0 ≤ k0) (hk1 : k0 < dm.hMax)
    (hfull : ∀ j, 0 ≤ j → j < k0 → ∃ d, rd dm.valVec (dm.flatIdx x y j) = .ok d ∧ e.MIN_DEPTH ≤ d)
    (hfree : ∃ d, rd dm.valVec (dm.flatIdx x y k0) = .ok d ∧ d < e.MIN_DEPTH)
    (X : Vector3d) (sigmaVal : ℚ)
    (hproj : ∃ pt, dm.cameraPtr.projectPoint X = some pt ∧ dm.xConv pt.1 = x ∧ dm.yConv pt.2 = y)
    (hx : 0 ≤ x ∧ x < dm.xMax) (hy : 0 ≤ y ∧ y < dm.yMax) :
    dm.pushHypothesis e X sigmaVal = .ok (true,
      { dm with
        valVec := dm.valVec.set (dm.flatIdx x y k0).toNat (e.norm X)
        sigmaVec := dm.sigmaVec.set (dm.flatIdx x y k0).toNat sigmaVal }) := by
  obtain ⟨pt0, hp0, hx0, hy0⟩ := hproj
  rcases pushHypothesis_cases e dm hwf X sigmaVal with
    ⟨hp, _⟩ | ⟨pt, hp, hout, _⟩ | ⟨pt, hp, _, hfull', _⟩ | ⟨pt, h, hp, _, h0, h1, hfull', ⟨d, hd, hdlt⟩, hr⟩
  · rw [hp0] at hp; cases hp
  · rw [hp0] at hp; cases hp
    exact absurd ⟨by rw [hx0]; exact hx.1, by rw [hx0]; exact hx.2, by rw [hy0]; exact hy.1,
      by rw [hy0]; exact hy.2, by omega⟩ hout
  · rw [hp0] at hp; cases hp
    rw [hx0, hy0] at hfull'
    obtain ⟨d, hd, hge⟩ := hfull' k0 hk0 hk1
    obtain ⟨d', hd', hlt⟩ := hfree
    rw [hd] at hd'; cases hd'
    exact absurd hlt (not_lt.2 hge)
  · rw [hp0] at hp; cases hp
    rw [hx0, hy0] at hfull' hd hr
    have hh : h = k0 := by
      rcases lt_trichotomy h k0 with hlt | heq | hgt
      · obtain ⟨d', hd', hge⟩ := hfull h h0 hlt
        rw [hd] at hd'; cases hd'
        exact absurd hdlt (not_lt.2 hge)
      · exact heq
      · obtain ⟨d', hd', hge⟩ := hfull' k0 hk0 hgt
        obtain ⟨d'', hd'', hlt⟩ := hfree
        rw [hd'] at hd''; cases hd''
        exact absurd hlt (not_lt.2 hge)
    rw [← hh]; exact hr

/-- Slots of one in-grid column have different flattened indices. -/
theorem flatIdx_slot_ne (dm : DepthMap) (x y j k : Int) (hx : 0 ≤ x ∧ x < dm.xMax)
    (hy : 0 ≤ y ∧ y < dm.yMax) (hne : j ≠ k) : dm.flatIdx x y j ≠ dm.flatIdx x y k := by
  intro heq
  have hc := col_bounds_arith _ _ _ _ hx.1 hx.2 hy.1 hy.2
  unfold DepthMap.flatIdx DepthMap.hStep at heq
  exact hne (decomp_unique _ _ _ _ _ hc.1 hc.2 hc.1 hc.2 heq).2

/-- Filling a column from its first free slot `k0` on: every push succeeds, the
`i`-th one writes slot `k0 + i`, and the other slots of the column keep their
depth. -/
theorem pushAll_fill (e : Env) (x y : Int) :
    ∀ (pts : List (Vector3d × ℚ)) (dm : DepthMap) (k0 : Int), dm.WF →
      (0 ≤ x ∧ x < dm.xMax) → (0 ≤ y ∧ y < dm.yMax) → 0 ≤ k0 →
      k0 + (pts.length : Int) ≤ dm.hMax →
      (∀ j, 0 ≤ j → j < k0 → ∃ d, rd dm.valVec (dm.flatIdx x y j) = .ok d ∧ e.MIN_DEPTH ≤ d) →
      (∀ j, k0 ≤ j → j < dm.hMax → ∃ d, rd dm.valVec (dm.flatIdx x y j) = .ok d ∧ d < e.MIN_DEPTH) →
      (∀ p ∈ pts, ∃ pt, dm.cameraPtr.projectPoint p.1 = some pt ∧ dm.xConv pt.1 = x ∧
        dm.yConv pt.2 = y) →
      (∀ p ∈ pts, e.MIN_DEPTH ≤ e.norm p.1) →
      ∃ dm', pushAll e dm pts = .ok (List.replicate pts.length true, dm') ∧ dm'.WF ∧
        dm'.toScaleParameters = dm.toScaleParameters ∧ dm'.hMax = dm.hMax ∧
        dm'.cameraPtr = dm.cameraPtr ∧
        (∀ j, (j < k0 ∨ k0 + (pts.length : Int) ≤ j) →
          rd dm'.valVec (dm.flatIdx x y j) = rd dm.valVec (dm.flatIdx x y j) ∧
          rd dm'.sigmaVec (dm.flatIdx x y j) = rd dm.sigmaVec (dm.flatIdx x y j)) ∧
        (∀ (i : Nat) (hi : i < pts.length),
          rd dm'.valVec (dm.flatIdx x y (k0 + i)) = .ok (e.norm pts[i].1) ∧
          rd dm'.sigmaVec (dm.flatIdx x y (k0 + i)) = .ok pts[i].2) := by
  intro pts
  induction pts with
  | nil =>
    intro dm k0 hwf _ _ _ _ _ _ _ _
    exact ⟨dm, rfl, hwf, rfl, rfl, rfl, fun _ _ => ⟨rfl, rfl⟩, fun i hi => absurd hi (by simp)⟩
  | cons p ps ih =>
    intro dm k0 hwf hx hy hk0 hcap hfull hfree hproj hnorm
    have hk1 : k0 < dm.hMax := by simp at hcap; omega
    have hpush := pushHypothesis_at_first_free e dm hwf x y k0 hk0 hk1 hfull
      (hfree k0 le_rfl hk1) p.1 p.2 (hproj p (by simp)) hx hy
    have hv : dm.isValid x y k0 = true :=
      (isValid_iff _ _ _ _).2 ⟨hx.1, hx.2, hy.1, hy.2, hk0, hk1⟩
    have hb := flatIdx_bounds dm _ _ _ hv
    have hwf0 := hwf
    obtain ⟨w1, w2, w3, l1, l2, l3⟩ := hwf
    have hb1 : dm.flatIdx x y k0 < (dm.valVec.length : Int) := by rw [l1]; exact hb.2
    have hb2 : dm.flatIdx x y k0 < (dm.sigmaVec.length : Int) := by rw [l2]; exact hb.2
    obtain ⟨dm', hrun, hwf', hsp, hhm, hcam, hkeep, hnew⟩ := ih
      { dm with
        valVec := dm.valVec.set (dm.flatIdx x y k0).toNat (e.norm p.1)
        sigmaVec := dm.sigmaVec.set (dm.flatIdx x y k0).toNat p.2 }
      (k0 + 1)
      ⟨w1, w2, w3, by simpa using l1, by simpa using l2, l3⟩ hx hy (by omega)
      (by simp at hcap ⊢; omega)
      (by
        intro j hj0 hj1
        by_cases hj : j = k0
        · subst hj
          exact ⟨e.norm p.1, rd_set_same _ _ _ hb.1 hb1, hnorm p (by simp)⟩
        · obtain ⟨d, hd, hge⟩ := hfull j hj0 (by omega)
          refine ⟨d, ?_, hge⟩
          have := rd_set_other dm.valVec (dm.flatIdx x y k0) (dm.flatIdx x y j) (e.norm p.1)
            hb.1 (flatIdx_slot_ne dm x y j k0 hx hy hj)
          exact this.trans hd)
      (by
        intro j hj0 hj1
        obtain ⟨d, hd, hlt⟩ := hfree j (by omega) hj1
        refine ⟨d, ?_, hlt⟩
        have := rd_set_other dm.valVec (dm.flatIdx x y k0) (dm.flatIdx x y j) (e.norm p.1)
          hb.1 (flatIdx_slot_ne dm x y j k0 hx hy (by omega))
        exact this.trans hd)
      (fun q hq => hproj q (by simp [hq]))
      (fun q hq => hnorm q (by simp [hq]))
    refine ⟨dm', ?_, hwf', hsp, hhm, hcam, ?_, ?_⟩
    · simp only [pushAll, hpush, hrun, List.length_cons, List.replicate_succ]
    · intro j hj
      have h1 := hkeep j (by simp at hj ⊢; omega)
      have hne := flatIdx_slot_ne dm x y j k0 hx hy (by simp at hj; omega)
      exact ⟨h1.1.trans (rd_set_other dm.valVec _ _ (e.norm p.1) hb.1 hne),
        h1.2.trans (rd_set_other dm.sigmaVec _ _ p.2 hb.1 hne)⟩
    · intro i hi
      cases i with
      | zero =>
        have h1 := hkeep k0 (Or.inl (by omega))
        refine ⟨?_, ?_⟩
        · simp only [Nat.cast_zero, add_zero, List.getElem_cons_zero]
          exact h1.1.trans (rd_set_same _ _ _ hb.1 hb1)
        · simp only [Nat.cast_zero, add_zero, List.getElem_cons_zero]
          exact h1.2.trans (rd_set_same _ _ _ hb.1 hb2)
      | succ i =>
        have h1 := hnew i (by simpa using hi)
        have e1 : k0 + 1 + (i : Int) = k0 + ((i + 1 : Nat) : Int) := by push_cast; ring
        rw [e1] at h1
        simpa using h1

/-- C2: in a well-formed map with `hMax ≥ 1`, take an in-grid column `(x, y)`
whose `hMax` slots are all empty (depth `< MIN_DEPTH`) and `hMax` points that
all project into that column and have norm `≥ MIN_DEPTH`.  Pushing them in order
returns `true` every time and leaves in slot `k` the norm and the sigma of the
`k`-th point; a further push of a point projecting into the same column returns
`false` and leaves the map, hence its three arrays, as it was. -/
theorem pushHypothesis_capacity (e : Env) (dm : DepthMap) (hwf : dm.WF) (hh : 1 ≤ dm.hMax)
    (x y : Int) (hx : 0 ≤ x ∧ x < dm.xMax) (hy : 0 ≤ y ∧ y < dm.yMax)
    (hempty : ∀ h, 0 ≤ h → h < dm.hMax →
      ∃ d, rd dm.valVec (dm.flatIdx x y h) = .ok d ∧ d < e.MIN_DEPTH)
    (pts : List (Vector3d × ℚ)) (hlen : (pts.length : Int) = dm.hMax)
    (hproj : ∀ p ∈ pts, ∃ pt, dm.cameraPtr.projectPoint p.1 = some pt ∧ dm.xConv pt.1 = x ∧
      dm.yConv pt.2 = y)
    (hnorm : ∀ p ∈ pts, e.MIN_DEPTH ≤ e.norm p.1)
    (Y : Vector3d) (sigmaY : ℚ)
    (hY : ∃ pt, dm.cameraPtr.projectPoint Y = some pt ∧ dm.xConv pt.1 = x ∧ dm.yConv pt.2 = y) :
    ∃ dm', pushAll e dm pts = .ok (List.replicate pts.length true, dm') ∧
      (∀ (k : Nat) (hk : k < pts.length),
        rd dm'.valVec (dm.flatIdx x y k) = .ok (e.norm pts[k].1) ∧
        rd dm'.sigmaVec (dm.flatIdx x y k) = .ok pts[k].2) ∧
      dm'.pushHypothesis e Y sigmaY = .ok (false, dm') := by
  obtain ⟨dm', hrun, hwf', hsp, hhm, hcam, _, hnew⟩ :=
    pushAll_fill e x y pts dm 0 hwf hx hy le_rfl (by omega)
      (fun j hj0 hj1 => absurd hj1 (by omega)) (fun j hj0 hj1 => hempty j hj0 hj1) hproj hnorm
  have hnew' : ∀ (k : Nat) (hk : k < pts.length),
      rd dm'.valVec (dm.flatIdx x y k) = .ok (e.norm pts[k].1) ∧
      rd dm'.sigmaVec (dm.flatIdx x y k) = .ok pts[k].2 := by
    intro k hk
    have := hnew k hk
    simpa using this
  refine ⟨dm', hrun, hnew', ?_⟩
  have hxm : dm'.xMax = dm.xMax := by rw [show dm'.xMax = dm'.toScaleParameters.xMax from rfl, hsp]
  have hym : dm'.yMax = dm.yMax := by rw [show dm'.yMax = dm'.toScaleParameters.yMax from rfl, hsp]
  have hxc : dm'.xConv = dm.xConv := by rw [show dm'.xConv = dm'.toScaleParameters.xConv from rfl, hsp]
  have hyc : dm'.yConv = dm.yConv := by rw [show dm'.yConv = dm'.toScaleParameters.yConv from rfl, hsp]
  have hfl : ∀ a b c, dm'.flatIdx a b c = dm.flatIdx a b c := by
    intro a b c; simp [DepthMap.flatIdx, DepthMap.hStep, hxm, hym]
  obtain ⟨ptY, hpY, hxY, hyY⟩ := hY
  rcases pushHypothesis_cases e dm' hwf' Y sigmaY with
    ⟨hp, _⟩ | ⟨pt, hp, hout, _⟩ | ⟨pt, hp, _, _, hr⟩ | ⟨pt, h, hp, _, h0, h1, _, ⟨d, hd, hdlt⟩, _⟩
  · rw [hcam, hpY] at hp; cases hp
  · rw [hcam, hpY] at hp; cases hp
    rw [hxc, hyc, hxY, hyY, hxm, hym, hhm] at hout
    exact absurd ⟨hx.1, hx.2, hy.1, hy.2, by omega⟩ hout
  · exact hr
  · rw [hcam, hpY] at hp; cases hp
    rw [hxc, hyc, hxY, hyY, hfl] at hd
    rw [hhm] at h1
    have hk : h.toNat < pts.length := by omega
    have := (hnew' h.toNat hk).1
    rw [Int.toNat_of_nonneg h0, hd] at this
    cases this
    exact absurd hdlt (not_lt.2 (hnorm _ (List.getElem_mem _)))

/-- C2 at explicit inputs: two points on the optical axis pushed into column
`(0, 0)` of the empty 4×4×2 map, then a third one. -/
theorem pushHypothesis_capacity_witness :
    ∃ dm', pushAll demoEnv (demoMap 4 4 2) [(⟨0, 0, 5⟩, 1), (⟨0, 0, 7⟩, 2)] =
        .ok ([true, true], dm') ∧
      rd dm'.valVec 0 = .ok 5 ∧ rd dm'.valVec 16 = .ok 7 ∧
      dm'.pushHypothesis demoEnv ⟨0, 0, 9⟩ 3 = .ok (false, dm') := by
  obtain ⟨dm', hrun, hslots, hlast⟩ := pushHypothesis_capacity demoEnv (demoMap 4 4 2)
    (by decide) (by decide) 0 0 (by decide) (by decide)
    (by
      intro h h0 h1
      have h1' : h < 2 := h1
      interval_cases h
      · exact ⟨0, by decide!, by decide!⟩
      · exact ⟨0, by decide!, by decide!⟩)
    [(⟨0, 0, 5⟩, 1), (⟨0, 0, 7⟩, 2)] (by decide)
    (by
      intro p hp
      simp only [List.mem_cons, List.mem_singleton, List.not_mem_nil, or_false] at hp
      rcases hp with rfl | rfl
      · exact ⟨(0, 0), by decide!, by decide!, by decide!⟩
      · exact ⟨(0, 0), by decide!, by decide!, by decide!⟩)
    (by
      intro p hp
      simp only [List.mem_cons, List.mem_singleton, List.not_mem_nil, or_false] at hp
      rcases hp with rfl | rfl
      · decide!
      · decide!)
    ⟨0, 0, 9⟩ 3 ⟨(0, 0), by decide!, by decide!, by decide!⟩
  refine ⟨dm', hrun, ?_, ?_, hlast⟩
  · have := (hslots 0 (by decide)).1
    have e1 : (demoMap 4 4 2).flatIdx 0 0 ((0 : Nat) : Int) = 0 := by decide
    rw [e1] at this
    rw [this]; congr 1; decide!
  · have := (hslots 1 (by decide)).1
    have e1 : (demoMap 4 4 2).flatIdx 0 0 ((1 : Nat) : Int) = 16 := by decide
    rw [e1] at this
    rw [this]; congr 1; decide!

/-! ## Masking -/

theorem MaskedUpTo.congr (dm : DepthMap) (mask : Mat8u) (D D' : Int → Int → Int → Prop)
    (vs : List ℚ) (hD : ∀ x y h, dm.isValid x y h = true → (D x y h ↔ D' x y h))
    (hm : MaskedUpTo dm mask D vs) : MaskedUpTo dm mask D' vs := by
  refine ⟨hm.1, fun x y h hv => ?_⟩
  have := hm.2 x y h hv
  rw [hD x y h hv] at this
  exact this

/-- The innermost loop of `applyMask` on an in-grid column with a zero mask. -/
theorem maskColumn_spec (dm : DepthMap) (hwf : dm.WF) (mask : Mat8u)
    (D : Int → Int → Int → Prop) (x0 y0 : Int) (hx : 0 ≤ x0 ∧ x0 < dm.xMax)
    (hy : 0 ≤ y0 ∧ y0 < dm.yMax) (hmask : mask (dm.vConv y0) (dm.uConv x0) = 0)
    (vs : List ℚ) (hm : MaskedUpTo dm mask D vs) :
    ∃ vs', maskColumn dm x0 y0 vs = .ok vs' ∧
      MaskedUpTo dm mask (fun x y h => D x y h ∨ (x = x0 ∧ y = y0)) vs' := by
  obtain ⟨vs', hrun, hP⟩ := forLoop_total (fun h vs => wr vs (dm.flatIdx x0 y0 h) 0)
    (fun k t => MaskedUpTo dm mask (fun x y h => D x y h ∨ (x = x0 ∧ y = y0 ∧ h < k)) t)
    dm.hMax.toNat 0 vs
    (MaskedUpTo.congr dm mask _ _ vs (fun x y h hv => by
      have := (isValid_iff _ _ _ _).1 hv
      constructor
      · intro h1; exact Or.inl h1
      · rintro (h1 | ⟨_, _, h3⟩)
        · exact h1
        · omega) hm)
    (by
      intro k t hk0 hk1 hinv
      have hkm : k < dm.hMax := by omega
      have hv0 : dm.isValid x0 y0 k = true :=
        (isValid_iff _ _ _ _).2 ⟨hx.1, hx.2, hy.1, hy.2, hk0, hkm⟩
      have hb := flatIdx_bounds dm _ _ _ hv0
      have hlen : dm.flatIdx x0 y0 k < (t.length : Int) := by
        rw [hinv.1, hwf.2.2.2.1]; exact hb.2
      refine ⟨_, wr_ok_of_bounds _ _ _ hb.1 hlen, ?_, ?_⟩
      · rw [List.length_set]; exact hinv.1
      · intro x y h hv
        by_cases hc : x = x0 ∧ y = y0 ∧ h = k
        · obtain ⟨rfl, rfl, rfl⟩ := hc
          constructor
          · intro _; rw [if_pos hmask]; exact rd_set_same _ _ _ hb.1 hlen
          · intro hn; exact absurd (Or.inr ⟨rfl, rfl, by omega⟩) hn
        · have hne : dm.flatIdx x y h ≠ dm.flatIdx x0 y0 k := by
            intro heq
            obtain ⟨a, b, c⟩ := flatIdx_inj dm _ _ _ _ _ _ hv hv0 heq
            exact hc ⟨a, b, c⟩
          rw [rd_set_other _ _ _ _ hb.1 hne]
          have := hinv.2 x y h hv
          constructor
          · intro hd
            apply this.1
            rcases hd with h1 | ⟨h1, h2, h3⟩
            · exact Or.inl h1
            · exact Or.inr ⟨h1, h2, by
                rcases lt_or_eq_of_le (show h ≤ k by omega) with h4 | h4
                · exact h4
                · exact absurd ⟨h1, h2, h4⟩ hc⟩
          · intro hd
            apply this.2
            rintro (h1 | ⟨h1, h2, h3⟩)
            · exact hd (Or.inl h1)
            · exact hd (Or.inr ⟨h1, h2, by omega⟩))
  refine ⟨vs', hrun, MaskedUpTo.congr dm mask _ _ vs' (fun x y h hv => ?_) hP⟩
  have := (isValid_iff _ _ _ _).1 hv
  constructor
  · rintro (h1 | ⟨h1, h2, _⟩)
    · exact Or.inl h1
    · exact Or.inr ⟨h1, h2⟩
  · rintro (h1 | ⟨h1, h2⟩)
    · exact Or.inl h1
    · exact Or.inr ⟨h1, h2, by omega⟩

/-- The loop over `x` of `applyMask` on an in-grid row. -/
theorem maskRow_spec (dm : DepthMap) (hwf : dm.WF) (mask : Mat8u) (y0 : Int)
    (hy : 0 ≤ y0 ∧ y0 < dm.yMax) (vs : List ℚ)
    (hm : MaskedUpTo dm mask (fun _ y _ => y < y0) vs) :
    ∃ vs', maskRow dm mask y0 vs = .ok vs' ∧
      MaskedUpTo dm mask (fun _ y _ => y < y0 + 1) vs' := by
  obtain ⟨vs', hrun, hP⟩ := forLoop_total
    (fun x vs => if mask (dm.vConv y0) (dm.uConv x) = 0 then maskColumn dm x y0 vs else .ok vs)
    (fun k t => MaskedUpTo dm mask (fun x y _ => y < y0 ∨ (y = y0 ∧ x < k)) t)
    dm.xMax.toNat 0 vs
    (MaskedUpTo.congr dm mask _ _ vs (fun x y h hv => by
      have := (isValid_iff _ _ _ _).1 hv
      constructor
      · intro h1; exact Or.inl h1
      · rintro (h1 | ⟨_, h3⟩)
        · exact h1
        · omega) hm)
    (by
      intro k t hk0 hk1 hinv
      have hkm : k < dm.xMax := by omega
      by_cases hmask : mask (dm.vConv y0) (dm.uConv k) = 0
      · obtain ⟨t', ht', hinv'⟩ := maskColumn_spec dm hwf mask _ k y0 ⟨hk0, hkm⟩ hy hmask t hinv
        refine ⟨t', by simp only [if_pos hmask]; exact ht', ?_⟩
        refine MaskedUpTo.congr dm mask _ _ t' (fun x y h hv => ?_) hinv'
        constructor
        · rintro ((h1 | ⟨h1, h2⟩) | ⟨h1, h2⟩)
          · exact Or.inl h1
          · exact Or.inr ⟨h1, by omega⟩
          · exact Or.inr ⟨h2, by omega⟩
        · rintro (h1 | ⟨h1, h2⟩)
          · exact Or.inl (Or.inl h1)
          · rcases lt_or_eq_of_le (show x ≤ k by omega) with h3 | h3
            · exact Or.inl (Or.inr ⟨h1, h3⟩)
            · exact Or.inr ⟨h3, h1⟩
      · refine ⟨t, by simp only [if_neg hmask], hinv.1, fun x y h hv => ?_⟩
        have := hinv.2 x y h hv
        by_cases hc : x = k ∧ y = y0
        · obtain ⟨rfl, rfl⟩ := hc
          have hnd : ¬ (y < y ∨ (y = y ∧ x < x)) := by omega
          constructor
          · intro _; rw [if_neg hmask]; exact this.2 hnd
          · intro hn; exact absurd (Or.inr ⟨rfl, by omega⟩) hn
        · constructor
          · intro hd
            apply this.1
            rcases hd with h1 | ⟨h1, h2⟩
            · exact Or.inl h1
            · refine Or.inr ⟨h1, ?_⟩
              rcases lt_or_eq_of_le (show x ≤ k by omega) with h3 | h3
              · exact h3
              · exact absurd ⟨h3, h1⟩ hc
          · intro hd
            apply this.2
            rintro (h1 | ⟨h1, h2⟩)
            · exact hd (Or.inl h1)
            · exact hd (Or.inr ⟨h1, by omega⟩))
  refine ⟨vs', hrun, MaskedUpTo.congr dm mask _ _ vs' (fun x y h hv => ?_) hP⟩
  have := (isValid_iff _ _ _ _).1 hv
  constructor
  · rintro (h1 | ⟨h1, _⟩) <;> omega
  · intro h1
    rcases lt_or_eq_of_le (show y ≤ y0 by omega) with h3 | h3
    · exact Or.inl h3
    · exact Or.inr ⟨h3, by omega⟩

/-- C5: on a well-formed map, after `applyMask(mask)` the depth of every
addressable cell `(x, y, h)` is 0 when `mask(vConv(y), uConv(x))` is zero and is
its previous depth when the mask is non-zero there; the sigma and cost arrays
(and the dimensions and the length of the depth array) are unchanged. -/
theorem applyMask_effect (dm : DepthMap) (hwf : dm.WF) (mask : Mat8u) :
    ∃ dm', dm.applyMask mask = .ok dm' ∧ dm'.sigmaVec = dm.sigmaVec ∧
      dm'.costVec = dm.costVec ∧ dm'.valVec.length = dm.valVec.length ∧
      dm'.toScaleParameters = dm.toScaleParameters ∧ dm'.hMax = dm.hMax ∧
      ∀ x y h, dm.isValid x y h = true →
        (mask (dm.vConv y) (dm.uConv x) = 0 → rd dm'.valVec (dm.flatIdx x y h) = .ok 0) ∧
        (mask (dm.vConv y) (dm.uConv x) ≠ 0 →
          rd dm'.valVec (dm.flatIdx x y h) = rd dm.valVec (dm.flatIdx x y h)) := by
  obtain ⟨vs', hrun, hP⟩ := forLoop_total (fun y vs => maskRow dm mask y vs)
    (fun k t => MaskedUpTo dm mask (fun _ y _ => y < k) t) dm.yMax.toNat 0 dm.valVec
    ⟨rfl, fun x y h hv => ⟨fun hd => by
      have := (isValid_iff _ _ _ _).1 hv
      omega, fun _ => rfl⟩⟩
    (fun k t hk0 hk1 hinv => maskRow_spec dm hwf mask k ⟨hk0, by omega⟩ t hinv)
  refine ⟨{ dm with valVec := vs' }, ?_, rfl, rfl, hP.1, rfl, rfl, fun x y h hv => ?_⟩
  · simp only [DepthMap.applyMask, hrun]
  · have hy := (isValid_iff _ _ _ _).1 hv
    have := (hP.2 x y h hv).1 (by omega)
    constructor
    · intro hz; rw [if_pos hz] at this; exact this
    · intro hz; rw [if_neg hz] at this; exact this

/-- C5 at an explicit input: a mask that is zero exactly on pixel column 0,
applied to the 4×4×1 map holding depth 5 at cell `(0, 0)` and 7 at cell `(1, 0)`. -/
theorem applyMask_effect_witness :
    ∃ dm', ({ demoMap 4 4 1 with valVec := [5, 7] ++ List.replicate 14 0 } : DepthMap).applyMask
        (fun _ c => if c = 0 then 0 else 1) = .ok dm' ∧
      rd dm'.valVec 0 = .ok 0 ∧ rd dm'.valVec 1 = .ok 7 := by
  obtain ⟨dm', hrun, _, _, _, _, _, hcells⟩ := applyMask_effect
    ({ demoMap 4 4 1 with valVec := [5, 7] ++ List.replicate 14 0 } : DepthMap) (by decide)
    (fun _ c => if c = 0 then 0 else 1)
  refine ⟨dm', hrun, ?_, ?_⟩
  · exact (hcells 0 0 0 (by decide)).1 (by decide)
  · exact ((hcells 1 0 0 (by decide)).2 (by decide)).trans (by decide!)

/-! ## The query loop of `reconstruct` -/

theorem appendEntries_nil (e : Env) (fl : Nat) (st : MHPack × List ℚ) :
    appendEntries e fl st [] = st := rfl

theorem appendEntries_append (e : Env) (fl : Nat) (st : MHPack × List ℚ) (es es' : List Entry) :
    appendEntries e fl st (es ++ es') = appendEntries e fl (appendEntries e fl st es) es' := by
  simp [appendEntries, List.foldl_append]

theorem appendEntries_singleton (e : Env) (fl : Nat) (st : MHPack × List ℚ) (en : Entry) :
    appendEntries e fl st [en] = emitEntry e fl en.pos en.idx en.hyp en.depth en.sigma st := rfl

/-- What a list of entries appends to each vector of the loop state. -/
theorem appendEntries_fields (e : Env) (fl : Nat) (es : List Entry) :
    ∀ st : MHPack × List ℚ,
      (appendEntries e fl st es).1.idxVec = st.1.idxVec ++ es.map (fun en => en.idx) ∧
      (appendEntries e fl st es).1.hypIdxVec = st.1.hypIdxVec ++ es.map (fun en => en.hyp) ∧
      (appendEntries e fl st es).1.sigmaVec =
        st.1.sigmaVec ++ (if hasFlag fl e.SIGMA_VALUE then es.map (fun en => en.sigma) else []) ∧
      (appendEntries e fl st es).1.idxMapVec =
        st.1.idxMapVec ++ (if hasFlag fl e.INDEX_MAPPING then es.map (fun en => en.pos) else []) ∧
      (appendEntries e fl st es).1.costVec = st.1.costVec ∧
      (appendEntries e fl st es).1.valVec = st.1.valVec ∧
      (appendEntries e fl st es).1.imagePointVec = st.1.imagePointVec ∧
      (appendEntries e fl st es).1.cloud = st.1.cloud ∧
      (appendEntries e fl st es).2 = st.2 ++ depthVecOf e fl es := by
  induction es with
  | nil => intro st; simp [appendEntries, depthVecOf]
  | cons en es ih =>
    intro st
    have h := ih (emitEntry e fl en.pos en.idx en.hyp en.depth en.sigma st)
    have hcons : appendEntries e fl st (en :: es) =
        appendEntries e fl (emitEntry e fl en.pos en.idx en.hyp en.depth en.sigma st) es := rfl
    rw [hcons]
    obtain ⟨h1, h2, h3, h4, h5, h6, h7, h8, h9⟩ := h
    refine ⟨?_, ?_, ?_, ?_, ?_, ?_, ?_, ?_, ?_⟩
    · rw [h1]; unfold emitEntry; split_ifs <;> simp
    · rw [h2]; unfold emitEntry; split_ifs <;> simp
    · rw [h3]; unfold emitEntry; split_ifs <;> simp
    · rw [h4]; unfold emitEntry; split_ifs <;> simp
    · rw [h5]; unfold emitEntry; split_ifs <;> simp
    · rw [h6]; unfold emitEntry; split_ifs <;> simp
    · rw [h7]; unfold emitEntry; split_ifs <;> simp
    · rw [h8]; unfold emitEntry; split_ifs <;> simp
    · rw [h9]; unfold emitEntry depthVecOf; split_ifs <;> simp

/-- The body of the hypothesis loop returns exactly when both reads are inside
the arrays, and then it appends the entries of the slot. -/
theorem hypBody_eq_ok_iff (e : Env) (dm : DepthMap) (fl : Nat) (i q h : Int)
    (st st' : MHPack × List ℚ) :
    hypBody e dm fl i q h st = .ok st' ↔
      SlotReadable dm q h ∧ st' = appendEntries e fl st (slotEntries e dm fl i q h) := by
  unfold hypBody slotEntries SlotReadable
  cases hd : rd dm.valVec (q + h * dm.hStep) with
  | error f => simp
  | ok d =>
    cases hs : rd dm.sigmaVec (q + h * dm.hStep) with
    | error f => simp
    | ok s =>
      simp only [Except.ok.injEq, exists_eq', and_self, true_and]
      split_ifs <;> simp [appendEntries, eq_comm]

/-- The hypothesis loop returns exactly when all its reads are inside the
arrays, and then it appends the entries of its slots. -/
theorem hypLoop_eq_ok_iff (e : Env) (dm : DepthMap) (fl : Nat) (i q : Int) (n : Nat) :
    ∀ (lo : Int) (st st' : MHPack × List ℚ),
      forLoop (fun h s => hypBody e dm fl i q h s) lo n st = .ok st' ↔
        (∀ h, lo ≤ h → h < lo + n → SlotReadable dm q h) ∧
          st' = appendEntries e fl st (slotsFrom (fun h => slotEntries e dm fl i q h) lo n) := by
  induction n with
  | zero =>
    intro lo st st'
    simp only [forLoop, slotsFrom, appendEntries_nil, Except.ok.injEq, Nat.cast_zero, add_zero]
    constructor
    · intro h; exact ⟨fun k h1 h2 => by omega, h.symm⟩
    · intro h; exact h.2.symm
  | succ n ih =>
    intro lo st st'
    simp only [forLoop, slotsFrom]
    cases hb : hypBody e dm fl i q lo st with
    | error f =>
      constructor
      · intro h; cases h
      · rintro ⟨hall, _⟩
        have := (hypBody_eq_ok_iff e dm fl i q lo st
          (appendEntries e fl st (slotEntries e dm fl i q lo))).2
          ⟨hall lo le_rfl (by push_cast; omega), rfl⟩
        rw [hb] at this; cases this
    | ok t =>
      have ht := (hypBody_eq_ok_iff e dm fl i q lo st t).1 hb
      simp only []
      rw [ih (lo + 1) t st', appendEntries_append, ← ht.2]
      constructor
      · rintro ⟨h1, h2⟩
        refine ⟨fun k hk1 hk2 => ?_, h2⟩
        by_cases hk : k = lo
        · subst hk; exact ht.1
        · exact h1 k (by omega) (by push_cast at hk2; omega)
      · rintro ⟨h1, h2⟩
        exact ⟨fun k hk1 hk2 => h1 k (by omega) (by push_cast; omega), h2⟩

/-- The query loop returns exactly when all its reads are inside the arrays,
and then it appends the entries of its query indices. -/
theorem queryLoop_eq_ok_iff (e : Env) (dm : DepthMap) (fl : Nat) (numHyps : Int) :
    ∀ (qs : List Int) (i : Int) (st st' : MHPack × List ℚ),
      queryLoop e dm fl numHyps qs i st = .ok st' ↔
        (∀ q ∈ qs, ¬ (q < 0 ∨ q > dm.hStep) → ∀ h, 0 ≤ h → h < numHyps → SlotReadable dm q h) ∧
          st' = appendEntries e fl st (allEntries e dm fl numHyps qs i) := by
  intro qs
  induction qs with
  | nil =>
    intro i st st'
    simp only [queryLoop, allEntries, appendEntries_nil, Except.ok.injEq, List.not_mem_nil,
      false_implies, implies_true, true_and]
    exact eq_comm
  | cons q rest ih =>
    intro i st st'
    simp only [queryLoop, allEntries]
    by_cases hq : q < 0 ∨ q > dm.hStep
    · rw [if_pos hq, if_pos hq, ih (i + 1) st st', List.nil_append]
      constructor
      · rintro ⟨h1, h2⟩
        refine ⟨fun p hp hpr => ?_, h2⟩
        rcases List.mem_cons.1 hp with rfl | hp'
        · exact absurd hq hpr
        · exact h1 p hp' hpr
      · rintro ⟨h1, h2⟩
        exact ⟨fun p hp hpr => h1 p (List.mem_cons_of_mem _ hp) hpr, h2⟩
    · rw [if_neg hq, if_neg hq]
      cases hl : forLoop (fun h s => hypBody e dm fl i q h s) 0 numHyps.toNat st with
      | error f =>
        constructor
        · intro h; cases h
        · rintro ⟨hall, _⟩
          have := (hypLoop_eq_ok_iff e dm fl i q numHyps.toNat 0 st _).2
            ⟨fun h h0 h1 => hall q (List.mem_cons_self _ _) hq h h0 (by omega), rfl⟩
          rw [hl] at this; cases this
      | ok t =>
        have ht := (hypLoop_eq_ok_iff e dm fl i q numHyps.toNat 0 st t).1 hl
        simp only []
        rw [ih (i + 1) t st', appendEntries_append, ← ht.2]
        constructor
        · rintro ⟨h1, h2⟩
          refine ⟨fun p hp hpr => ?_, h2⟩
          rcases List.mem_cons.1 hp with rfl | hp'
          · intro h h0 h1'; exact ht.1 h h0 (by omega)
          · exact h1 p hp' hpr
        · rintro ⟨h1, h2⟩
          exact ⟨fun p hp hpr => h1 p (List.mem_cons_of_mem _ hp) hpr, h2⟩

theorem slotEntries_mem (e : Env) (dm : DepthMap) (fl : Nat) (i q h : Int) (en : Entry)
    (hen : en ∈ slotEntries e dm fl i q h) :
    en.idx = q ∧ en.hyp = h ∧ en.pos = i ∧ EntryOK e dm fl en := by
  unfold slotEntries at hen
  cases hd : rd dm.valVec (q + h * dm.hStep) with
  | error f => rw [hd] at hen; simp at hen
  | ok d =>
    cases hs : rd dm.sigmaVec (q + h * dm.hStep) with
    | error f => rw [hd, hs] at hen; simp at hen
    | ok s =>
      rw [hd, hs] at hen
      simp only [] at hen
      by_cases hlt : d < e.MIN_DEPTH
      · rw [if_pos hlt] at hen
        by_cases hdef : hasFlag fl e.DEFAULT_VALUES = true
        · rw [if_pos hdef] at hen
          simp only [List.mem_singleton] at hen
          subst hen
          exact ⟨rfl, rfl, rfl, d, s, hd, hs, Or.inr ⟨hlt, hdef, rfl, rfl⟩⟩
        · rw [if_neg hdef] at hen; simp at hen
      · rw [if_neg hlt] at hen
        simp only [List.mem_singleton] at hen
        subst hen
        exact ⟨rfl, rfl, rfl, d, s, hd, hs, Or.inl ⟨not_lt.1 hlt, rfl, rfl⟩⟩

theorem slotsFrom_mem (f : Int → List Entry) (n : Nat) :
    ∀ (lo : Int) (en : Entry), en ∈ slotsFrom f lo n → ∃ h, lo ≤ h ∧ h < lo + n ∧ en ∈ f h := by
  induction n with
  | zero => intro lo en hen; simp [slotsFrom] at hen
  | succ n ih =>
    intro lo en hen
    simp only [slotsFrom, List.mem_append] at hen
    rcases hen with h1 | h1
    · exact ⟨lo, le_rfl, by push_cast; omega, h1⟩
    · obtain ⟨h, a, b, c⟩ := ih (lo + 1) en h1
      exact ⟨h, by omega, by push_cast; omega, c⟩

/-- Every entry of the query loop comes from a query position holding its grid
index, passes the range check, has a slot below `numHyps` and agrees with the
arrays. -/
theorem allEntries_mem (e : Env) (dm : DepthMap) (fl : Nat) (numHyps : Int) :
    ∀ (qs : List Int) (i0 : Int) (en : Entry), en ∈ allEntries e dm fl numHyps qs i0 →
      ∃ k : Nat, en.pos = i0 + k ∧ qs[k]? = some en.idx ∧ 0 ≤ en.idx ∧ en.idx ≤ dm.hStep ∧
        0 ≤ en.hyp ∧ en.hyp < numHyps ∧ EntryOK e dm fl en := by
  intro qs
  induction qs with
  | nil => intro i0 en hen; simp [allEntries] at hen
  | cons q rest ih =>
    intro i0 en hen
    simp only [allEntries, List.mem_append] at hen
    rcases hen with h1 | h1
    · by_cases hq : q < 0 ∨ q > dm.hStep
      · rw [if_pos hq] at h1; simp at h1
      · rw [if_neg hq] at h1
        obtain ⟨h, a, b, c⟩ := slotsFrom_mem _ _ _ _ h1
        obtain ⟨c1, c2, c3, c4⟩ := slotEntries_mem e dm fl i0 q h en c
        refine ⟨0, by simp [c3], by simp [c1], by omega, by omega, by omega, by omega, c4⟩
    · obtain ⟨k, a, b, c⟩ := ih (i0 + 1) en h1
      exact ⟨k + 1, by push_cast; omega, by simpa using b, c⟩

/-! ## Image points and the cloud loop of `reconstruct` -/

theorem getPointVec_length (dm : DepthMap) :
    ∀ (l : List Int) (pts : List Vector2d), dm.getPointVec l = .ok pts → pts.length = l.length := by
  intro l
  induction l with
  | nil => intro pts h; simp only [DepthMap.getPointVec, Except.ok.injEq] at h; subst h; rfl
  | cons idx rest ih =>
    intro pts h
    simp only [DepthMap.getPointVec] at h
    cases h1 : cRem idx dm.hStep with
    | error f => rw [h1] at h; cases h
    | ok idxh =>
      rw [h1] at h
      simp only [] at h
      cases h2 : cRem idxh dm.xMax with
      | error f => rw [h2] at h; cases h
      | ok xi =>
        rw [h2] at h
        simp only [] at h
        cases h3 : cQuot idxh dm.xMax with
        | error f => rw [h3] at h; cases h
        | ok yi =>
          rw [h3] at h
          simp only [] at h
          cases h4 : dm.getPointVec rest with
          | error f => rw [h4] at h; cases h
          | ok tl =>
            rw [h4] at h
            simp only [Except.ok.injEq] at h
            subst h
            simp [ih tl h4]

theorem getPointVec_ok (dm : DepthMap) :
    ∀ l : List Int, (l ≠ [] → dm.hStep ≠ 0 ∧ dm.xMax ≠ 0) → ∃ pts, dm.getPointVec l = .ok pts := by
  intro l
  induction l with
  | nil => intro _; exact ⟨[], rfl⟩
  | cons idx rest ih =>
    intro hne
    obtain ⟨h1, h2⟩ := hne (by simp)
    obtain ⟨tl, htl⟩ := ih (fun _ => ⟨h1, h2⟩)
    refine ⟨((dm.uConv ((idx.tmod dm.hStep).tmod dm.xMax) : ℚ),
      (dm.vConv ((idx.tmod dm.hStep).tdiv dm.xMax) : ℚ)) :: tl, ?_⟩
    simp only [DepthMap.getPointVec, cRem, cQuot, if_neg h1, if_neg h2, htl]

/-- The cloud loop without `MINMAX`: one output point per ray, the scaled
normalized ray where the mask is true and the zero vector where it is false. -/
theorem cloudLoop_plain (e : Env) (fl : Nat) (maskVec : List Bool) (depthVec : List ℚ)
    (hmm : hasFlag fl e.MINMAX = false) :
    ∀ (rays : List Vector3d) (n0 : Nat) (out out' : List Vector3d), out.length = n0 →
      cloudLoop e fl maskVec depthVec rays n0 out = .ok out' →
      out'.length = n0 + rays.length ∧ (∀ k, k < n0 → out'[k]? = out[k]?) ∧
      ∀ (k : Nat) (hk : k < rays.length), ∃ m, maskVec[n0 + k]? = some m ∧
        (m = true → ∃ d, depthVec[n0 + k]? = some d ∧
          out'[n0 + k]? = some ((e.normalized rays[k]).scale d)) ∧
        (m = false → out'[n0 + k]? = some Vector3d.zero) := by
  intro rays
  induction rays with
  | nil =>
    intro n0 out out' hlen h
    simp only [cloudLoop, Except.ok.injEq] at h
    subst h
    exact ⟨by simpa using hlen, fun _ _ => rfl, fun k hk => absurd hk (by simp)⟩
  | cons X rest ih =>
    intro n0 out out' hlen h
    simp only [cloudLoop, hmm] at h
    cases hm : rd maskVec (n0 : Int) with
    | error f => rw [hm] at h; cases h
    | ok m =>
      rw [hm] at h
      have hm' : maskVec[n0]? = some m := by simpa using ((rd_eq_ok_iff _ _ _).1 hm).2
      have key : ∀ p : Vector3d,
          cloudLoop e fl maskVec depthVec rest ((n0 + 1 : Nat) : Int) (out ++ [p]) = .ok out' →
          out'.length = n0 + (X :: rest).length ∧ (∀ k, k < n0 → out'[k]? = out[k]?) ∧
          out'[n0]? = some p ∧
          ∀ (k : Nat) (hk : k < rest.length), ∃ m, maskVec[n0 + (k + 1)]? = some m ∧
            (m = true → ∃ d, depthVec[n0 + (k + 1)]? = some d ∧
              out'[n0 + (k + 1)]? = some ((e.normalized rest[k]).scale d)) ∧
            (m = false → out'[n0 + (k + 1)]? = some Vector3d.zero) := by
        intro p hp
        obtain ⟨a, b, c⟩ := ih (n0 + 1) (out ++ [p]) out' (by simp [hlen]) hp
        refine ⟨by simp [a]; omega, ?_, ?_, ?_⟩
        · intro k hk
          rw [b k (by omega), List.getElem?_append_left (by omega)]
        · rw [b n0 (by omega), List.getElem?_append_right (by omega)]
          simp [hlen]
        · intro k hk
          have := c k hk
          simpa [Nat.add_assoc, Nat.add_comm 1 k] using this
      cases m with
      | true =>
        simp only [Bool.false_eq_true, if_false] at h
        cases hd : rd depthVec (n0 : Int) with
        | error f => rw [hd] at h; cases h
        | ok d =>
          rw [hd] at h
          have hd' : depthVec[n0]? = some d := by simpa using ((rd_eq_ok_iff _ _ _).1 hd).2
          obtain ⟨a, b, c, dd⟩ := key _ (by simpa using h)
          refine ⟨a, b, fun k hk => ?_⟩
          cases k with
          | zero => exact ⟨true, hm', fun _ => ⟨d, hd', c⟩, fun hf => (by cases hf)⟩
          | succ k => exact dd k (by simpa using hk)
      | false =>
        simp only [Bool.false_eq_true, if_false] at h
        obtain ⟨a, b, c, dd⟩ := key _ (by simpa using h)
        refine ⟨a, b, fun k hk => ?_⟩
        cases k with
        | zero => exact ⟨false, hm', fun hf => (by cases hf), fun _ => c⟩
        | succ k => exact dd k (by simpa using hk)

theorem rd_natCast {α : Type} (v : List α) (k : Nat) (a : α) :
    rd v (k : Int) = .ok a ↔ v[k]? = some a := by
  rw [rd_eq_ok_iff]; simp

theorem rd_natCast_ok {α : Type} (v : List α) (k : Nat) (hk : k < v.length) :
    rd v (k : Int) = .ok v[k] := by
  rw [rd_natCast]; exact List.getElem?_eq_getElem hk

/-- The cloud loop under `MINMAX`: two output points per ray. -/
theorem cloudLoop_minmax (e : Env) (fl : Nat) (maskVec : List Bool) (depthVec : List ℚ)
    (hmm : hasFlag fl e.MINMAX = true) :
    ∀ (rays : List Vector3d) (n0 : Nat) (out out' : List Vector3d), out.length = 2 * n0 →
      cloudLoop e fl maskVec depthVec rays n0 out = .ok out' →
      out'.length = 2 * (n0 + rays.length) ∧ (∀ k, k < 2 * n0 → out'[k]? = out[k]?) ∧
      ∀ (k : Nat) (hk : k < rays.length), ∃ m, maskVec[n0 + k]? = some m ∧
        (m = true → ∃ d0 d1, depthVec[2 * (n0 + k)]? = some d0 ∧
          depthVec[2 * (n0 + k) + 1]? = some d1 ∧
          out'[2 * (n0 + k)]? = some ((e.normalized rays[k]).scale d0) ∧
          out'[2 * (n0 + k) + 1]? = some ((e.normalized rays[k]).scale d1)) ∧
        (m = false → out'[2 * (n0 + k)]? = some Vector3d.zero ∧
          out'[2 * (n0 + k) + 1]? = some Vector3d.zero) := by
  intro rays
  induction rays with
  | nil =>
    intro n0 out out' hlen h
    simp only [cloudLoop, Except.ok.injEq] at h
    subst h
    exact ⟨by simpa using hlen, fun _ _ => rfl, fun k hk => absurd hk (by simp)⟩
  | cons X rest ih =>
    intro n0 out out' hlen h
    simp only [cloudLoop, hmm] at h
    cases hm : rd maskVec (n0 : Int) with
    | error f => rw [hm] at h; cases h
    | ok m =>
      rw [hm] at h
      have hm' : maskVec[n0]? = some m := (rd_natCast _ _ _).1 hm
      have key : ∀ p p' : Vector3d,
          cloudLoop e fl maskVec depthVec rest ((n0 + 1 : Nat) : Int) (out ++ [p, p']) = .ok out' →
          out'.length = 2 * (n0 + (X :: rest).length) ∧ (∀ k, k < 2 * n0 → out'[k]? = out[k]?) ∧
          out'[2 * n0]? = some p ∧ out'[2 * n0 + 1]? = some p' ∧
          ∀ (k : Nat) (hk : k < rest.length), ∃ m, maskVec[n0 + (k + 1)]? = some m ∧
            (m = true → ∃ d0 d1, depthVec[2 * (n0 + (k + 1))]? = some d0 ∧
              depthVec[2 * (n0 + (k + 1)) + 1]? = some d1 ∧
              out'[2 * (n0 + (k + 1))]? = some ((e.normalized rest[k]).scale d0) ∧
              out'[2 * (n0 + (k + 1)) + 1]? = some ((e.normalized rest[k]).scale d1)) ∧
            (m = false → out'[2 * (n0 + (k + 1))]? = some Vector3d.zero ∧
              out'[2 * (n0 + (k + 1)) + 1]? = some Vector3d.zero) := by
        intro p p' hp
        obtain ⟨a, b, c⟩ := ih (n0 + 1) (out ++ [p, p']) out' (by simp [hlen]; omega) hp
        refine ⟨by simp [a]; omega, ?_, ?_, ?_, ?_⟩
        · intro k hk
          rw [b k (by omega), List.getElem?_append_left (by omega)]
        · rw [b (2 * n0) (by omega), List.getElem?_append_right (by omega)]
          simp [hlen]
        · rw [b (2 * n0 + 1) (by omega), List.getElem?_append_right (by omega)]
          simp [hlen]
        · intro k hk
          have := c k hk
          simpa [Nat.add_assoc, Nat.add_comm 1 k] using this
      have c0 : (2 * (n0 : Int)) = ((2 * n0 : Nat) : Int) := by push_cast; ring
      have c1 : (2 * (n0 : Int) + 1) = ((2 * n0 + 1 : Nat) : Int) := by push_cast; ring
      cases m with
      | true =>
        simp only [if_true] at h
        cases hd0 : rd depthVec (2 * (n0 : Int)) with
        | error f => rw [hd0] at h; cases h
        | ok d0 =>
          rw [hd0] at h
          simp only [] at h
          cases hd1 : rd depthVec (2 * (n0 : Int) + 1) with
          | error f => rw [hd1] at h; cases h
          | ok d1 =>
            rw [hd1] at h
            rw [c0] at hd0
            rw [c1] at hd1
            obtain ⟨a, b, c, c', dd⟩ := key _ _ (by simpa using h)
            refine ⟨a, b, fun k hk => ?_⟩
            cases k with
            | zero =>
              exact ⟨true, hm', fun _ => ⟨d0, d1, (rd_natCast _ _ _).1 hd0,
                (rd_natCast _ _ _).1 hd1, c, c'⟩, fun hf => (by cases hf)⟩
            | succ k => exact dd k (by simpa using hk)
      | false =>
        simp only [if_true] at h
        obtain ⟨a, b, c, c', dd⟩ := key _ _ (by simpa using h)
        refine ⟨a, b, fun k hk => ?_⟩
        cases k with
        | zero => exact ⟨false, hm', fun hf => (by cases hf), fun _ => ⟨c, c'⟩⟩
        | succ k => exact dd k (by simpa using hk)

/-- The cloud loop returns when the mask and `depthVec` are long enough. -/
theorem cloudLoop_ok (e : Env) (fl : Nat) (maskVec : List Bool) (depthVec : List ℚ) :
    ∀ (rays : List Vector3d) (n0 : Nat) (out : List Vector3d),
      n0 + rays.length ≤ maskVec.length →
      (if hasFlag fl e.MINMAX = true then 2 * (n0 + rays.length) else n0 + rays.length)
        ≤ depthVec.length →
      ∃ out', cloudLoop e fl maskVec depthVec rays n0 out = .ok out' := by
  intro rays
  induction rays with
  | nil => intro n0 out _ _; exact ⟨out, rfl⟩
  | cons X rest ih =>
    intro n0 out hmask hdepth
    simp only [List.length_cons] at hmask hdepth
    have hm := rd_natCast_ok maskVec n0 (by omega)
    have hrec : ∀ o, ∃ out', cloudLoop e fl maskVec depthVec rest ((n0 + 1 : Nat) : Int) o
        = .ok out' := fun o => ih (n0 + 1) o (by omega) (by
      by_cases hmm : hasFlag fl e.MINMAX = true
      · rw [if_pos hmm] at hdepth ⊢; omega
      · rw [if_neg hmm] at hdepth ⊢; omega)
    have hcast : ((n0 : Int) + 1) = ((n0 + 1 : Nat) : Int) := by push_cast; ring
    simp only [cloudLoop, hm, hcast]
    by_cases hmm : hasFlag fl e.MINMAX = true
    · rw [if_pos hmm] at hdepth
      have c0 : (2 * (n0 : Int)) = ((2 * n0 : Nat) : Int) := by push_cast; ring
      have c1 : (((2 * n0 : Nat) : Int) + 1) = ((2 * n0 + 1 : Nat) : Int) := by push_cast; ring
      have hd0 := rd_natCast_ok depthVec (2 * n0) (by omega)
      have hd1 := rd_natCast_ok depthVec (2 * n0 + 1) (by omega)
      cases hb : maskVec[n0] with
      | true => simp only [hmm, if_true, c0, c1, hd0, hd1]; exact hrec _
      | false => simp only [hmm, if_true]; exact hrec _
    · rw [if_neg hmm] at hdepth
      have hd0 := rd_natCast_ok depthVec n0 (by omega)
      cases hb : maskVec[n0] with
      | true => simp only [hmm, if_false, hd0]; exact hrec _
      | false => simp only [hmm, if_false]; exact hrec _

/-! ## The function `reconstruct` as a whole -/

theorem appendEntries_cleared (e : Env) (fl : Nat) (es : List Entry) :
    appendEntries e fl (MHPack.cleared, []) es = (packOf e fl es [] [], depthVecOf e fl es) := by
  obtain ⟨h1, h2, h3, h4, h5, h6, h7, h8, h9⟩ := appendEntries_fields e fl es (MHPack.cleared, [])
  generalize appendEntries e fl (MHPack.cleared, []) es = st at *
  obtain ⟨⟨a1, a2, a3, a4, a5, a6, a7, a8⟩, dv⟩ := st
  simp only [MHPack.cleared, List.nil_append] at h1 h2 h3 h4 h5 h6 h7 h8 h9
  subst h1 h2 h3 h4 h5 h6 h7 h8 h9
  rfl

/-- The function `reconstruct` returns a pack exactly when the flags do not
contain `IMAGE_VALUES`, the query resolves, every read of the query loop is
inside the arrays, the image points can be computed and the cloud loop runs
through; the pack is then the one built from the entries of the query loop. -/
theorem reconstruct_eq_ok_iff (e : Env) (dm : DepthMap) (result : MHPack) (fl : Nat)
    (r : MHPack) :
    dm.reconstruct e result fl = .ok r ↔
      hasFlag fl e.IMAGE_VALUES = false ∧
      ∃ qs pts cloud, dm.queryIdxVec e result fl = .ok qs ∧
        (∀ q ∈ qs, ¬ (q < 0 ∨ q > dm.hStep) →
          ∀ h, 0 ≤ h → h < numHypsOf e dm fl → SlotReadable dm q h) ∧
        dm.getPointVec ((allEntries e dm fl (numHypsOf e dm fl) qs 0).map fun en => en.idx)
          = .ok pts ∧
        cloudLoop e fl (dm.cameraPtr.reconstructPointCloud pts).2
          (depthVecOf e fl (allEntries e dm fl (numHypsOf e dm fl) qs 0))
          (dm.cameraPtr.reconstructPointCloud pts).1 0 [] = .ok cloud ∧
        r = packOf e fl (allEntries e dm fl (numHypsOf e dm fl) qs 0) pts cloud := by
  unfold DepthMap.reconstruct
  by_cases himg : hasFlag fl e.IMAGE_VALUES = true
  · simp [himg]
  · have himg' : hasFlag fl e.IMAGE_VALUES = false := by simpa using himg
    simp only [himg', Bool.false_eq_true, if_false, true_and]
    cases hq : dm.queryIdxVec e result fl with
    | error f => simp
    | ok qs =>
      simp only [Except.ok.injEq, exists_and_left, exists_eq_left']
      have hnum : (if hasFlag fl e.ALL_HYPOTHESES = true then dm.hMax else 1) = numHypsOf e dm fl := rfl
      rw [hnum]
      cases hl : queryLoop e dm fl (numHypsOf e dm fl) qs 0 (MHPack.cleared, []) with
      | error f =>
        simp only [false_iff, not_and, not_exists]
        constructor
        · intro h; cases h
        · rintro ⟨hread, _⟩
          have := (queryLoop_eq_ok_iff e dm fl (numHypsOf e dm fl) qs 0 (MHPack.cleared, []) _).2
            ⟨hread, rfl⟩
          rw [hl] at this; cases this
      | ok st =>
        obtain ⟨hread, hst⟩ := (queryLoop_eq_ok_iff e dm fl (numHypsOf e dm fl) qs 0
          (MHPack.cleared, []) st).1 hl
        rw [appendEntries_cleared] at hst
        subst hst
        simp only []
        have hidx : (packOf e fl (allEntries e dm fl (numHypsOf e dm fl) qs 0) [] []).idxVec =
            (allEntries e dm fl (numHypsOf e dm fl) qs 0).map fun en => en.idx := rfl
        rw [hidx]
        cases hp : dm.getPointVec ((allEntries e dm fl (numHypsOf e dm fl) qs 0).map
            fun en => en.idx) with
        | error f =>
          constructor
          · intro h; cases h
          · rintro ⟨_, pts, h, _⟩; cases h
        | ok pts =>
          simp only []
          cases hc : cloudLoop e fl (dm.cameraPtr.reconstructPointCloud pts).2
              (depthVecOf e fl (allEntries e dm fl (numHypsOf e dm fl) qs 0))
              (dm.cameraPtr.reconstructPointCloud pts).1 0 [] with
          | error f =>
            constructor
            · intro h; cases h
            · rintro ⟨_, pts', h, cloud, h', _⟩
              cases h; rw [hc] at h'; cases h'
          | ok cloud =>
            simp only [Except.ok.injEq]
            constructor
            · intro h
              exact ⟨hread, pts, rfl, cloud, hc, h.symm⟩
            · rintro ⟨_, pts', h, cloud', h', hr⟩
              cases h; rw [hc] at h'; cases h'
              exact hr.symm

/-! ## Query resolution -/

theorem getIdxVec_points (e : Env) (dm : DepthMap) (pts : List Vector2d) (hne : pts ≠ []) :
    dm.getIdxVec e pts = .ok (pts.map fun p =>
      if dm.isValid (dm.xConv p.1) (dm.yConv p.2) 0 then dm.xConv p.1 + dm.yConv p.2 * dm.xMax
      else -1) := by
  have : pts.length ≠ 0 := by simpa using hne
  simp only [DepthMap.getIdxVec, if_pos this]

/-- The query of the whole map: the strictly ascending list of the column
indices whose slot-0 depth is at least `MIN_DEPTH`. -/
theorem getIdxVec_all (e : Env) (dm : DepthMap) (hwf : dm.WF) (hh : 1 ≤ dm.hMax) :
    ∃ qs, dm.getIdxVec e [] = .ok qs ∧ qs.Pairwise (fun a b => a < b) ∧
      ∀ i, i ∈ qs ↔ 0 ≤ i ∧ i < dm.hStep ∧ ∃ d, rd dm.valVec i = .ok d ∧ e.MIN_DEPTH ≤ d := by
  obtain ⟨w1, w2, _, l1, _, _⟩ := hwf
  have hs0 : 0 ≤ dm.hStep := mul_nonneg w1 w2
  obtain ⟨qs, hrun, hP⟩ := forLoop_total
    (fun i out =>
      match rd dm.valVec i with
      | .ok d => .ok (if d ≥ e.MIN_DEPTH then out ++ [i] else out)
      | .error f => .error f)
    (fun k out => out.Pairwise (fun a b => a < b) ∧
      ∀ i, i ∈ out ↔ 0 ≤ i ∧ i < k ∧ ∃ d, rd dm.valVec i = .ok d ∧ e.MIN_DEPTH ≤ d)
    dm.hStep.toNat 0 []
    ⟨List.Pairwise.nil, fun i => by simp; intro h0 h1; omega⟩
    (by
      intro k out hk0 hk1 ⟨hsorted, hmem⟩
      have hk : k < dm.hStep := by omega
      have hlen : k < (dm.valVec.length : Int) := by
        rw [l1]
        have : dm.hStep * 1 ≤ dm.hStep * dm.hMax := mul_le_mul_of_nonneg_left hh hs0
        unfold DepthMap.hStep at this hk
        linarith
      obtain ⟨d, hd⟩ := rd_ok_of_bounds dm.valVec k hk0 hlen
      refine ⟨if d ≥ e.MIN_DEPTH then out ++ [k] else out, by simp only [hd], ?_⟩
      show (if d ≥ e.MIN_DEPTH then out ++ [k] else out).Pairwise (fun a b => a < b) ∧
        ∀ i, i ∈ (if d ≥ e.MIN_DEPTH then out ++ [k] else out) ↔
          0 ≤ i ∧ i < k + 1 ∧ ∃ d, rd dm.valVec i = .ok d ∧ e.MIN_DEPTH ≤ d
      by_cases hge : d ≥ e.MIN_DEPTH
      · rw [if_pos hge]
        constructor
        · rw [List.pairwise_append]
          refine ⟨hsorted, List.pairwise_singleton _ _, ?_⟩
          intro a ha b hb
          simp only [List.mem_singleton] at hb
          subst hb
          exact ((hmem a).1 ha).2.1
        · intro i
          simp only [List.mem_append, List.mem_singleton, hmem i]
          constructor
          · rintro (⟨a, b, c⟩ | rfl)
            · exact ⟨a, by omega, c⟩
            · exact ⟨hk0, by omega, d, hd, hge⟩
          · rintro ⟨a, b, c⟩
            by_cases hik : i = k
            · exact Or.inr hik
            · exact Or.inl ⟨a, by omega, c⟩
      · rw [if_neg hge]
        refine ⟨hsorted, fun i => ?_⟩
        rw [hmem i]
        constructor
        · rintro ⟨a, b, c⟩; exact ⟨a, by omega, c⟩
        · rintro ⟨a, b, d', hd', hge'⟩
          refine ⟨a, ?_, d', hd', hge'⟩
          by_contra hnot
          have : i = k := by omega
          subst this
          rw [hd] at hd'; cases hd'
          exact hge hge')
  refine ⟨qs, ?_, hP.1, fun i => ?_⟩
  · simp only [DepthMap.getIdxVec, List.length_nil, ne_eq, not_true_eq_false, if_false]
    exact hrun
  · rw [hP.2 i]
    have : (0 : Int) + (dm.hStep.toNat : Int) = dm.hStep := by omega
    rw [this]

/-- Every resolved query index that differs from `hStep` and passes the range
check of `reconstruct` can be read in all `numHyps` slots. -/
theorem slotReadable_of_lt (e : Env) (dm : DepthMap) (hwf : dm.WF) (hh : 1 ≤ dm.hMax)
    (fl : Nat) (q h : Int) (hq0 : 0 ≤ q) (hq1 : q < dm.hStep) (h0 : 0 ≤ h)
    (h1 : h < numHypsOf e dm fl) : SlotReadable dm q h := by
  obtain ⟨w1, w2, _, l1, l2, _⟩ := hwf
  have hs0 : 0 ≤ dm.hStep := mul_nonneg w1 w2
  have hh' : h < dm.hMax := by
    unfold numHypsOf at h1
    split_ifs at h1 <;> omega
  have hb : q + h * dm.hStep < dm.xMax * dm.yMax * dm.hMax := by
    have : (h + 1) * dm.hStep ≤ dm.hMax * dm.hStep := mul_le_mul_of_nonneg_right (by omega) hs0
    unfold DepthMap.hStep at this hq1 ⊢
    nlinarith
  have hb0 : 0 ≤ q + h * dm.hStep := by
    have := mul_nonneg h0 hs0
    omega
  exact ⟨rd_ok_of_bounds _ _ hb0 (by rw [l1]; exact hb),
    rd_ok_of_bounds _ _ hb0 (by rw [l2]; exact hb)⟩

theorem depthVecOf_length (e : Env) (fl : Nat) (es : List Entry) :
    (depthVecOf e fl es).length =
      if hasFlag fl e.MINMAX = true then 2 * es.length else es.length := by
  unfold depthVecOf
  by_cases hmm : hasFlag fl e.MINMAX = true
  · rw [if_pos hmm, if_pos hmm]
    induction es with
    | nil => rfl
    | cons en es ih => simp only [List.flatMap_cons, List.length_append, ih, List.length_cons,
        List.length_nil]; omega
  · rw [if_neg hmm, if_neg hmm, List.length_map]

/-- The query that `reconstruct` resolves, on a well-formed map with at least one
slot per column. -/
theorem queryIdxVec_ok (e : Env) (dm : DepthMap) (hwf : dm.WF) (hh : 1 ≤ dm.hMax)
    (result : MHPack) (fl : Nat)
    (hsafe : hasFlag fl e.QUERY_INDICES = true → ∀ q ∈ result.idxVec, q ≠ dm.hStep) :
    ∃ qs, dm.queryIdxVec e result fl = .ok qs ∧ ∀ q ∈ qs, q ≠ dm.hStep := by
  unfold DepthMap.queryIdxVec
  by_cases hqi : hasFlag fl e.QUERY_INDICES = true
  · rw [if_pos hqi]; exact ⟨_, rfl, hsafe hqi⟩
  · rw [if_neg hqi]
    have hall : ∃ qs, dm.getIdxVec e [] = .ok qs ∧ ∀ q ∈ qs, q ≠ dm.hStep := by
      obtain ⟨qs, h1, _, h3⟩ := getIdxVec_all e dm hwf hh
      exact ⟨qs, h1, fun q hq => by have := ((h3 q).1 hq).2.1; omega⟩
    have hpts : ∃ qs, dm.getIdxVec e result.imagePointVec = .ok qs ∧ ∀ q ∈ qs, q ≠ dm.hStep := by
      by_cases hne : result.imagePointVec = []
      · rw [hne]; exact hall
      · refine ⟨_, getIdxVec_points e dm _ hne, fun q hq => ?_⟩
        simp only [List.mem_map] at hq
        obtain ⟨p, _, hp⟩ := hq
        by_cases hv : dm.isValid (dm.xConv p.1) (dm.yConv p.2) 0 = true
        · rw [if_pos hv] at hp
          obtain ⟨a, b, c, d, _, _⟩ := (isValid_iff _ _ _ _).1 hv
          have := col_bounds_arith _ _ _ _ a b c d
          unfold DepthMap.hStep
          omega
        · rw [if_neg hv] at hp
          have := mul_nonneg hwf.1 hwf.2.1
          unfold DepthMap.hStep
          omega
    by_cases hqp : hasFlag fl e.QUERY_POINTS = true
    · rw [if_pos hqp]; exact hpts
    · rw [if_neg hqp]; exact hall

/-- On a well-formed map with at least one slot per column and a
length-preserving camera, `reconstruct` returns a pack for every flag word
without `IMAGE_VALUES`, provided no caller-supplied query index equals
`hStep`. -/
theorem reconstruct_returns (e : Env) (dm : DepthMap) (hwf : dm.WF) (hh : 1 ≤ dm.hMax)
    (hcam : dm.cameraPtr.LengthPreserving) (result : MHPack) (fl : Nat)
    (himg : hasFlag fl e.IMAGE_VALUES = false)
    (hsafe : hasFlag fl e.QUERY_INDICES = true → ∀ q ∈ result.idxVec, q ≠ dm.hStep) :
    ∃ r, dm.reconstruct e result fl = .ok r := by
  obtain ⟨qs, hqs, hne⟩ := queryIdxVec_ok e dm hwf hh result fl hsafe
  have hread : ∀ q ∈ qs, ¬ (q < 0 ∨ q > dm.hStep) →
      ∀ h, 0 ≤ h → h < numHypsOf e dm fl → SlotReadable dm q h := by
    intro q hq hr h h0 h1
    have := hne q hq
    exact slotReadable_of_lt e dm hwf hh fl q h (by omega) (by omega) h0 h1
  obtain ⟨pts, hpts⟩ := getPointVec_ok dm
    ((allEntries e dm fl (numHypsOf e dm fl) qs 0).map fun en => en.idx) (by
      intro hnil
      obtain ⟨en, hen⟩ := List.exists_mem_of_ne_nil _ (by simpa using hnil :
        allEntries e dm fl (numHypsOf e dm fl) qs 0 ≠ [])
      obtain ⟨k, _, hk, a, b, _⟩ := allEntries_mem e dm fl _ qs 0 en hen
      have := hne en.idx (List.getElem?_mem hk)
      have hpos : 0 < dm.hStep := by omega
      refine ⟨by omega, ?_⟩
      intro hx
      unfold DepthMap.hStep at hpos
      rw [hx] at hpos
      simp at hpos)
  have hlen := getPointVec_length dm _ _ hpts
  rw [List.length_map] at hlen
  obtain ⟨h1, h2⟩ := hcam pts
  obtain ⟨cloud, hcloud⟩ := cloudLoop_ok e fl (dm.cameraPtr.reconstructPointCloud pts).2
    (depthVecOf e fl (allEntries e dm fl (numHypsOf e dm fl) qs 0))
    (dm.cameraPtr.reconstructPointCloud pts).1 0 []
    (by rw [h1, h2]; omega)
    (by rw [depthVecOf_length, h1, hlen]; split_ifs <;> omega)
  exact ⟨_, (reconstruct_eq_ok_iff e dm result fl _).2
    ⟨himg, qs, pts, cloud, hqs, hread, hpts, by simpa using hcloud, rfl⟩⟩

theorem demoCamera_lengthPreserving : demoCamera.LengthPreserving := by
  intro pts; simp [demoCamera]

/-- The lengths of the vectors of a returned pack, in terms of the number of
entries of the query loop. -/
theorem reconstruct_lengths (e : Env) (dm : DepthMap) (result : MHPack) (fl : Nat)
    (hcam : dm.cameraPtr.LengthPreserving) (r : MHPack)
    (hr : dm.reconstruct e result fl = .ok r) :
    r.hypIdxVec.length = r.idxVec.length ∧
    r.sigmaVec.length = (if hasFlag fl e.SIGMA_VALUE = true then r.idxVec.length else 0) ∧
    r.idxMapVec.length = (if hasFlag fl e.INDEX_MAPPING = true then r.idxVec.length else 0) ∧
    r.imagePointVec.length = r.idxVec.length ∧
    r.cloud.length = (if hasFlag fl e.MINMAX = true then 2 * r.idxVec.length else r.idxVec.length) ∧
    r.costVec = [] ∧ r.valVec = [] := by
  obtain ⟨_, qs, pts, cloud, _, _, hpts, hcloud, rfl⟩ := (reconstruct_eq_ok_iff e dm result fl r).1 hr
  have hlen := getPointVec_length dm _ _ hpts
  rw [List.length_map] at hlen
  obtain ⟨h1, h2⟩ := hcam pts
  refine ⟨by simp [packOf], ?_, ?_, by simp [packOf, hlen], ?_, rfl, rfl⟩
  · simp only [packOf]; split_ifs <;> simp
  · simp only [packOf]; split_ifs <;> simp
  · by_cases hmm : hasFlag fl e.MINMAX = true
    · have := (cloudLoop_minmax e fl _ _ hmm _ 0 [] cloud rfl (by simpa using hcloud)).1
      rw [if_pos hmm]
      simp only [packOf, List.length_map]
      omega
    · have := (cloudLoop_plain e fl _ _ (by simpa using hmm) _ 0 [] cloud rfl
        (by simpa using hcloud)).1
      rw [if_neg hmm]
      simp only [packOf, List.length_map]
      omega

/-- C1: index alignment of `reconstruct(MHPack, flags)`.  For a camera whose
`reconstructPointCloud` preserves lengths and a flag word without
`IMAGE_VALUES`, every pack that the call returns has `idxVec` and `hypIdxVec` of
one length `n`; `sigmaVec` has length `n` under `SIGMA_VALUE` and is empty
otherwise; `idxMapVec` has length `n` under `INDEX_MAPPING` and is empty
otherwise; `cloud` has length `2n` under `MINMAX` and `n` otherwise.  The call
does return a pack on every well-formed map with `hMax ≥ 1`, unless a
caller-supplied query index equals `hStep`. -/
theorem reconstruct_index_alignment (e : Env) (dm : DepthMap) (result : MHPack) (fl : Nat)
    (hcam : dm.cameraPtr.LengthPreserving) (himg : hasFlag fl e.IMAGE_VALUES = false) :
    (∀ r, dm.reconstruct e result fl = .ok r →
      r.hypIdxVec.length = r.idxVec.length ∧
      r.sigmaVec.length = (if hasFlag fl e.SIGMA_VALUE = true then r.idxVec.length else 0) ∧
      r.idxMapVec.length = (if hasFlag fl e.INDEX_MAPPING = true then r.idxVec.length else 0) ∧
      r.cloud.length =
        (if hasFlag fl e.MINMAX = true then 2 * r.idxVec.length else r.idxVec.length)) ∧
    (dm.WF → 1 ≤ dm.hMax →
      (hasFlag fl e.QUERY_INDICES = true → ∀ q ∈ result.idxVec, q ≠ dm.hStep) →
      ∃ r, dm.reconstruct e result fl = .ok r) := by
  refine ⟨fun r hr => ?_, fun hwf hh hsafe =>
    reconstruct_returns e dm hwf hh hcam result fl himg hsafe⟩
  obtain ⟨a, b, c, _, d, _⟩ := reconstruct_lengths e dm result fl hcam r hr
  exact ⟨a, b, c, d⟩

/-- C1 at an explicit input: column `(0, 0)` of the map `demoFilled` reconstructed
under `MINMAX | ALL_HYPOTHESES | SIGMA_VALUE` gives two entries and four cloud
points. -/
theorem reconstruct_index_alignment_witness :
    ∃ r, demoFilled.reconstruct demoEnv MHPack.cleared 22 = .ok r ∧
      r.idxVec = [0, 0] ∧ r.hypIdxVec.length = 2 ∧ r.sigmaVec.length = 2 ∧
      r.idxMapVec.length = 0 ∧ r.cloud.length = 4 := by
  have hr : demoFilled.reconstruct demoEnv MHPack.cleared 22 = .ok
      ⟨[(0, 0), (0, 0)], [0, 0], [0, 1], [], [1, 1], [], [],
        [⟨0, 0, 3⟩, ⟨0, 0, 7⟩, ⟨0, 0, 8⟩, ⟨0, 0, 12⟩]⟩ := by decide!
  obtain ⟨a, b, c, d⟩ := (reconstruct_index_alignment demoEnv demoFilled MHPack.cleared 22
    demoCamera_lengthPreserving (by decide)).1 _ hr
  refine ⟨_, hr, rfl, a, ?_, ?_, ?_⟩
  · rw [b]; decide
  · rw [c]; decide
  · rw [d]; decide

/-! ## The content of the cloud -/

theorem flatMap_pair_getElem? {α β : Type} (f g : α → β) :
    ∀ (l : List α) (k : Nat) (a : α), l[k]? = some a →
      (l.flatMap fun x => [f x, g x])[2 * k]? = some (f a) ∧
      (l.flatMap fun x => [f x, g x])[2 * k + 1]? = some (g a) := by
  intro l
  induction l with
  | nil => intro k a h; simp at h
  | cons x xs ih =>
    intro k a h
    cases k with
    | zero =>
      simp only [List.getElem?_cons_zero, Option.some.injEq] at h
      subst h
      simp
    | succ k =>
      simp only [List.getElem?_cons_succ] at h
      obtain ⟨h1, h2⟩ := ih k a h
      have e1 : 2 * (k + 1) = (2 * k) + 1 + 1 := by ring
      rw [e1]
      simp only [List.flatMap_cons, List.cons_append, List.nil_append, List.getElem?_cons_succ]
      exact ⟨h1, h2⟩

/-- The entry behind output position `k` of a returned pack: its grid index and
slot are `idxVec[k]` and `hypIdxVec[k]`, it agrees with the arrays of the map,
and the camera returns a ray and a mask bit for its image point. -/
theorem reconstruct_entry_at (e : Env) (dm : DepthMap) (result : MHPack) (fl : Nat)
    (hcam : dm.cameraPtr.LengthPreserving) (r : MHPack)
    (hr : dm.reconstruct e result fl = .ok r) :
    ∃ es : List Entry, es.length = r.idxVec.length ∧
      dm.getPointVec r.idxVec = .ok r.imagePointVec ∧
      cloudLoop e fl (dm.cameraPtr.reconstructPointCloud r.imagePointVec).2 (depthVecOf e fl es)
        (dm.cameraPtr.reconstructPointCloud r.imagePointVec).1 0 [] = .ok r.cloud ∧
      ∀ (k : Nat), k < r.idxVec.length →
        ∃ (en : Entry) (ray : Vector3d), es[k]? = some en ∧ EntryOK e dm fl en ∧
          r.idxVec[k]? = some en.idx ∧ r.hypIdxVec[k]? = some en.hyp ∧
          (dm.cameraPtr.reconstructPointCloud r.imagePointVec).1[k]? = some ray := by
  obtain ⟨_, qs, pts, cloud, _, _, hpts, hcloud, rfl⟩ := (reconstruct_eq_ok_iff e dm result fl r).1 hr
  have hlen := getPointVec_length dm _ _ hpts
  rw [List.length_map] at hlen
  obtain ⟨h1, _⟩ := hcam pts
  refine ⟨allEntries e dm fl (numHypsOf e dm fl) qs 0, by simp [packOf], hpts, hcloud, ?_⟩
  intro k hk
  have hk' : k < (allEntries e dm fl (numHypsOf e dm fl) qs 0).length := by
    simpa [packOf] using hk
  have hkr : k < (dm.cameraPtr.reconstructPointCloud pts).1.length := by rw [h1, hlen]; exact hk'
  obtain ⟨_, _, _, _, _, _, _, hok⟩ := allEntries_mem e dm fl _ qs 0 _ (List.getElem_mem hk')
  refine ⟨(allEntries e dm fl (numHypsOf e dm fl) qs 0)[k], _, List.getElem?_eq_getElem hk', hok,
    ?_, ?_, List.getElem?_eq_getElem hkr⟩
  · simp [packOf, List.getElem?_eq_getElem hk']
  · simp [packOf, List.getElem?_eq_getElem hk']

/-- C8: the cloud of `reconstruct` without `MINMAX`, for a length-preserving
camera.  The pack holds one cloud point per entry.  At every output position
`k`, with `q = idxVec[k]`, `h = hypIdxVec[k]`, `v` the depth stored at `q + h *
hStep` and `ray` the camera ray of image point `k`: if the mask of the camera is
true at `k` then `cloud[k]` is the normalized ray times the target depth, which
is `v` when `v ≥ MIN_DEPTH` and `DEFAULT_DEPTH` otherwise (the latter only under
`DEFAULT_VALUES`); if the mask is false then `cloud[k]` is the zero vector. -/
theorem reconstruct_cloud_content (e : Env) (dm : DepthMap) (result : MHPack) (fl : Nat)
    (hcam : dm.cameraPtr.LengthPreserving) (hmm : hasFlag fl e.MINMAX = false) (r : MHPack)
    (hr : dm.reconstruct e result fl = .ok r) :
    dm.getPointVec r.idxVec = .ok r.imagePointVec ∧
    r.cloud.length = r.idxVec.length ∧
    ∀ (k : Nat), k < r.idxVec.length →
      ∃ (q h : Int) (ray : Vector3d) (m : Bool) (v : ℚ),
        r.idxVec[k]? = some q ∧ r.hypIdxVec[k]? = some h ∧
        (dm.cameraPtr.reconstructPointCloud r.imagePointVec).1[k]? = some ray ∧
        (dm.cameraPtr.reconstructPointCloud r.imagePointVec).2[k]? = some m ∧
        rd dm.valVec (q + h * dm.hStep) = .ok v ∧
        (v < e.MIN_DEPTH → hasFlag fl e.DEFAULT_VALUES = true) ∧
        (m = true → r.cloud[k]? = some ((e.normalized ray).scale
          (if v < e.MIN_DEPTH then e.DEFAULT_DEPTH else v))) ∧
        (m = false → r.cloud[k]? = some Vector3d.zero) := by
  obtain ⟨es, hlen, hpts, hcloud, hent⟩ := reconstruct_entry_at e dm result fl hcam r hr
  have hl := reconstruct_lengths e dm result fl hcam r hr
  obtain ⟨h1, _⟩ := hcam r.imagePointVec
  obtain ⟨_, _, hc⟩ := cloudLoop_plain e fl _ _ hmm _ 0 [] r.cloud rfl (by simpa using hcloud)
  refine ⟨hpts, by rw [hl.2.2.2.2.1]; simp [hmm], fun k hk => ?_⟩
  obtain ⟨en, ray, hen, ⟨v, s, hv, _, hcase⟩, hq, hh, hray⟩ := hent k hk
  have hkr : k < (dm.cameraPtr.reconstructPointCloud r.imagePointVec).1.length := by
    rw [h1, hl.2.2.2.1]; exact hk
  obtain ⟨m, hm, ht, hf⟩ := hc k hkr
  simp only [Nat.zero_add] at hm ht hf
  have hray' : (dm.cameraPtr.reconstructPointCloud r.imagePointVec).1[k] = ray := by
    rw [List.getElem?_eq_getElem hkr] at hray; exact Option.some.inj hray
  have hdepth : (depthVecOf e fl es)[k]? = some en.depth := by
    simp [depthVecOf, hmm, hen]
  refine ⟨en.idx, en.hyp, ray, m, v, hq, hh, hray, hm, hv, ?_, ?_, hf⟩
  · intro hlt
    rcases hcase with ⟨hge, _, _⟩ | ⟨_, hdef, _, _⟩
    · exact absurd hlt (not_lt.2 hge)
    · exact hdef
  · intro hmt
    obtain ⟨d, hd, hout⟩ := ht hmt
    rw [hdepth] at hd
    cases hd
    rw [hout, hray']
    rcases hcase with ⟨hge, hd', _⟩ | ⟨hlt, _, hd', _⟩
    · rw [if_neg (not_lt.2 hge), hd']
    · rw [if_pos hlt, hd']

/-- C9: the cloud of `reconstruct` under `MINMAX`, for a length-preserving
camera.  The pack holds two cloud points per entry.  For every entry `k` with a
valid ray, with `d` and `s` its depth and sigma after default substitution,
`cloud[2k]` is the normalized ray times `max(d - 2s, MIN_DEPTH)` and
`cloud[2k+1]` the normalized ray times `d + 2s`; for a stored depth 10 and sigma
1 the two factors are 8 and 12, provided `MIN_DEPTH ≤ 8`. -/
theorem reconstruct_minmax_bracket (e : Env) (dm : DepthMap) (result : MHPack) (fl : Nat)
    (hcam : dm.cameraPtr.LengthPreserving) (hmm : hasFlag fl e.MINMAX = true) (r : MHPack)
    (hr : dm.reconstruct e result fl = .ok r) :
    r.cloud.length = 2 * r.idxVec.length ∧
    ∀ (k : Nat), k < r.idxVec.length →
      ∃ (q h : Int) (ray : Vector3d) (m : Bool) (v s0 : ℚ),
        r.idxVec[k]? = some q ∧ r.hypIdxVec[k]? = some h ∧
        (dm.cameraPtr.reconstructPointCloud r.imagePointVec).1[k]? = some ray ∧
        (dm.cameraPtr.reconstructPointCloud r.imagePointVec).2[k]? = some m ∧
        rd dm.valVec (q + h * dm.hStep) = .ok v ∧
        rd dm.sigmaVec (q + h * dm.hStep) = .ok s0 ∧
        (v < e.MIN_DEPTH → hasFlag fl e.DEFAULT_VALUES = true) ∧
        (m = true →
          r.cloud[2 * k]? = some ((e.normalized ray).scale
            (max ((if v < e.MIN_DEPTH then e.DEFAULT_DEPTH else v) -
              2 * (if v < e.MIN_DEPTH then e.DEFAULT_SIGMA_DEPTH else s0)) e.MIN_DEPTH)) ∧
          r.cloud[2 * k + 1]? = some ((e.normalized ray).scale
            ((if v < e.MIN_DEPTH then e.DEFAULT_DEPTH else v) +
              2 * (if v < e.MIN_DEPTH then e.DEFAULT_SIGMA_DEPTH else s0)))) ∧
        (m = true → v = 10 → s0 = 1 → e.MIN_DEPTH ≤ 8 →
          r.cloud[2 * k]? = some ((e.normalized ray).scale 8) ∧
          r.cloud[2 * k + 1]? = some ((e.normalized ray).scale 12)) := by
  obtain ⟨es, hlen, hpts, hcloud, hent⟩ := reconstruct_entry_at e dm result fl hcam r hr
  have hl := reconstruct_lengths e dm result fl hcam r hr
  obtain ⟨h1, _⟩ := hcam r.imagePointVec
  obtain ⟨_, _, hc⟩ := cloudLoop_minmax e fl _ _ hmm _ 0 [] r.cloud rfl (by simpa using hcloud)
  refine ⟨by rw [hl.2.2.2.2.1]; simp [hmm], fun k hk => ?_⟩
  obtain ⟨en, ray, hen, ⟨v, s, hv, hs, hcase⟩, hq, hh, hray⟩ := hent k hk
  have hkr : k < (dm.cameraPtr.reconstructPointCloud r.imagePointVec).1.length := by
    rw [h1, hl.2.2.2.1]; exact hk
  obtain ⟨m, hm, ht, _⟩ := hc k hkr
  simp only [Nat.zero_add] at hm ht
  have hray' : (dm.cameraPtr.reconstructPointCloud r.imagePointVec).1[k] = ray := by
    rw [List.getElem?_eq_getElem hkr] at hray; exact Option.some.inj hray
  have hdepth := flatMap_pair_getElem? (fun en : Entry => max (en.depth - 2 * en.sigma) e.MIN_DEPTH)
    (fun en : Entry => en.depth + 2 * en.sigma) es k en hen
  beta_reduce at hdepth
  have hdv : depthVecOf e fl es = es.flatMap fun en =>
      [max (en.depth - 2 * en.sigma) e.MIN_DEPTH, en.depth + 2 * en.sigma] := by
    simp [depthVecOf, hmm]
  rw [← hdv] at hdepth
  have hmain : m = true →
      r.cloud[2 * k]? = some ((e.normalized ray).scale
        (max ((if v < e.MIN_DEPTH then e.DEFAULT_DEPTH else v) -
          2 * (if v < e.MIN_DEPTH then e.DEFAULT_SIGMA_DEPTH else s)) e.MIN_DEPTH)) ∧
      r.cloud[2 * k + 1]? = some ((e.normalized ray).scale
        ((if v < e.MIN_DEPTH then e.DEFAULT_DEPTH else v) +
          2 * (if v < e.MIN_DEPTH then e.DEFAULT_SIGMA_DEPTH else s))) := by
    intro hmt
    obtain ⟨d0, d1, hd0, hd1, ho0, ho1⟩ := ht hmt
    rw [hdepth.1] at hd0
    rw [hdepth.2] at hd1
    cases hd0; cases hd1
    rw [ho0, ho1, hray']
    rcases hcase with ⟨hge, hd', hs'⟩ | ⟨hlt, _, hd', hs'⟩
    · rw [if_neg (not_lt.2 hge), if_neg (not_lt.2 hge), hd', hs']; exact ⟨rfl, rfl⟩
    · rw [if_pos hlt, if_pos hlt, hd', hs']; exact ⟨rfl, rfl⟩
  refine ⟨en.idx, en.hyp, ray, m, v, s, hq, hh, hray, hm, hv, hs, ?_, hmain, ?_⟩
  · intro hlt
    rcases hcase with ⟨hge, _, _⟩ | ⟨_, hdef, _, _⟩
    · exact absurd hlt (not_lt.2 hge)
    · exact hdef
  · intro hmt hv10 hs1 hmin
    have := hmain hmt
    subst hv10 hs1
    have hnl : ¬ (10 : ℚ) < e.MIN_DEPTH := by linarith
    rw [if_neg hnl, if_neg hnl] at this
    have e1 : max ((10 : ℚ) - 2 * 1) e.MIN_DEPTH = 8 := by
      rw [max_eq_left (by linarith)]; norm_num
    have e2 : (10 : ℚ) + 2 * 1 = 12 := by norm_num
    rw [e1, e2] at this
    exact this

/-- C8 at an explicit input: both slots of column `(0, 0)` of `demoFilled`,
reconstructed under `ALL_HYPOTHESES`. -/
theorem reconstruct_cloud_content_witness :
    ∃ r, demoFilled.reconstruct demoEnv MHPack.cleared 4 = .ok r ∧
      r.cloud = [⟨0, 0, 5⟩, ⟨0, 0, 10⟩] ∧ r.cloud.length = r.idxVec.length := by
  have hr : demoFilled.reconstruct demoEnv MHPack.cleared 4 = .ok
      ⟨[(0, 0), (0, 0)], [0, 0], [0, 1], [], [], [], [], [⟨0, 0, 5⟩, ⟨0, 0, 10⟩]⟩ := by decide!
  exact ⟨_, hr, rfl, (reconstruct_cloud_content demoEnv demoFilled MHPack.cleared 4
    demoCamera_lengthPreserving (by decide) _ hr).2.1⟩

/-- C9 at an explicit input: both slots of column `(0, 0)` of `demoFilled`,
reconstructed under `MINMAX | ALL_HYPOTHESES`; slot 1 holds depth 10, sigma 1. -/
theorem reconstruct_minmax_bracket_witness :
    ∃ r, demoFilled.reconstruct demoEnv MHPack.cleared 6 = .ok r ∧
      r.cloud = [⟨0, 0, 3⟩, ⟨0, 0, 7⟩, ⟨0, 0, 8⟩, ⟨0, 0, 12⟩] ∧
      r.cloud.length = 2 * r.idxVec.length := by
  have hr : demoFilled.reconstruct demoEnv MHPack.cleared 6 = .ok
      ⟨[(0, 0), (0, 0)], [0, 0], [0, 1], [], [], [], [],
        [⟨0, 0, 3⟩, ⟨0, 0, 7⟩, ⟨0, 0, 8⟩, ⟨0, 0, 12⟩]⟩ := by decide!
  exact ⟨_, hr, rfl, (reconstruct_minmax_bracket demoEnv demoFilled MHPack.cleared 6
    demoCamera_lengthPreserving (by decide) _ hr).1⟩

/-! ## The default query -/

theorem hasFlag_zero (m : Nat) : hasFlag 0 m = false := by
  simp [hasFlag]

theorem slotsFrom_one (f : Int → List Entry) (lo : Int) : slotsFrom f lo 1 = f lo := by
  simp [slotsFrom]

theorem slotEntries_valid (e : Env) (dm : DepthMap) (fl : Nat) (i q : Int) (d s : ℚ)
    (hd : rd dm.valVec q = .ok d) (hs : rd dm.sigmaVec q = .ok s) (hge : e.MIN_DEPTH ≤ d) :
    slotEntries e dm fl i q 0 = [⟨q, 0, d, s, i⟩] := by
  simp only [slotEntries, zero_mul, add_zero, hd, hs, if_neg (not_lt.2 hge)]

theorem slotEntries_invalid (e : Env) (dm : DepthMap) (fl : Nat) (i q : Int) (d : ℚ)
    (hd : rd dm.valVec q = .ok d) (hlt : d < e.MIN_DEPTH)
    (hdef : hasFlag fl e.DEFAULT_VALUES = false) :
    slotEntries e dm fl i q 0 = [] := by
  unfold slotEntries
  simp only [zero_mul, add_zero, hd]
  cases rd dm.sigmaVec q with
  | error f => rfl
  | ok s => simp only [if_pos hlt, hdef, Bool.false_eq_true, if_false]

/-- With one slot per query index, a query list of valid in-range indices is
recorded as it is. -/
theorem allEntries_of_valid (e : Env) (dm : DepthMap) (fl : Nat) :
    ∀ (qs : List Int) (i0 : Int),
      (∀ q ∈ qs, 0 ≤ q ∧ q ≤ dm.hStep ∧ (∃ d, rd dm.valVec q = .ok d ∧ e.MIN_DEPTH ≤ d) ∧
        ∃ s, rd dm.sigmaVec q = .ok s) →
      (allEntries e dm fl 1 qs i0).map (fun en => en.idx) = qs := by
  intro qs
  induction qs with
  | nil => intro i0 _; rfl
  | cons q rest ih =>
    intro i0 h
    obtain ⟨h0, h1, ⟨d, hd, hge⟩, ⟨s, hs⟩⟩ := h q (by simp)
    have hr : ¬ (q < 0 ∨ q > dm.hStep) := by omega
    have h1' : (1 : Int).toNat = 1 := rfl
    simp only [allEntries, if_neg hr, h1', slotsFrom_one,
      slotEntries_valid e dm fl i0 q d s hd hs hge, List.map_append, List.map_cons, List.map_nil,
      List.singleton_append]
    rw [ih (i0 + 1) (fun p hp => h p (by simp [hp]))]

theorem pairwise_lt_eq_singleton (l : List Int) (a : Int) (hs : l.Pairwise (fun x y => x < y))
    (hm : ∀ i, i ∈ l ↔ i = a) : l = [a] := by
  match l, hs, hm with
  | [], _, hm => exact absurd ((hm a).2 rfl) (by simp)
  | [b], _, hm => rw [(hm b).1 (by simp)]
  | b :: c :: rest, hs, hm =>
    have hb := (hm b).1 (by simp)
    have hc := (hm c).1 (by simp)
    have := (List.pairwise_cons.1 hs).1 c (by simp)
    omega

/-- The default query on a well-formed map with at least one slot per column and
a length-preserving camera. -/
theorem reconstruct_default (e : Env) (dm : DepthMap) (hwf : dm.WF) (hh : 1 ≤ dm.hMax)
    (hcam : dm.cameraPtr.LengthPreserving) (result : MHPack) :
    ∃ r, dm.reconstruct e result 0 = .ok r ∧
      r.idxVec.Pairwise (fun a b => a < b) ∧
      (∀ i, i ∈ r.idxVec ↔
        0 ≤ i ∧ i < dm.xMax * dm.yMax ∧ ∃ d, rd dm.valVec i = .ok d ∧ e.MIN_DEPTH ≤ d) ∧
      (∀ h ∈ r.hypIdxVec, h = 0) ∧ r.hypIdxVec.length = r.idxVec.length ∧
      r.cloud.length = r.idxVec.length := by
  obtain ⟨r, hr⟩ := reconstruct_returns e dm hwf hh hcam result 0 (hasFlag_zero _)
    (fun h => by rw [hasFlag_zero] at h; cases h)
  have hl := reconstruct_lengths e dm result 0 hcam r hr
  obtain ⟨_, qs, pts, cloud, hqs, _, _, _, hpack⟩ := (reconstruct_eq_ok_iff e dm result 0 r).1 hr
  obtain ⟨qs', hqs', hsorted, hmem⟩ := getIdxVec_all e dm hwf hh
  have hq : qs = qs' := by
    simp only [DepthMap.queryIdxVec, hasFlag_zero, Bool.false_eq_true, if_false] at hqs
    rw [hqs'] at hqs
    exact (Except.ok.inj hqs).symm
  subst hq
  have hnum : numHypsOf e dm 0 = 1 := by simp [numHypsOf, hasFlag_zero]
  rw [hnum] at hpack
  have hidx : r.idxVec = qs := by
    rw [hpack]
    show (allEntries e dm 0 1 qs 0).map (fun en => en.idx) = qs
    apply allEntries_of_valid
    intro q hq
    obtain ⟨a, b, c⟩ := (hmem q).1 hq
    have hsr := slotReadable_of_lt e dm hwf hh 0 q 0 a b le_rfl (by rw [hnum]; decide)
    obtain ⟨_, s, hs⟩ := hsr
    simp only [zero_mul, add_zero] at hs
    exact ⟨a, b.le, c, s, hs⟩
  refine ⟨r, hr, by rw [hidx]; exact hsorted, by rw [hidx]; exact hmem, ?_, hl.1, ?_⟩
  · intro h hh'
    rw [hpack] at hh'
    simp only [packOf, List.mem_map] at hh'
    obtain ⟨en, hen, rfl⟩ := hh'
    obtain ⟨_, _, _, _, _, c1, c2, _⟩ := allEntries_mem e dm 0 1 qs 0 en hen
    omega
  · rw [hl.2.2.2.2.1]; simp [hasFlag_zero]

/-- C7, as the code has it: on a well-formed map with `hMax ≥ 1` and a
length-preserving camera, `reconstruct` with `flags = 0` returns a pack whose
`idxVec` is the strictly ascending list of all column indices in `[0, xMax *
yMax)` with slot-0 depth `≥ MIN_DEPTH`, whose `hypIdxVec` is all zero, and which
holds one cloud point per such column.  In particular, if the map is 4×4×1 and
empty and one push of a point `X` with `|X| ≥ MIN_DEPTH` succeeds, the default
reconstruction of the resulting map holds exactly one cloud point. -/
theorem reconstruct_default_query (e : Env) (dm : DepthMap) (hwf : dm.WF) (hh : 1 ≤ dm.hMax)
    (hcam : dm.cameraPtr.LengthPreserving) (result : MHPack) :
    (∃ r, dm.reconstruct e result 0 = .ok r ∧
      r.idxVec.Pairwise (fun a b => a < b) ∧
      (∀ i, i ∈ r.idxVec ↔
        0 ≤ i ∧ i < dm.xMax * dm.yMax ∧ ∃ d, rd dm.valVec i = .ok d ∧ e.MIN_DEPTH ≤ d) ∧
      (∀ h ∈ r.hypIdxVec, h = 0) ∧ r.hypIdxVec.length = r.idxVec.length ∧
      r.cloud.length = r.idxVec.length) ∧
    (∀ (X : Vector3d) (sigmaVal : ℚ) (dm' : DepthMap),
      dm.xMax = 4 → dm.yMax = 4 → dm.hMax = 1 →
      (∀ i, 0 ≤ i → i < 16 → ∃ d, rd dm.valVec i = .ok d ∧ d < e.MIN_DEPTH) →
      dm.pushHypothesis e X sigmaVal = .ok (true, dm') → e.MIN_DEPTH ≤ e.norm X →
      ∃ r', dm'.reconstruct e result 0 = .ok r' ∧ r'.idxVec.length = 1 ∧
        r'.cloud.length = 1) := by
  refine ⟨reconstruct_default e dm hwf hh hcam result, ?_⟩
  intro X sigmaVal dm' hx hy hm hempty hpush hnorm
  rcases pushHypothesis_cases e dm hwf X sigmaVal with
    ⟨_, hr⟩ | ⟨_, _, _, hr⟩ | ⟨_, _, _, _, hr⟩ | ⟨pt, h, _, hin, h0, h1, _, _, hr⟩
  · rw [hr] at hpush; cases hpush
  · rw [hr] at hpush; cases hpush
  · rw [hr] at hpush; cases hpush
  · rw [hr] at hpush
    simp only [Except.ok.injEq, Prod.mk.injEq, true_and] at hpush
    subst hpush
    have hvh : dm.isValid (dm.xConv pt.1) (dm.yConv pt.2) h = true :=
      (isValid_iff _ _ _ _).2 ⟨hin.1, hin.2.1, hin.2.2.1, hin.2.2.2, h0, h1⟩
    have hb := flatIdx_bounds dm _ _ _ hvh
    generalize dm.flatIdx (dm.xConv pt.1) (dm.yConv pt.2) h = idx0 at hb
    obtain ⟨w1, w2, w3, l1, l2, l3⟩ := hwf
    have hb1 : idx0 < (dm.valVec.length : Int) := by rw [l1]; exact hb.2
    obtain ⟨r', hr', hsorted, hmem, _, _, hcl⟩ := reconstruct_default e
      { dm with valVec := dm.valVec.set idx0.toNat (e.norm X),
                sigmaVec := dm.sigmaVec.set idx0.toNat sigmaVal }
      ⟨w1, w2, w3, by simpa using l1, by simpa using l2, l3⟩ hh hcam result
    have hone : r'.idxVec = [idx0] := by
      apply pairwise_lt_eq_singleton _ _ hsorted
      intro i
      rw [hmem i]
      simp only []
      constructor
      · rintro ⟨a, b, d, hd, hge⟩
        by_contra hne
        rw [rd_set_other _ _ _ _ hb.1 hne] at hd
        obtain ⟨d', hd', hlt⟩ := hempty i a (by rw [hx, hy] at b; omega)
        rw [hd] at hd'; cases hd'
        exact absurd hlt (not_lt.2 hge)
      · rintro rfl
        refine ⟨hb.1, ?_, e.norm X, rd_set_same _ _ _ hb.1 hb1, hnorm⟩
        have := hb.2
        rw [hm] at this
        omega
    exact ⟨r', hr', by rw [hone]; rfl, by rw [hcl, hone]; rfl⟩

/-- C7 at an explicit input: the point `(0, 0, 5)` pushed into the empty 4×4×1
map, then the default reconstruction. -/
theorem reconstruct_default_query_witness :
    ∃ r', (demoPushed 5).reconstruct demoEnv MHPack.cleared 0 = .ok r' ∧
      r'.idxVec.length = 1 ∧ r'.cloud.length = 1 :=
  (reconstruct_default_query demoEnv (demoMap 4 4 1) (by decide) (by decide)
    demoCamera_lengthPreserving MHPack.cleared).2 ⟨0, 0, 5⟩ 1 (demoPushed 5) rfl rfl rfl
    (by
      intro i h0 h1
      interval_cases i <;> exact ⟨0, by decide!, by decide!⟩)
    (by with_unfolding_all rfl) (by decide!)

/-- C7 as stated fails: pushing the point `(0, 0, 1/20)`, nearer than `MIN_DEPTH =
1/10`, into the empty 4×4×1 map succeeds, and the default reconstruction of the
resulting map holds no cloud point. -/
theorem reconstruct_after_near_push_counterexample :
    (∀ i : Fin 16, (demoMap 4 4 1).valVec[i.val]? = some 0) ∧
    (demoMap 4 4 1).pushHypothesis demoEnv ⟨0, 0, 1 / 20⟩ 1 = .ok (true, demoPushed (1 / 20)) ∧
    (demoPushed (1 / 20)).reconstruct demoEnv MHPack.cleared 0 = .ok MHPack.cleared ∧
    MHPack.cleared.cloud.length ≠ 1 :=
  ⟨by decide!, by with_unfolding_all rfl, by decide!, by decide⟩

/-! ## Query by image points -/

theorem count_pos_of_all (l : List Entry) (i0 : Int) (h : ∀ en ∈ l, en.pos = i0) :
    (l.map fun en => en.pos).count i0 = l.length := by
  induction l with
  | nil => rfl
  | cons en rest ih =>
    rw [List.map_cons, List.count_cons, ih (fun x hx => h x (List.mem_cons_of_mem _ hx))]
    simp [h en (List.mem_cons_self _ _)]

/-- The number of entries recorded for query position `i0 + k`: as many as the
column at that position contributes. -/
theorem allEntries_count_pos (e : Env) (dm : DepthMap) (fl : Nat) (numHyps : Int) :
    ∀ (qs : List Int) (i0 : Int) (k : Nat) (q : Int), qs[k]? = some q →
      ((allEntries e dm fl numHyps qs i0).map fun en => en.pos).count (i0 + k) =
        (if q < 0 ∨ q > dm.hStep then []
          else slotsFrom (fun h => slotEntries e dm fl (i0 + k) q h) 0 numHyps.toNat).length := by
  intro qs
  induction qs with
  | nil => intro i0 k q h; simp at h
  | cons q0 rest ih =>
    intro i0 k q hk
    have hcol : ∀ en ∈ (if q0 < 0 ∨ q0 > dm.hStep then []
        else slotsFrom (fun h => slotEntries e dm fl i0 q0 h) 0 numHyps.toNat), en.pos = i0 := by
      intro en hen
      by_cases hq : q0 < 0 ∨ q0 > dm.hStep
      · rw [if_pos hq] at hen; simp at hen
      · rw [if_neg hq] at hen
        obtain ⟨h, _, _, c⟩ := slotsFrom_mem _ _ _ _ hen
        exact (slotEntries_mem e dm fl i0 q0 h en c).2.2.1
    simp only [allEntries, List.map_append, List.count_append]
    cases k with
    | zero =>
      simp only [List.getElem?_cons_zero, Option.some.injEq] at hk
      subst hk
      simp only [Nat.cast_zero, add_zero]
      have h1 : ((if q0 < 0 ∨ q0 > dm.hStep then []
          else slotsFrom (fun h => slotEntries e dm fl i0 q0 h) 0 numHyps.toNat).map
          fun en => en.pos).count i0 = (if q0 < 0 ∨ q0 > dm.hStep then []
          else slotsFrom (fun h => slotEntries e dm fl i0 q0 h) 0 numHyps.toNat).length := by
        exact count_pos_of_all _ _ hcol
      have h2 : ((allEntries e dm fl numHyps rest (i0 + 1)).map fun en => en.pos).count i0 = 0 := by
        apply List.count_eq_zero.2
        intro hmem
        simp only [List.mem_map] at hmem
        obtain ⟨en, hen, hpos⟩ := hmem
        obtain ⟨j, hj, _⟩ := allEntries_mem e dm fl numHyps rest (i0 + 1) en hen
        omega
      rw [h1, h2, Nat.add_zero]
    | succ k =>
      simp only [List.getElem?_cons_succ] at hk
      have h1 : ((if q0 < 0 ∨ q0 > dm.hStep then []
          else slotsFrom (fun h => slotEntries e dm fl i0 q0 h) 0 numHyps.toNat).map
          fun en => en.pos).count (i0 + ((k + 1 : Nat) : Int)) = 0 := by
        apply List.count_eq_zero.2
        intro hmem
        simp only [List.mem_map] at hmem
        obtain ⟨en, hen, hpos⟩ := hmem
        have := hcol en hen
        push_cast at hpos
        omega
      have h2 := ih (i0 + 1) k q hk
      have e1 : i0 + 1 + (k : Int) = i0 + ((k + 1 : Nat) : Int) := by push_cast; ring
      rw [e1] at h2
      rw [h1, h2, Nat.zero_add]

/-- C10: query by image points.  On a well-formed map with `hMax ≥ 1`, for a
non-empty list of image points, `getIdxVec` returns the list (of the same
length) whose `i`-th entry is `xd + yd * xMax` when `(xd, yd) = (xConv(u_i),
yConv(v_i))` is inside the grid and `-1` otherwise.  With a length-preserving
camera, `reconstruct` under `QUERY_POINTS` and `INDEX_MAPPING` (and without
`QUERY_INDICES`, `ALL_HYPOTHESES`, `IMAGE_VALUES`) returns a pack in which the position of an out-of-grid point does not occur in
`idxMapVec`, and the position of an in-grid point whose slot-0 depth is `≥
MIN_DEPTH` occurs exactly once, at an entry whose `idxVec` is `xd + yd * xMax`. -/
theorem reconstruct_query_points (e : Env) (dm : DepthMap) (hwf : dm.WF) (hh : 1 ≤ dm.hMax)
    (hcam : dm.cameraPtr.LengthPreserving) (result : MHPack) (fl : Nat)
    (himg : hasFlag fl e.IMAGE_VALUES = false) (hqi : hasFlag fl e.QUERY_INDICES = false)
    (hqp : hasFlag fl e.QUERY_POINTS = true) (him : hasFlag fl e.INDEX_MAPPING = true)
    (hall : hasFlag fl e.ALL_HYPOTHESES = false) (hne : result.imagePointVec ≠ []) :
    dm.getIdxVec e result.imagePointVec = .ok (result.imagePointVec.map fun p =>
      if 0 ≤ dm.xConv p.1 ∧ dm.xConv p.1 < dm.xMax ∧ 0 ≤ dm.yConv p.2 ∧ dm.yConv p.2 < dm.yMax
      then dm.xConv p.1 + dm.yConv p.2 * dm.xMax else -1) ∧
    ∃ r, dm.reconstruct e result fl = .ok r ∧
      ∀ (i : Nat) (p : Vector2d), result.imagePointVec[i]? = some p →
        (¬ (0 ≤ dm.xConv p.1 ∧ dm.xConv p.1 < dm.xMax ∧ 0 ≤ dm.yConv p.2 ∧
            dm.yConv p.2 < dm.yMax) → (i : Int) ∉ r.idxMapVec) ∧
        ((0 ≤ dm.xConv p.1 ∧ dm.xConv p.1 < dm.xMax ∧ 0 ≤ dm.yConv p.2 ∧
            dm.yConv p.2 < dm.yMax) →
          (∃ d, rd dm.valVec (dm.xConv p.1 + dm.yConv p.2 * dm.xMax) = .ok d ∧
            e.MIN_DEPTH ≤ d) →
          r.idxMapVec.count (i : Int) = 1 ∧
          ∀ j : Nat, r.idxMapVec[j]? = some (i : Int) →
            r.idxVec[j]? = some (dm.xConv p.1 + dm.yConv p.2 * dm.xMax)) := by
  have hvalid : ∀ p : Vector2d, dm.isValid (dm.xConv p.1) (dm.yConv p.2) 0 = true ↔
      (0 ≤ dm.xConv p.1 ∧ dm.xConv p.1 < dm.xMax ∧ 0 ≤ dm.yConv p.2 ∧
        dm.yConv p.2 < dm.yMax) := by
    intro p
    rw [isValid_iff]
    constructor
    · rintro ⟨a, b, c, d, _, _⟩; exact ⟨a, b, c, d⟩
    · rintro ⟨a, b, c, d⟩; exact ⟨a, b, c, d, le_rfl, by omega⟩
  have hget : dm.getIdxVec e result.imagePointVec = .ok (result.imagePointVec.map fun p =>
      if 0 ≤ dm.xConv p.1 ∧ dm.xConv p.1 < dm.xMax ∧ 0 ≤ dm.yConv p.2 ∧ dm.yConv p.2 < dm.yMax
      then dm.xConv p.1 + dm.yConv p.2 * dm.xMax else -1) := by
    rw [getIdxVec_points e dm _ hne]
    congr 1
    apply List.map_congr_left
    intro p _
    by_cases hv : dm.isValid (dm.xConv p.1) (dm.yConv p.2) 0 = true
    · rw [if_pos hv, if_pos ((hvalid p).1 hv)]
    · rw [if_neg hv, if_neg (fun h => hv ((hvalid p).2 h))]
  refine ⟨hget, ?_⟩
  obtain ⟨r, hr⟩ := reconstruct_returns e dm hwf hh hcam result fl himg
    (fun h => by rw [hqi] at h; cases h)
  refine ⟨r, hr, ?_⟩
  obtain ⟨_, qs, pts, cloud, hqs, _, _, _, hpack⟩ := (reconstruct_eq_ok_iff e dm result fl r).1 hr
  simp only [DepthMap.queryIdxVec, hqi, hqp, Bool.false_eq_true, if_false, if_true, hget,
    Except.ok.injEq] at hqs
  have hnum : numHypsOf e dm fl = 1 := by simp [numHypsOf, hall]
  rw [hnum] at hpack
  have hmap : r.idxMapVec = (allEntries e dm fl 1 qs 0).map fun en => en.pos := by
    rw [hpack]; simp [packOf, him]
  have hidx : r.idxVec = (allEntries e dm fl 1 qs 0).map fun en => en.idx := by
    rw [hpack]; rfl
  intro i p hp
  have hqi' : qs[i]? = some (if 0 ≤ dm.xConv p.1 ∧ dm.xConv p.1 < dm.xMax ∧
      0 ≤ dm.yConv p.2 ∧ dm.yConv p.2 < dm.yMax
      then dm.xConv p.1 + dm.yConv p.2 * dm.xMax else -1) := by
    rw [← hqs, List.getElem?_map, hp]; rfl
  have hcount := allEntries_count_pos e dm fl 1 qs 0 i _ hqi'
  simp only [zero_add] at hcount
  rw [← hmap] at hcount
  constructor
  · intro hout
    rw [if_neg hout] at hcount
    simp only [show ((-1 : Int) < 0 ∨ (-1 : Int) > dm.hStep) from Or.inl (by decide), if_true,
      List.length_nil] at hcount
    exact List.count_eq_zero.1 hcount
  · intro hin ⟨d, hd, hge⟩
    rw [if_pos hin] at hcount hqi'
    have hc := col_bounds_arith _ _ _ _ hin.1 hin.2.1 hin.2.2.1 hin.2.2.2
    have hrange : ¬ (dm.xConv p.1 + dm.yConv p.2 * dm.xMax < 0 ∨
        dm.xConv p.1 + dm.yConv p.2 * dm.xMax > dm.hStep) := by
      unfold DepthMap.hStep; omega
    obtain ⟨_, s, hs⟩ := slotReadable_of_lt e dm hwf hh fl _ 0 hc.1 hc.2 le_rfl
      (by rw [hnum]; decide)
    simp only [zero_mul, add_zero] at hs
    have h1' : (1 : Int).toNat = 1 := rfl
    rw [if_neg hrange, h1', slotsFrom_one, slotEntries_valid e dm fl _ _ d s hd hs hge] at hcount
    refine ⟨by simpa using hcount, fun j hj => ?_⟩
    rw [hmap, List.getElem?_map] at hj
    rw [hidx, List.getElem?_map]
    cases hen : (allEntries e dm fl 1 qs 0)[j]? with
    | none => rw [hen] at hj; simp at hj
    | some en =>
      rw [hen] at hj
      simp only [Option.map_some', Option.some.injEq] at hj ⊢
      obtain ⟨k, hk, hqk, _⟩ := allEntries_mem e dm fl 1 qs 0 en (List.getElem?_mem hen)
      have hki : k = i := by omega
      subst hki
      rw [hqi'] at hqk
      exact (Option.some.inj hqk).symm

/-- C10 at an explicit input: the points `(0, 0)` (in the grid, depth 5),
`(9, 9)` (outside the grid) and `(1, 0)` (in the grid, empty) queried on the map
`demoPushed 5` under `QUERY_POINTS | INDEX_MAPPING`. -/
theorem reconstruct_query_points_witness :
    ∃ r, (demoPushed 5).reconstruct demoEnv
        { MHPack.cleared with imagePointVec := [(0, 0), (9, 9), (1, 0)] } 160 = .ok r ∧
      ((1 : Nat) : Int) ∉ r.idxMapVec ∧ r.idxMapVec.count ((0 : Nat) : Int) = 1 := by
  obtain ⟨_, r, hr, h⟩ := reconstruct_query_points demoEnv (demoPushed 5) (by decide) (by decide)
    demoCamera_lengthPreserving { MHPack.cleared with imagePointVec := [(0, 0), (9, 9), (1, 0)] }
    160 (by decide) (by decide) (by decide) (by decide) (by decide) (by simp)
  exact ⟨r, hr, (h 1 (9, 9) rfl).1 (by decide!),
    ((h 0 (0, 0) rfl).2 (by decide!) ⟨5, by decide!, by decide!⟩).1⟩

/-! ## The layout of the flattened index -/

/-- The image point that `getPointVec` returns for the flattened index of an
addressable cell. -/
theorem getPointVec_flatIdx (dm : DepthMap) (x y h : Int) (hv : dm.isValid x y h = true) :
    dm.getPointVec [dm.flatIdx x y h] = .ok [((dm.uConv x : ℚ), (dm.vConv y : ℚ))] := by
  obtain ⟨hx0, hx1, hy0, hy1, hh0, _⟩ := (isValid_iff _ _ _ _).1 hv
  have hc := col_bounds_arith _ _ _ _ hx0 hx1 hy0 hy1
  have hX : 0 < dm.xMax := by omega
  have hS : 0 < dm.hStep := by unfold DepthMap.hStep; omega
  have hidx0 : 0 ≤ dm.flatIdx x y h := (flatIdx_bounds dm x y h hv).1
  have hyx : 0 ≤ y * dm.xMax := mul_nonneg hy0 hX.le
  have h1 : (dm.flatIdx x y h).tmod dm.hStep = x + y * dm.xMax := by
    rw [Int.tmod_eq_emod hidx0 hS.le]
    unfold DepthMap.flatIdx
    rw [Int.add_mul_emod_self]
    exact Int.emod_eq_of_lt hc.1 (by unfold DepthMap.hStep; exact hc.2)
  have h2 : (x + y * dm.xMax).tmod dm.xMax = x := by
    rw [Int.tmod_eq_emod hc.1 hX.le, Int.add_mul_emod_self]
    exact Int.emod_eq_of_lt hx0 hx1
  have h3 : (x + y * dm.xMax).tdiv dm.xMax = y := by
    rw [Int.tdiv_eq_ediv hc.1 hX.le, Int.add_mul_ediv_right _ _ (by omega),
      Int.ediv_eq_zero_of_lt hx0 hx1, zero_add]
  simp only [DepthMap.getPointVec, cRem, cQuot, if_neg (ne_of_gt hS), if_neg (ne_of_gt hX), h1,
    h2, h3]

/-- C19: the flattened index `x + y*xMax + h*hStep` (with `hStep = xMax*yMax`)
sends every addressable cell to an index in `[0, xMax*yMax*hMax)`, is injective
on the addressable cells, and `getPointVec` inverts its column part: for the
index of an addressable cell `(x, y, h)` it returns `[(uConv(x), vConv(y))]`,
whatever `h` is. -/
theorem flatIdx_layout (dm : DepthMap) :
    (∀ x y h, dm.isValid x y h = true →
      0 ≤ x + y * dm.xMax + h * (dm.xMax * dm.yMax) ∧
      x + y * dm.xMax + h * (dm.xMax * dm.yMax) < dm.xMax * dm.yMax * dm.hMax) ∧
    (∀ x y h x' y' h', dm.isValid x y h = true → dm.isValid x' y' h' = true →
      x + y * dm.xMax + h * (dm.xMax * dm.yMax) = x' + y' * dm.xMax + h' * (dm.xMax * dm.yMax) →
      x = x' ∧ y = y' ∧ h = h') ∧
    (∀ x y h, dm.isValid x y h = true →
      dm.getPointVec [x + y * dm.xMax + h * (dm.xMax * dm.yMax)] =
        .ok [((dm.uConv x : ℚ), (dm.vConv y : ℚ))]) :=
  ⟨fun x y h hv => flatIdx_bounds dm x y h hv,
    fun x y h x' y' h' hv hv' heq => flatIdx_inj dm x y h x' y' h' hv hv' heq,
    fun x y h hv => getPointVec_flatIdx dm x y h hv⟩

/-! ## Index mapping, default values and all hypotheses -/

/-- The query positions recorded by the query loop are non-decreasing. -/
theorem allEntries_pos_sorted (e : Env) (dm : DepthMap) (fl : Nat) (numHyps : Int) :
    ∀ (qs : List Int) (i0 : Int),
      ((allEntries e dm fl numHyps qs i0).map fun en => en.pos).Pairwise (fun a b => a ≤ b) := by
  intro qs
  induction qs with
  | nil => intro i0; simp [allEntries]
  | cons q rest ih =>
    intro i0
    have hcol : ∀ en ∈ (if q < 0 ∨ q > dm.hStep then []
        else slotsFrom (fun h => slotEntries e dm fl i0 q h) 0 numHyps.toNat), en.pos = i0 := by
      intro en hen
      by_cases hq : q < 0 ∨ q > dm.hStep
      · rw [if_pos hq] at hen; simp at hen
      · rw [if_neg hq] at hen
        obtain ⟨h, _, _, c⟩ := slotsFrom_mem _ _ _ _ hen
        exact (slotEntries_mem e dm fl i0 q h en c).2.2.1
    simp only [allEntries, List.map_append]
    rw [List.pairwise_append]
    refine ⟨?_, ih (i0 + 1), ?_⟩
    · rw [List.pairwise_map]
      exact List.Pairwise.imp_of_mem (fun ha hb _ => by rw [hcol _ ha, hcol _ hb])
        (List.pairwise_of_forall (fun _ _ => trivial))
    · intro a ha b hb
      simp only [List.mem_map] at ha hb
      obtain ⟨en, hen, rfl⟩ := ha
      obtain ⟨en', hen', rfl⟩ := hb
      obtain ⟨k, hk, _⟩ := allEntries_mem e dm fl numHyps rest (i0 + 1) en' hen'
      rw [hcol en hen, hk]
      omega

/-- C12: `INDEX_MAPPING`.  In every pack that `reconstruct` returns under
`INDEX_MAPPING`, `idxMapVec` is as long as `idxVec`; every `idxMapVec[k]` is a
valid position of the resolved query index list and the query index at that
position is `idxVec[k]`; and `idxMapVec` is non-decreasing. -/
theorem reconstruct_index_mapping (e : Env) (dm : DepthMap) (result : MHPack) (fl : Nat)
    (him : hasFlag fl e.INDEX_MAPPING = true) (r : MHPack)
    (hr : dm.reconstruct e result fl = .ok r) :
    ∃ qs, dm.queryIdxVec e result fl = .ok qs ∧ r.idxMapVec.length = r.idxVec.length ∧
      (∀ (k : Nat) (m : Int), r.idxMapVec[k]? = some m →
        0 ≤ m ∧ m < (qs.length : Int) ∧ ∃ q, qs[m.toNat]? = some q ∧ r.idxVec[k]? = some q) ∧
      r.idxMapVec.Pairwise (fun a b => a ≤ b) := by
  obtain ⟨_, qs, pts, cloud, hqs, _, _, _, rfl⟩ := (reconstruct_eq_ok_iff e dm result fl r).1 hr
  refine ⟨qs, hqs, by simp [packOf, him], ?_, ?_⟩
  · intro k m hk
    simp only [packOf, him, if_true, List.getElem?_map] at hk
    cases hen : (allEntries e dm fl (numHypsOf e dm fl) qs 0)[k]? with
    | none => rw [hen] at hk; simp at hk
    | some en =>
      rw [hen] at hk
      simp only [Option.map_some', Option.some.injEq] at hk
      obtain ⟨j, hj, hqj, _⟩ := allEntries_mem e dm fl _ qs 0 en (List.getElem?_mem hen)
      have hm : m = (j : Int) := by omega
      subst hm
      have hjl : j < qs.length := (List.getElem?_eq_some_iff.1 hqj).1
      refine ⟨by omega, by omega, en.idx, by simpa using hqj, ?_⟩
      simp [packOf, hen]
  · simp only [packOf, him, if_true]
    exact allEntries_pos_sorted e dm fl _ qs 0

/-- C12 at an explicit input: the points `(0, 0)`, `(9, 9)`, `(1, 0)`, `(0, 0)`
queried on `demoPushed 5` under `QUERY_POINTS | INDEX_MAPPING`. -/
theorem reconstruct_index_mapping_witness :
    ∃ r, (demoPushed 5).reconstruct demoEnv
        { MHPack.cleared with imagePointVec := [(0, 0), (9, 9), (1, 0), (0, 0)] } 160 = .ok r ∧
      r.idxMapVec = [0, 3] ∧ r.idxMapVec.Pairwise (fun a b => a ≤ b) := by
  have hr : (demoPushed 5).reconstruct demoEnv
      { MHPack.cleared with imagePointVec := [(0, 0), (9, 9), (1, 0), (0, 0)] } 160 = .ok
      ⟨[(0, 0), (0, 0)], [0, 0], [0, 0], [], [], [], [0, 3], [⟨0, 0, 5⟩, ⟨0, 0, 5⟩]⟩ := by
    decide!
  obtain ⟨_, _, _, _, hs⟩ := reconstruct_index_mapping demoEnv (demoPushed 5)
    { MHPack.cleared with imagePointVec := [(0, 0), (9, 9), (1, 0), (0, 0)] } 160 (by decide) _ hr
  exact ⟨_, hr, rfl, hs⟩

theorem slotEntries_default (e : Env) (dm : DepthMap) (fl : Nat) (i q h : Int)
    (hdef : hasFlag fl e.DEFAULT_VALUES = true) (hread : SlotReadable dm q h) :
    ∃ d s, slotEntries e dm fl i q h = [⟨q, h, d, s, i⟩] := by
  obtain ⟨⟨d, hd⟩, ⟨s, hs⟩⟩ := hread
  unfold slotEntries
  simp only [hd, hs, hdef, if_true]
  by_cases hlt : d < e.MIN_DEPTH
  · exact ⟨_, _, by rw [if_pos hlt]⟩
  · exact ⟨_, _, by rw [if_neg hlt]⟩

/-- Under `DEFAULT_VALUES` a readable column contributes one entry per slot, in
the order of the slots. -/
theorem slotsFrom_default (e : Env) (dm : DepthMap) (fl : Nat) (i q : Int)
    (hdef : hasFlag fl e.DEFAULT_VALUES = true) (n : Nat) :
    ∀ lo : Int, (∀ h, lo ≤ h → h < lo + n → SlotReadable dm q h) →
      (slotsFrom (fun h => slotEntries e dm fl i q h) lo n).map (fun en => en.idx) =
        List.replicate n q ∧
      (slotsFrom (fun h => slotEntries e dm fl i q h) lo n).map (fun en => en.hyp) =
        (List.range n).map (fun k : Nat => lo + (k : Int)) := by
  induction n with
  | zero => intro lo _; simp [slotsFrom]
  | succ n ih =>
    intro lo hread
    obtain ⟨d, s, hds⟩ := slotEntries_default e dm fl i q lo hdef
      (hread lo le_rfl (by push_cast; omega))
    obtain ⟨h1, h2⟩ := ih (lo + 1) (fun h a b => hread h (by omega) (by push_cast; omega))
    simp only [slotsFrom, hds, List.singleton_append, List.map_cons, h1, h2]
    refine ⟨by rw [List.replicate_succ], ?_⟩
    rw [List.range_succ_eq_map, List.map_cons, List.map_map]
    congr 1
    · simp
    · apply List.map_congr_left
      intro k _
      simp only [Function.comp, Nat.cast_succ]
      ring

/-- Under `DEFAULT_VALUES` every query index that passes the range check
contributes `numHyps` consecutive entries, for the slots `0, ..., numHyps - 1`. -/
theorem allEntries_default (e : Env) (dm : DepthMap) (fl : Nat) (numHyps : Int)
    (hdef : hasFlag fl e.DEFAULT_VALUES = true) :
    ∀ (qs : List Int) (i0 : Int),
      (∀ q ∈ qs, ¬ (q < 0 ∨ q > dm.hStep) → ∀ h, 0 ≤ h → h < numHyps → SlotReadable dm q h) →
      (allEntries e dm fl numHyps qs i0).map (fun en => en.idx) =
        (qs.filter fun q => decide (¬ (q < 0 ∨ q > dm.hStep))).flatMap
          (fun q => List.replicate numHyps.toNat q) ∧
      (allEntries e dm fl numHyps qs i0).map (fun en => en.hyp) =
        (qs.filter fun q => decide (¬ (q < 0 ∨ q > dm.hStep))).flatMap
          (fun _ => (List.range numHyps.toNat).map (fun k : Nat => (k : Int))) := by
  intro qs
  induction qs with
  | nil => intro i0 _; simp [allEntries]
  | cons q rest ih =>
    intro i0 hread
    obtain ⟨h1, h2⟩ := ih (i0 + 1) (fun p hp => hread p (List.mem_cons_of_mem _ hp))
    by_cases hq : q < 0 ∨ q > dm.hStep
    · simp only [allEntries, if_pos hq, List.nil_append, h1, h2]
      have : decide (¬ (q < 0 ∨ q > dm.hStep)) = false := decide_eq_false (not_not.2 hq)
      simp only [List.filter_cons, this, Bool.false_eq_true, if_false, and_self]
    · obtain ⟨c1, c2⟩ := slotsFrom_default e dm fl i0 q hdef numHyps.toNat 0
        (fun h a b => hread q (List.mem_cons_self _ _) hq h a (by omega))
      have : decide (¬ (q < 0 ∨ q > dm.hStep)) = true := decide_eq_true hq
      simp only [allEntries, if_neg hq, List.map_append, h1, h2, c1, c2, List.filter_cons, this,
        if_true, List.flatMap_cons, zero_add, and_self]

/-- C11: `DEFAULT_VALUES` and `ALL_HYPOTHESES`.  Let `reconstruct` return a pack
for the resolved query list `qs`, with `numHyps = hMax` under `ALL_HYPOTHESES`
and 1 otherwise.  Under `DEFAULT_VALUES` every query index that passes the range
check contributes exactly `numHyps` consecutive entries, with `hypIdxVec = 0,
..., numHyps - 1`, and none is skipped.  The entries behind the pack (one per
output position; their sigmas form `sigmaVec`, their depths the scale factors of
the cloud loop) carry `DEFAULT_DEPTH` and `DEFAULT_SIGMA_DEPTH` where the stored
depth is below `MIN_DEPTH`, which happens only under `DEFAULT_VALUES`, and the
stored depth and sigma elsewhere.  Without `DEFAULT_VALUES` every emitted entry
`(idxVec[k], hypIdxVec[k])` addresses a slot whose stored depth is `≥ MIN_DEPTH`. -/
theorem reconstruct_default_values (e : Env) (dm : DepthMap) (result : MHPack) (fl : Nat)
    (r : MHPack) (hr : dm.reconstruct e result fl = .ok r) :
    ∃ (qs : List Int) (es : List Entry), dm.queryIdxVec e result fl = .ok qs ∧
      r = packOf e fl es r.imagePointVec r.cloud ∧
      cloudLoop e fl (dm.cameraPtr.reconstructPointCloud r.imagePointVec).2 (depthVecOf e fl es)
        (dm.cameraPtr.reconstructPointCloud r.imagePointVec).1 0 [] = .ok r.cloud ∧
      (hasFlag fl e.DEFAULT_VALUES = true →
        r.idxVec = (qs.filter fun q => decide (¬ (q < 0 ∨ q > dm.hStep))).flatMap
          (fun q => List.replicate (numHypsOf e dm fl).toNat q) ∧
        r.hypIdxVec = (qs.filter fun q => decide (¬ (q < 0 ∨ q > dm.hStep))).flatMap
          (fun _ => (List.range (numHypsOf e dm fl).toNat).map (fun k : Nat => (k : Int)))) ∧
      (∀ en ∈ es, ∃ v s, rd dm.valVec (en.idx + en.hyp * dm.hStep) = .ok v ∧
        rd dm.sigmaVec (en.idx + en.hyp * dm.hStep) = .ok s ∧
        (v < e.MIN_DEPTH → hasFlag fl e.DEFAULT_VALUES = true ∧
          en.depth = e.DEFAULT_DEPTH ∧ en.sigma = e.DEFAULT_SIGMA_DEPTH) ∧
        (e.MIN_DEPTH ≤ v → en.depth = v ∧ en.sigma = s)) ∧
      (hasFlag fl e.DEFAULT_VALUES = false → ∀ k, k < r.idxVec.length →
        ∃ q h v, r.idxVec[k]? = some q ∧ r.hypIdxVec[k]? = some h ∧
          rd dm.valVec (q + h * dm.hStep) = .ok v ∧ e.MIN_DEPTH ≤ v) := by
  obtain ⟨_, qs, pts, cloud, hqs, hread, _, hcloud, rfl⟩ :=
    (reconstruct_eq_ok_iff e dm result fl r).1 hr
  have hok : ∀ en ∈ allEntries e dm fl (numHypsOf e dm fl) qs 0,
      ∃ v s, rd dm.valVec (en.idx + en.hyp * dm.hStep) = .ok v ∧
        rd dm.sigmaVec (en.idx + en.hyp * dm.hStep) = .ok s ∧
        (v < e.MIN_DEPTH → hasFlag fl e.DEFAULT_VALUES = true ∧
          en.depth = e.DEFAULT_DEPTH ∧ en.sigma = e.DEFAULT_SIGMA_DEPTH) ∧
        (e.MIN_DEPTH ≤ v → en.depth = v ∧ en.sigma = s) := by
    intro en hen
    obtain ⟨_, _, _, _, _, _, _, v, s, hv, hs, hcase⟩ := allEntries_mem e dm fl _ qs 0 en hen
    refine ⟨v, s, hv, hs, ?_, ?_⟩
    · intro hlt
      rcases hcase with ⟨hge, _, _⟩ | ⟨_, a, b, c⟩
      · exact absurd hlt (not_lt.2 hge)
      · exact ⟨a, b, c⟩
    · intro hge
      rcases hcase with ⟨_, a, b⟩ | ⟨hlt, _, _, _⟩
      · exact ⟨a, b⟩
      · exact absurd hlt (not_lt.2 hge)
  refine ⟨qs, allEntries e dm fl (numHypsOf e dm fl) qs 0, hqs, rfl, hcloud, ?_, hok, ?_⟩
  · intro hdef
    exact allEntries_default e dm fl _ hdef qs 0 hread
  · intro hdef k hk
    have hk' : k < (allEntries e dm fl (numHypsOf e dm fl) qs 0).length := by
      simpa [packOf] using hk
    obtain ⟨v, s, hv, _, hlt, _⟩ := hok _ (List.getElem_mem hk')
    refine ⟨_, _, v, ?_, ?_, hv, ?_⟩
    · simp [packOf, List.getElem?_eq_getElem hk']
    · simp [packOf, List.getElem?_eq_getElem hk']
    · by_contra hnot
      have := (hlt (lt_of_not_le hnot)).1
      rw [hdef] at this
      cases this

/-- C11 at an explicit input: the query indices `[0, 99, 1]` on `demoFilled`
under `QUERY_INDICES | DEFAULT_VALUES | ALL_HYPOTHESES | SIGMA_VALUE`. -/
theorem reconstruct_default_values_witness :
    ∃ r, demoFilled.reconstruct demoEnv { MHPack.cleared with idxVec := [0, 99, 1] } 92 = .ok r ∧
      r.idxVec = [0, 0, 1, 1] ∧ r.hypIdxVec = [0, 1, 0, 1] ∧ r.sigmaVec = [1, 1, 100, 100] := by
  have hr : demoFilled.reconstruct demoEnv { MHPack.cleared with idxVec := [0, 99, 1] } 92 = .ok
      ⟨[(0, 0), (0, 0), (1, 0), (1, 0)], [0, 0, 1, 1], [0, 1, 0, 1], [], [1, 1, 100, 100], [], [],
        [⟨0, 0, 5⟩, ⟨0, 0, 10⟩, ⟨1 / 2, 0, 1 / 2⟩, ⟨1 / 2, 0, 1 / 2⟩]⟩ := by decide!
  obtain ⟨qs, _, hqs, _, _, h, _⟩ := reconstruct_default_values demoEnv demoFilled
    { MHPack.cleared with idxVec := [0, 99, 1] } 92 _ hr
  have hq0 : demoFilled.queryIdxVec demoEnv { MHPack.cleared with idxVec := [0, 99, 1] } 92 =
      .ok [0, 99, 1] := by decide
  rw [hq0] at hqs
  have hqs' : qs = [0, 99, 1] := (Except.ok.inj hqs).symm
  subst hqs'
  exact ⟨_, hr, (h (by decide)).1.trans (by decide), rfl, rfl⟩

/-! ## The point query of the warp -/

theorem slotEntries_zero_of_readable (e : Env) (dm : DepthMap) (fl : Nat) (i q : Int)
    (hdef : hasFlag fl e.DEFAULT_VALUES = false) (hread : SlotReadable dm q 0) :
    (slotEntries e dm fl i q 0).map (fun en => en.idx) = if dm.validAt e q then [q] else [] := by
  obtain ⟨⟨d, hd⟩, ⟨s, hs⟩⟩ := hread
  simp only [zero_mul, add_zero] at hd hs
  by_cases hge : e.MIN_DEPTH ≤ d
  · rw [slotEntries_valid e dm fl i q d s hd hs hge]
    simp [DepthMap.validAt, hd, hge]
  · rw [slotEntries_invalid e dm fl i q d hd (lt_of_not_le hge) hdef]
    simp [DepthMap.validAt, hd, hge]

/-- With one slot per query index and without `DEFAULT_VALUES`, the recorded grid
indices are the query indices that pass the range check and hold a valid slot-0
depth, in query order. -/
theorem allEntries_single_filter (e : Env) (dm : DepthMap) (fl : Nat)
    (hdef : hasFlag fl e.DEFAULT_VALUES = false) :
    ∀ (qs : List Int) (i0 : Int),
      (∀ q ∈ qs, ¬ (q < 0 ∨ q > dm.hStep) → SlotReadable dm q 0) →
      (allEntries e dm fl 1 qs i0).map (fun en => en.idx) =
        qs.filter fun q => decide (¬ (q < 0 ∨ q > dm.hStep)) && dm.validAt e q := by
  intro qs
  induction qs with
  | nil => intro i0 _; rfl
  | cons q rest ih =>
    intro i0 hread
    have hrest := ih (i0 + 1) (fun p hp => hread p (List.mem_cons_of_mem _ hp))
    have h1' : (1 : Int).toNat = 1 := rfl
    by_cases hq : q < 0 ∨ q > dm.hStep
    · have : decide (¬ (q < 0 ∨ q > dm.hStep)) = false := decide_eq_false (not_not.2 hq)
      simp only [allEntries, if_pos hq, List.nil_append, hrest, List.filter_cons, this,
        Bool.false_and, Bool.false_eq_true, if_false]
    · have : decide (¬ (q < 0 ∨ q > dm.hStep)) = true := decide_eq_true hq
      simp only [allEntries, if_neg hq, h1', slotsFrom_one, List.map_append, hrest,
        slotEntries_zero_of_readable e dm fl i0 q hdef (hread q (List.mem_cons_self _ _) hq),
        List.filter_cons, this, Bool.true_and]
      by_cases hv : dm.validAt e q = true
      · simp [hv]
      · simp [hv]

/-- C18, as the code has it: on a well-formed map with `hMax ≥ 1` and a
length-preserving camera, `reconstruct` under `QUERY_POINTS` (without
`QUERY_INDICES`, `ALL_HYPOTHESES`, `DEFAULT_VALUES`, `IMAGE_VALUES`) on a
non-empty list of query points returns at most one entry per query point, in
query order: `idxVec` lists the grid indices of exactly those points that are
inside the grid and whose slot-0 depth is `≥ MIN_DEPTH`; the other points are
dropped.  `hypIdxVec` is all zero and `cloud` has one point per entry (two under
`MINMAX`). -/
theorem reconstruct_point_query (e : Env) (dm : DepthMap) (hwf : dm.WF) (hh : 1 ≤ dm.hMax)
    (hcam : dm.cameraPtr.LengthPreserving) (result : MHPack) (fl : Nat)
    (himg : hasFlag fl e.IMAGE_VALUES = false) (hqi : hasFlag fl e.QUERY_INDICES = false)
    (hqp : hasFlag fl e.QUERY_POINTS = true) (hall : hasFlag fl e.ALL_HYPOTHESES = false)
    (hdef : hasFlag fl e.DEFAULT_VALUES = false) (hne : result.imagePointVec ≠ []) :
    ∃ r, dm.reconstruct e result fl = .ok r ∧
      r.idxVec = (result.imagePointVec.map dm.idxOfPoint).filter
        (fun q => decide (0 ≤ q) && dm.validAt e q) ∧
      (∀ h ∈ r.hypIdxVec, h = 0) ∧
      r.idxVec.length ≤ result.imagePointVec.length ∧
      r.cloud.length =
        (if hasFlag fl e.MINMAX = true then 2 * r.idxVec.length else r.idxVec.length) := by
  obtain ⟨r, hr⟩ := reconstruct_returns e dm hwf hh hcam result fl himg
    (fun h => by rw [hqi] at h; cases h)
  have hl := reconstruct_lengths e dm result fl hcam r hr
  obtain ⟨_, qs, pts, cloud, hqs, hread, _, _, hpack⟩ := (reconstruct_eq_ok_iff e dm result fl r).1 hr
  have hget := getIdxVec_points e dm _ hne
  simp only [DepthMap.queryIdxVec, hqi, hqp, Bool.false_eq_true, if_false, if_true, hget,
    Except.ok.injEq] at hqs
  have hqs' : qs = result.imagePointVec.map dm.idxOfPoint := hqs.symm
  have hnum : numHypsOf e dm fl = 1 := by simp [numHypsOf, hall]
  rw [hnum] at hpack hread
  have hidx : r.idxVec = (result.imagePointVec.map dm.idxOfPoint).filter
      (fun q => decide (0 ≤ q) && dm.validAt e q) := by
    rw [hpack]
    show (allEntries e dm fl 1 qs 0).map (fun en => en.idx) = _
    rw [allEntries_single_filter e dm fl hdef qs 0
      (fun q hq hr' => hread q hq hr' 0 le_rfl (by decide)), hqs']
    apply List.filter_congr
    intro q hq
    simp only [List.mem_map] at hq
    obtain ⟨p, _, rfl⟩ := hq
    have hb : ¬ (dm.idxOfPoint p < 0 ∨ dm.idxOfPoint p > dm.hStep) ↔ 0 ≤ dm.idxOfPoint p := by
      unfold DepthMap.idxOfPoint
      by_cases hv : dm.isValid (dm.xConv p.1) (dm.yConv p.2) 0 = true
      · rw [if_pos hv]
        obtain ⟨a, b, c, d, _, _⟩ := (isValid_iff _ _ _ _).1 hv
        have := col_bounds_arith _ _ _ _ a b c d
        unfold DepthMap.hStep
        omega
      · rw [if_neg hv]; omega
    rw [decide_eq_decide.2 hb]
  refine ⟨r, hr, hidx, ?_, ?_, hl.2.2.2.2.1⟩
  · intro h hmem
    rw [hpack] at hmem
    simp only [packOf, List.mem_map] at hmem
    obtain ⟨en, hen, rfl⟩ := hmem
    obtain ⟨_, _, _, _, _, c1, c2, _⟩ := allEntries_mem e dm fl 1 qs 0 en hen
    omega
  · rw [hidx]
    exact (List.length_filter_le _ _).trans (by rw [List.length_map])

/-- C18 at an explicit input: three query points on `demoPushed 5`, one in the
grid with a valid depth, one outside the grid, one in the grid and empty. -/
theorem reconstruct_point_query_witness :
    ∃ r, (demoPushed 5).reconstruct demoEnv
        { MHPack.cleared with imagePointVec := [(0, 0), (9, 9), (1, 0)] } 32 = .ok r ∧
      r.idxVec = [0] ∧ r.cloud.length = 1 := by
  obtain ⟨r, hr, hidx, _, _, hcl⟩ := reconstruct_point_query demoEnv (demoPushed 5) (by decide)
    (by decide) demoCamera_lengthPreserving
    { MHPack.cleared with imagePointVec := [(0, 0), (9, 9), (1, 0)] } 32 (by decide) (by decide)
    (by decide) (by decide) (by decide) (by simp)
  have h0 : r.idxVec = [0] := hidx.trans (by decide!)
  refine ⟨r, hr, h0, ?_⟩
  rw [hcl, h0]; decide

/-- C18 as stated fails: of the three query points `(0, 0)`, `(9, 9)`, `(1, 0)` on
`demoPushed 5`, the second is outside the grid and the third has no valid depth;
`reconstruct` under `QUERY_POINTS` returns one entry, not three. -/
theorem reconstruct_point_query_counterexample :
    (demoPushed 5).reconstruct demoEnv
        { MHPack.cleared with imagePointVec := [(0, 0), (9, 9), (1, 0)] } 32 =
      .ok ⟨[(0, 0)], [0], [0], [], [], [], [], [⟨0, 0, 5⟩]⟩ ∧
    ([0] : List Int).length ≠ ([(0, 0), (9, 9), (1, 0)] : List Vector2d).length ∧
    ([⟨0, 0, 5⟩] : List Vector3d).length ≠ ([(0, 0), (9, 9), (1, 0)] : List Vector2d).length :=
  ⟨by decide!, by decide, by decide⟩

/-! ## The range check on query indices -/

/-- C13 on failing inputs.  The range check of `reconstruct` lets the query index
`hStep = xMax * yMax = 16` pass.  On the empty 4×4×1 map the read of `valVec[16]`
is then outside the array of length 16; on the 4×4×2 map `demoFilled` the read
hits slot 1 of column 0 and the index 16 is recorded in `idxVec`. -/
theorem reconstruct_range_check_failing_input :
    (demoMap 4 4 1).WF ∧ (demoMap 4 4 1).hStep = 16 ∧ (demoMap 4 4 1).valVec.length = 16 ∧
    (demoMap 4 4 1).reconstruct demoEnv { MHPack.cleared with idxVec := [16] } 64 =
      .error .outOfBounds ∧
    demoFilled.WF ∧ demoFilled.hStep = 16 ∧
    demoFilled.reconstruct demoEnv { MHPack.cleared with idxVec := [16] } 64 =
      .ok ⟨[(0, 0)], [16], [0], [], [], [], [], [⟨0, 0, 10⟩]⟩ :=
  ⟨by decide, by decide, by decide, by decide!, by decide, by decide, by decide!⟩

/-! ## The empty point query -/

theorem emitEntry_congr (e : Env) (f g : Nat) (h : FlagsAgree e f g) (i q k : Int) (d s : ℚ)
    (st : MHPack × List ℚ) : emitEntry e f i q k d s st = emitEntry e g i q k d s st := by
  obtain ⟨_, h2, _, _, h5, h6⟩ := h
  simp only [emitEntry, h2, h5, h6]

theorem hypBody_congr (e : Env) (dm : DepthMap) (f g : Nat) (h : FlagsAgree e f g) :
    hypBody e dm f = hypBody e dm g := by
  funext i q k st
  simp only [hypBody, emitEntry_congr e f g h, h.2.2.2.1]

theorem queryLoop_congr (e : Env) (dm : DepthMap) (f g : Nat) (h : FlagsAgree e f g)
    (numHyps : Int) :
    ∀ (qs : List Int) (i : Int) (st : MHPack × List ℚ),
      queryLoop e dm f numHyps qs i st = queryLoop e dm g numHyps qs i st := by
  intro qs
  induction qs with
  | nil => intro i st; rfl
  | cons q rest ih =>
    intro i st
    simp only [queryLoop, hypBody_congr e dm f g h, ih]

theorem cloudLoop_congr (e : Env) (f g : Nat) (h : FlagsAgree e f g) (maskVec : List Bool)
    (depthVec : List ℚ) :
    ∀ (rays : List Vector3d) (i : Int) (out : List Vector3d),
      cloudLoop e f maskVec depthVec rays i out = cloudLoop e g maskVec depthVec rays i out := by
  intro rays
  induction rays with
  | nil => intro i out; rfl
  | cons X rest ih =>
    intro i out
    simp only [cloudLoop, h.2.1, ih]

/-- The function `reconstruct` depends on the flag word only through its flag
tests and the query that it resolves. -/
theorem reconstruct_congr (e : Env) (dm : DepthMap) (result : MHPack) (f g : Nat)
    (h : FlagsAgree e f g)
    (hq : dm.queryIdxVec e result f = dm.queryIdxVec e result g) :
    dm.reconstruct e result f = dm.reconstruct e result g := by
  have hq1 := queryLoop_congr e dm f g h
  have hc1 := cloudLoop_congr e f g h
  simp only [DepthMap.reconstruct, h.1, h.2.2.1, hq, hq1, hc1]

theorem hasFlag_or_of_disjoint (f p m : Nat) (h : p &&& m = 0) :
    hasFlag (f ||| p) m = hasFlag f m := by
  have : (f ||| p) &&& m = f &&& m := by
    rw [Nat.and_comm, Nat.and_or_distrib_left, Nat.and_comm m f, Nat.and_comm m p, h,
      Nat.or_zero]
  simp only [hasFlag, this]

/-- C20: the empty point query.  Let the mask `QUERY_POINTS` share no bit with
the other seven flag masks, and let `f` be a flag word without `QUERY_INDICES`.
On a pack whose `imagePointVec` is empty, `reconstruct` with `f | QUERY_POINTS`
has exactly the outcome of `reconstruct` with `f`: both resolve the query to
`getIdxVec()`, the columns with a valid slot-0 depth.  And every pack that
`reconstruct` returns, for any flag word, has empty `costVec` and `valVec`. -/
theorem reconstruct_empty_point_query (e : Env) (dm : DepthMap) (result : MHPack) (f : Nat)
    (hempty : result.imagePointVec = []) (hqi : hasFlag f e.QUERY_INDICES = false)
    (d1 : e.QUERY_POINTS &&& e.IMAGE_VALUES = 0) (d2 : e.QUERY_POINTS &&& e.MINMAX = 0)
    (d3 : e.QUERY_POINTS &&& e.ALL_HYPOTHESES = 0) (d4 : e.QUERY_POINTS &&& e.DEFAULT_VALUES = 0)
    (d5 : e.QUERY_POINTS &&& e.SIGMA_VALUE = 0) (d6 : e.QUERY_POINTS &&& e.QUERY_INDICES = 0)
    (d7 : e.QUERY_POINTS &&& e.INDEX_MAPPING = 0) :
    dm.reconstruct e result (f ||| e.QUERY_POINTS) = dm.reconstruct e result f ∧
    dm.queryIdxVec e result (f ||| e.QUERY_POINTS) = dm.getIdxVec e [] ∧
    dm.queryIdxVec e result f = dm.getIdxVec e [] ∧
    (∀ (g : Nat) (r : MHPack), dm.reconstruct e result g = .ok r →
      r.costVec = [] ∧ r.valVec = []) := by
  have hq1 : dm.queryIdxVec e result (f ||| e.QUERY_POINTS) = dm.getIdxVec e [] := by
    simp only [DepthMap.queryIdxVec, hasFlag_or_of_disjoint f _ _ d6, hqi, hempty,
      Bool.false_eq_true, if_false, ite_self]
  have hq2 : dm.queryIdxVec e result f = dm.getIdxVec e [] := by
    simp only [DepthMap.queryIdxVec, hqi, hempty, Bool.false_eq_true, if_false, ite_self]
  refine ⟨?_, hq1, hq2, ?_⟩
  · apply reconstruct_congr
    · exact ⟨hasFlag_or_of_disjoint f _ _ d1, hasFlag_or_of_disjoint f _ _ d2,
        hasFlag_or_of_disjoint f _ _ d3, hasFlag_or_of_disjoint f _ _ d4,
        hasFlag_or_of_disjoint f _ _ d5, hasFlag_or_of_disjoint f _ _ d7⟩
    · rw [hq1, hq2]
  · intro g r hr
    obtain ⟨_, qs, pts, cloud, _, _, _, _, rfl⟩ := (reconstruct_eq_ok_iff e dm result g r).1 hr
    exact ⟨rfl, rfl⟩

/-- C20 at an explicit input: `demoFilled` reconstructed under `SIGMA_VALUE |
QUERY_POINTS` and under `SIGMA_VALUE`, on the empty pack. -/
theorem reconstruct_empty_point_query_witness :
    demoFilled.reconstruct demoEnv MHPack.cleared (16 ||| demoEnv.QUERY_POINTS) =
      demoFilled.reconstruct demoEnv MHPack.cleared 16 ∧
    demoFilled.reconstruct demoEnv MHPack.cleared 16 =
      .ok ⟨[(0, 0)], [0], [0], [], [1], [], [], [⟨0, 0, 5⟩]⟩ :=
  ⟨(reconstruct_empty_point_query demoEnv demoFilled MHPack.cleared 16 rfl (by decide)
    (by decide) (by decide) (by decide) (by decide) (by decide) (by decide) (by decide)).1,
    by decide!⟩

/-! ## Plane synthesis -/

/-- The edge loop of `generatePlane` returns, and `inside` is true exactly when
the ray is on the non-negative side of every remaining edge. -/
theorem insideLoop_spec (vec : Vector3d) (poly : List Vector3d) :
    ∀ (n : Nat) (i0 : Nat), i0 + n = poly.length →
      ∃ b, insideLoop vec poly (i0 : Int) n = .ok b ∧
        (b = true ↔ ∀ (k : Nat) (pi pj : Vector3d), i0 ≤ k → poly[k]? = some pi →
          poly[(k + 1) % poly.length]? = some pj → 0 ≤ vec.dot (pi.cross pj)) := by
  intro n
  induction n with
  | zero =>
    intro i0 hlen
    refine ⟨true, rfl, ⟨fun _ k pi pj hk hpi _ => ?_, fun _ => rfl⟩⟩
    have := (List.getElem?_eq_some_iff.1 hpi).1
    omega
  | succ n ih =>
    intro i0 hlen
    have hpos : 0 < poly.length := by omega
    have hi : i0 < poly.length := by omega
    have hj : (i0 + 1) % poly.length < poly.length := Nat.mod_lt _ hpos
    have hrem : cRem ((i0 : Int) + 1) (poly.length : Int) =
        .ok (((i0 + 1) % poly.length : Nat) : Int) := by
      have hne : (poly.length : Int) ≠ 0 := by omega
      have h0 : (0 : Int) ≤ (i0 : Int) + 1 := by omega
      simp only [cRem, if_neg hne, Int.tmod_eq_emod h0 (Int.ofNat_nonneg _)]
      congr 1
    have hcast : ((i0 : Int) + 1) = ((i0 + 1 : Nat) : Int) := by push_cast; ring
    have hrem' : cRem ((i0 + 1 : Nat) : Int) (poly.length : Int) =
        .ok (((i0 + 1) % poly.length : Nat) : Int) := by rw [← hcast]; exact hrem
    obtain ⟨b, hb, hiff⟩ := ih (i0 + 1) (by omega)
    by_cases hneg : vec.dot (poly[i0].cross poly[(i0 + 1) % poly.length]) < 0
    · refine ⟨false, ?_, ?_⟩
      · simp only [insideLoop, hrem, rd_natCast_ok poly i0 hi, rd_natCast_ok poly _ hj,
          if_pos hneg]
      · constructor
        · intro h; cases h
        · intro hall
          have := hall i0 _ _ le_rfl (List.getElem?_eq_getElem hi) (List.getElem?_eq_getElem hj)
          exact absurd hneg (not_lt.2 this)
    · refine ⟨b, ?_, ?_⟩
      · simp only [insideLoop, hcast, hrem', rd_natCast_ok poly i0 hi, rd_natCast_ok poly _ hj,
          if_neg hneg]
        exact hb
      · rw [hiff]
        constructor
        · intro hall k pi pj hk hpi hpj
          by_cases hk0 : k = i0
          · subst hk0
            rw [List.getElem?_eq_getElem hi] at hpi
            rw [List.getElem?_eq_getElem hj] at hpj
            cases hpi; cases hpj
            exact not_lt.1 hneg
          · exact hall k pi pj (by omega) hpi hpj
        · intro hall k pi pj hk hpi hpj
          exact hall k pi pj (by omega) hpi hpj

theorem insideLoop_insideCone (vec : Vector3d) (poly : List Vector3d) :
    ∃ b, insideLoop vec poly 0 poly.length = .ok b ∧ (b = true ↔ InsideCone vec poly) := by
  obtain ⟨b, hb, hiff⟩ := insideLoop_spec vec poly poly.length 0 (by omega)
  refine ⟨b, by simpa using hb, ?_⟩
  rw [hiff]
  constructor
  · intro h i pi pj hpi hpj; exact h i pi pj (Nat.zero_le _) hpi hpj
  · intro h k pi pj _ hpi hpj; exact h k pi pj hpi hpj

/-- The body of `generatePlane` for an in-grid cell: it returns, changes only the
entries of that cell, and leaves there the depth and sigma of `PlaneCellSpec`
for the polygon it is given. -/
theorem planeCell_spec (e : Env) (camera : ICamera) (depth : DepthMap) (hwf : depth.WF)
    (hh : 1 ≤ depth.hMax) (t z : Vector3d) (poly : List Vector3d) (u v : Int)
    (hu : 0 ≤ u ∧ u < depth.xMax) (hv : 0 ≤ v ∧ v < depth.yMax) (st : List ℚ × List ℚ)
    (h1 : st.1.length = depth.valVec.length) (h2 : st.2.length = depth.sigmaVec.length) :
    ∃ st' d s, planeCell e camera depth t z poly u v st = .ok st' ∧
      st'.1.length = depth.valVec.length ∧ st'.2.length = depth.sigmaVec.length ∧
      rd st'.1 (depth.flatIdx u v 0) = .ok d ∧ rd st'.2 (depth.flatIdx u v 0) = .ok s ∧
      PlaneCellSpec e camera depth t z poly u v d s ∧
      ∀ j, j ≠ depth.flatIdx u v 0 → rd st'.1 j = rd st.1 j ∧ rd st'.2 j = rd st.2 j := by
  have hvalid : depth.isValid u v 0 = true :=
    (isValid_iff _ _ _ _).2 ⟨hu.1, hu.2, hv.1, hv.2, le_rfl, by omega⟩
  have hb := flatIdx_bounds depth u v 0 hvalid
  obtain ⟨_, _, _, l1, l2, _⟩ := hwf
  generalize hidx : depth.flatIdx u v 0 = idx at hb
  have hb1 : idx < (st.1.length : Int) := by rw [h1, l1]; exact hb.2
  have hb2 : idx < (st.2.length : Int) := by rw [h2, l2]; exact hb.2
  have hb1' : idx < ((st.1.set idx.toNat e.OUT_OF_RANGE).length : Int) := by
    rw [List.length_set]; exact hb1
  have hb2' : idx < ((st.2.set idx.toNat e.OUT_OF_RANGE).length : Int) := by
    rw [List.length_set]; exact hb2
  -- the outcome when the cell keeps `OUT_OF_RANGE`
  have hout : (¬ ∃ vec, PlaneHit camera depth z poly u v vec) →
      planeCell e camera depth t z poly u v st =
        .ok (st.1.set idx.toNat e.OUT_OF_RANGE, st.2.set idx.toNat e.OUT_OF_RANGE) →
      ∃ st' d s, planeCell e camera depth t z poly u v st = .ok st' ∧
        st'.1.length = depth.valVec.length ∧ st'.2.length = depth.sigmaVec.length ∧
        rd st'.1 idx = .ok d ∧ rd st'.2 idx = .ok s ∧
        PlaneCellSpec e camera depth t z poly u v d s ∧
        ∀ j, j ≠ idx → rd st'.1 j = rd st.1 j ∧ rd st'.2 j = rd st.2 j := by
    intro hno hrun
    refine ⟨(st.1.set idx.toNat e.OUT_OF_RANGE, st.2.set idx.toNat e.OUT_OF_RANGE),
      e.OUT_OF_RANGE, e.OUT_OF_RANGE, hrun, by simpa using h1, by simpa using h2,
      rd_set_same _ _ _ hb.1 hb1, rd_set_same _ _ _ hb.1 hb2,
      ⟨fun vec hhit => absurd ⟨vec, hhit⟩ hno, fun _ => ⟨rfl, rfl⟩⟩, fun j hj =>
      ⟨rd_set_other _ _ _ _ hb.1 hj, rd_set_other _ _ _ _ hb.1 hj⟩⟩
  have hw1 := wr_ok_of_bounds st.1 idx e.OUT_OF_RANGE hb.1 hb1
  have hw2 := wr_ok_of_bounds st.2 idx e.OUT_OF_RANGE hb.1 hb2
  cases hrec : camera.reconstructPoint ((depth.uConv u : ℚ), (depth.vConv v : ℚ)) with
  | none =>
    apply hout
    · rintro ⟨vec, hhit, _⟩; rw [hrec] at hhit; cases hhit
    · simp only [planeCell, hidx, hw1, hw2, hrec]
  | some vec =>
    by_cases hz : z.dot vec < 1 / 1000
    · apply hout
      · rintro ⟨vec', hhit, hz', _⟩
        rw [hrec] at hhit; cases hhit
        exact absurd hz (not_lt.2 hz')
      · simp only [planeCell, hidx, hw1, hw2, hrec, if_pos hz]
    · obtain ⟨b, hb', hbiff⟩ := insideLoop_insideCone vec poly
      cases b with
      | false =>
        apply hout
        · rintro ⟨vec', hhit, _, hin⟩
          rw [hrec] at hhit; cases hhit
          have := hbiff.2 hin
          cases this
        · simp only [planeCell, hidx, hw1, hw2, hrec, if_neg hz, hb']
      | true =>
        have hw3 := wr_ok_of_bounds (st.1.set idx.toNat e.OUT_OF_RANGE) idx
          (e.norm (vec.scale (t.dot z / z.dot vec))) hb.1 hb1'
        have hw4 := wr_ok_of_bounds (st.2.set idx.toNat e.OUT_OF_RANGE) idx 1 hb.1 hb2'
        refine ⟨((st.1.set idx.toNat e.OUT_OF_RANGE).set idx.toNat
            (e.norm (vec.scale (t.dot z / z.dot vec))),
            (st.2.set idx.toNat e.OUT_OF_RANGE).set idx.toNat 1),
          e.norm (vec.scale (t.dot z / z.dot vec)), 1,
          by simp only [planeCell, hidx, hw1, hw2, hrec, if_neg hz, hb', hw3, hw4],
          by simpa using h1, by simpa using h2,
          rd_set_same _ _ _ hb.1 hb1', rd_set_same _ _ _ hb.1 hb2', ⟨?_, ?_⟩, fun j hj => ?_⟩
        · intro vec' ⟨hhit, _, _⟩
          rw [hrec] at hhit; cases hhit
          exact ⟨rfl, rfl⟩
        · intro hno
          exact absurd ⟨vec, hrec, not_lt.1 hz, hbiff.1 rfl⟩ hno
        · exact ⟨(rd_set_other _ _ _ _ hb.1 hj).trans (rd_set_other _ _ _ _ hb.1 hj),
            (rd_set_other _ _ _ _ hb.1 hj).trans (rd_set_other _ _ _ _ hb.1 hj)⟩

/-- The loop over `u` of `generatePlane` on an in-grid row `v0`. -/
theorem planeRow_spec (e : Env) (camera : ICamera) (depth : DepthMap) (hwf : depth.WF)
    (hh : 1 ≤ depth.hMax) (t z : Vector3d) (poly : List Vector3d) (v0 : Int)
    (hv : 0 ≤ v0 ∧ v0 < depth.yMax) (st : List ℚ × List ℚ)
    (hm : PlaneUpTo e camera depth t z poly (fun _ v => v < v0) st) :
    ∃ st', forLoop (fun u s => planeCell e camera depth t z poly u v0 s) 0 depth.xMax.toNat st
        = .ok st' ∧
      PlaneUpTo e camera depth t z poly (fun _ v => v < v0 + 1) st' := by
  obtain ⟨st', hrun, hP⟩ := forLoop_total
    (fun u s => planeCell e camera depth t z poly u v0 s)
    (fun k s => PlaneUpTo e camera depth t z poly (fun u v => v < v0 ∨ (v = v0 ∧ u < k)) s)
    depth.xMax.toNat 0 st
    ⟨hm.1, hm.2.1, fun u v hu0 hu1 hv0 hv1 hd => hm.2.2 u v hu0 hu1 hv0 hv1 (by omega)⟩
    (by
      intro k s hk0 hk1 hinv
      have hkm : k < depth.xMax := by omega
      obtain ⟨s', d, sg, hrun, hl1, hl2, hd, hsg, hspec, hother⟩ :=
        planeCell_spec e camera depth hwf hh t z poly k v0 ⟨hk0, hkm⟩ hv s hinv.1 hinv.2.1
      refine ⟨s', hrun, hl1, hl2, ?_⟩
      intro u v hu0 hu1 hv0 hv1 hdone
      by_cases hc : u = k ∧ v = v0
      · obtain ⟨rfl, rfl⟩ := hc
        exact ⟨d, sg, hd, hsg, hspec⟩
      · have hne : depth.flatIdx u v 0 ≠ depth.flatIdx k v0 0 := by
          intro heq
          obtain ⟨a, b, _⟩ := flatIdx_inj depth u v 0 k v0 0
            ((isValid_iff _ _ _ _).2 ⟨hu0, hu1, hv0, hv1, le_rfl, by omega⟩)
            ((isValid_iff _ _ _ _).2 ⟨hk0, hkm, hv.1, hv.2, le_rfl, by omega⟩) heq
          exact hc ⟨a, b⟩
        obtain ⟨d', s'', hd', hs', hspec'⟩ := hinv.2.2 u v hu0 hu1 hv0 hv1 (by
          rcases hdone with h | ⟨h, h'⟩
          · exact Or.inl h
          · refine Or.inr ⟨h, ?_⟩
            rcases lt_or_eq_of_le (show u ≤ k by omega) with h3 | h3
            · exact h3
            · exact absurd ⟨h3, h⟩ hc)
        exact ⟨d', s'', ((hother _ hne).1).trans hd', ((hother _ hne).2).trans hs', hspec'⟩)
  refine ⟨st', hrun, hP.1, hP.2.1, fun u v hu0 hu1 hv0 hv1 hdone => ?_⟩
  apply hP.2.2 u v hu0 hu1 hv0 hv1
  rcases lt_or_eq_of_le (show v ≤ v0 by omega) with h3 | h3
  · exact Or.inl h3
  · exact Or.inr ⟨h3, by omega⟩

/-- C14, as the code has it: `generatePlane` tests the rays against the polygon
`TcameraPlane.transform(polygonVec)`, not against the supplied polygon.  For a
new map `depth` that is well formed with `hMax ≥ 1`, the call returns a map
`out` in which every cell `(u, v)` at slot 0 is in one of two states, with `t`
the translation of the transform, `z` the third column of its rotation matrix
and `q_0..q_{n-1}` the transformed polygon: depth `|vec * ((t · z) / (z ·
vec))|` and sigma 1 when the camera reconstructs the pixel to a ray `vec`, `z ·
vec ≥ 1e-3` and `vec · (q_i × q_{(i+1) mod n}) ≥ 0` for every `i`; depth and
sigma `OUT_OF_RANGE` in every other case. -/
theorem generatePlane_cells (e : Env) (camera : ICamera) (depth : DepthMap)
    (TcameraPlane : Transformation) (polygonVec : List Vector3d) (hwf : depth.WF)
    (hh : 1 ≤ depth.hMax) :
    ∃ out, DepthMap.generatePlane e camera depth TcameraPlane polygonVec = .ok out ∧
      out.toScaleParameters = depth.toScaleParameters ∧ out.hMax = depth.hMax ∧
      ∀ u v, 0 ≤ u → u < depth.xMax → 0 ≤ v → v < depth.yMax →
        ∃ d s, rd out.valVec (depth.flatIdx u v 0) = .ok d ∧
          rd out.sigmaVec (depth.flatIdx u v 0) = .ok s ∧
          (∀ vec,
            (camera.reconstructPoint ((depth.uConv u : ℚ), (depth.vConv v : ℚ)) = some vec ∧
              1 / 1000 ≤ (TcameraPlane.rotMatCol 2).dot vec ∧
              InsideCone vec (TcameraPlane.transform polygonVec)) →
            d = e.norm (vec.scale (TcameraPlane.trans.dot (TcameraPlane.rotMatCol 2) /
                  (TcameraPlane.rotMatCol 2).dot vec)) ∧ s = 1) ∧
          ((¬ ∃ vec,
            camera.reconstructPoint ((depth.uConv u : ℚ), (depth.vConv v : ℚ)) = some vec ∧
              1 / 1000 ≤ (TcameraPlane.rotMatCol 2).dot vec ∧
              InsideCone vec (TcameraPlane.transform polygonVec)) →
            d = e.OUT_OF_RANGE ∧ s = e.OUT_OF_RANGE) := by
  obtain ⟨st, hrun, hP⟩ := forLoop_total
    (fun v st => forLoop (fun u st' => planeCell e camera depth TcameraPlane.trans
      (TcameraPlane.rotMatCol 2) (TcameraPlane.transform polygonVec) u v st') 0
      depth.xMax.toNat st)
    (fun k s => PlaneUpTo e camera depth TcameraPlane.trans (TcameraPlane.rotMatCol 2)
      (TcameraPlane.transform polygonVec) (fun _ v => v < k) s)
    depth.yMax.toNat 0 (depth.valVec, depth.sigmaVec)
    ⟨rfl, rfl, fun u v _ _ hv0 _ hd => absurd hd (by omega)⟩
    (fun k s hk0 hk1 hinv => planeRow_spec e camera depth hwf hh _ _ _ k ⟨hk0, by omega⟩ s hinv)
  refine ⟨{ depth with valVec := st.1, sigmaVec := st.2 }, ?_, rfl, rfl, ?_⟩
  · simp only [DepthMap.generatePlane, hrun]
  · intro u v hu0 hu1 hv0 hv1
    obtain ⟨d, s, hd, hs, hspec⟩ := hP.2.2 u v hu0 hu1 hv0 hv1 (by omega)
    exact ⟨d, s, hd, hs, hspec.1, hspec.2⟩

/-- C14 at an explicit input: a 1×1×1 map, the plane `z = 1` and the square
`demoSquare`, which the translation `(0, 0, 1)` keeps around the optical axis. -/
theorem generatePlane_cells_witness :
    ∃ out, DepthMap.generatePlane demoEnv demoCamera (demoMap 1 1 1) (demoShift ⟨0, 0, 1⟩)
        demoSquare = .ok out ∧ out.valVec = [1] ∧ out.sigmaVec = [1] := by
  obtain ⟨out, hrun, _, _, _⟩ := generatePlane_cells demoEnv demoCamera (demoMap 1 1 1)
    (demoShift ⟨0, 0, 1⟩) demoSquare (by decide) (by decide)
  have hv : (DepthMap.generatePlane demoEnv demoCamera (demoMap 1 1 1) (demoShift ⟨0, 0, 1⟩)
      demoSquare).map (fun d => (d.valVec, d.sigmaVec)) = .ok ([1], [1]) := by decide!
  rw [hrun] at hv
  simp only [Except.map, Except.ok.injEq, Prod.mk.injEq] at hv
  exact ⟨out, hrun, hv.1, hv.2⟩

theorem insideCone_demoSquare : InsideCone ⟨0, 0, 1⟩ demoSquare := by
  intro i pi pj hpi hpj
  match i, hpi, hpj with
  | 0, hpi, hpj =>
    simp only [demoSquare, List.length_cons, List.length_nil] at hpi hpj
    cases hpi; cases hpj; decide!
  | 1, hpi, hpj =>
    simp only [demoSquare, List.length_cons, List.length_nil] at hpi hpj
    cases hpi; cases hpj; decide!
  | 2, hpi, hpj =>
    simp only [demoSquare, List.length_cons, List.length_nil] at hpi hpj
    cases hpi; cases hpj; decide!
  | 3, hpi, hpj =>
    simp only [demoSquare, List.length_cons, List.length_nil] at hpi hpj
    cases hpi; cases hpj; decide!
  | n + 4, hpi, _ =>
    simp [demoSquare] at hpi

/-- C14 as stated fails.  For the 1×1×1 map, the transform with identity rotation
and translation `(3, 0, 1)` and the supplied polygon `demoSquare`, the ray `(0,
0, 1)` of cell `(0, 0)` satisfies `z · vec ≥ 1e-3` and is inside the cone of the
supplied polygon, so the claim gives the cell depth 1 and sigma 1; the code
tests the polygon moved by the transform, finds the ray outside, and leaves
depth and sigma at `OUT_OF_RANGE`. -/
theorem generatePlane_polygon_counterexample :
    PlaneHit demoCamera (demoMap 1 1 1) ((demoShift ⟨3, 0, 1⟩).rotMatCol 2) demoSquare 0 0
      ⟨0, 0, 1⟩ ∧
    demoEnv.norm ((⟨0, 0, 1⟩ : Vector3d).scale
      ((demoShift ⟨3, 0, 1⟩).trans.dot ((demoShift ⟨3, 0, 1⟩).rotMatCol 2) /
        ((demoShift ⟨3, 0, 1⟩).rotMatCol 2).dot ⟨0, 0, 1⟩)) = 1 ∧
    (DepthMap.generatePlane demoEnv demoCamera (demoMap 1 1 1) (demoShift ⟨3, 0, 1⟩)
      demoSquare).map (fun d => (d.valVec, d.sigmaVec)) =
        .ok ([demoEnv.OUT_OF_RANGE], [demoEnv.OUT_OF_RANGE]) ∧
    demoEnv.OUT_OF_RANGE ≠ 1 :=
  ⟨⟨by decide!, by decide!, insideCone_demoSquare⟩, by decide!, by decide!, by decide!⟩

/-! ## Cross-frame warping -/

/-- The fill loop of `wrapDepth(T12, scaleParams)` runs through only if every
index of `idx12Vec` is a position of `cloud11MH.idxVec`: `idx12Vec` holds grid
indices of the target (or `-1`), and the loop uses each as a position in the
vectors of the source reconstruction. -/
theorem wrapFillLoop_ok_bounds (e : Env) (src : DepthMap) (cloud11MH : MHPack)
    (cloud12 : List Vector3d) (point12Vec : List Vector2d) :
    ∀ (l : List Int) (i : Int) (st st' : List ℚ × List ℚ × List ℚ),
      wrapFillLoop e src cloud11MH cloud12 point12Vec l i st = .ok st' →
      ∀ q ∈ l, 0 ≤ q ∧ q < (cloud11MH.idxVec.length : Int) := by
  intro l
  induction l with
  | nil => intro i st st' _ q hq; simp at hq
  | cons idx2 rest ih =>
    intro i st st' hrun q hq
    simp only [wrapFillLoop] at hrun
    cases h1 : rd cloud11MH.idxVec idx2 with
    | error f => rw [h1] at hrun; cases hrun
    | ok idx1 =>
      have hb := rd_bounds_of_ok h1
      rcases List.mem_cons.1 hq with rfl | hq'
      · exact hb
      · rw [h1] at hrun
        simp only [] at hrun
        cases h2 : rd point12Vec i with
        | error f => rw [h2] at hrun; cases hrun
        | ok pt =>
          rw [h2] at hrun
          simp only [] at hrun
          by_cases hv : src.isValidPt pt 0 = true
          · rw [if_pos hv] at hrun
            have key : ∃ i' st1,
                wrapFillLoop e src cloud11MH cloud12 point12Vec rest i' st1 = .ok st' := by
              revert hrun
              cases rd cloud12 idx2 with
              | error f => intro h; cases h
              | ok X =>
                simp only []
                cases wr st.1 idx2 (e.norm X) with
                | error f => intro h; cases h
                | ok vals =>
                  simp only []
                  cases rd src.sigmaVec idx1 with
                  | error f => intro h; cases h
                  | ok s =>
                    simp only []
                    cases wr st.2.1 idx2 s with
                    | error f => intro h; cases h
                    | ok sigmas =>
                      simp only []
                      cases rd src.costVec idx1 with
                      | error f => intro h; cases h
                      | ok c =>
                        simp only []
                        cases wr st.2.2 idx2 c with
                        | error f => intro h; cases h
                        | ok costs => simp only []; intro h; exact ⟨_, _, h⟩
            obtain ⟨i', st1, h⟩ := key
            exact ih i' st1 st' h q hq'
          · rw [if_neg hv] at hrun
            exact ih _ _ _ hrun q hq'

theorem demoMap_conv_roundtrip (a b c : Nat) (x : Int) :
    (demoMap a b c).xConv ((demoMap a b c).uConv x : ℚ) = x ∧
    (demoMap a b c).yConv ((demoMap a b c).vConv x : ℚ) = x := by
  simp [demoMap, Rat.floor_def']

/-- C15 on a failing input.  Whenever `wrapDepth(T12, scaleParams)` returns, every
index in `idx12Vec` — a grid index of the target, or `-1` — was a position of
the source reconstruction.  On the map `demoTwoCells` (valid columns 0 and 5)
with the identity transform and the same camera and grid, the source
reconstruction has the entries `idxVec = [0, 5]`, both points project into their
own cells, `idx12Vec = [0, 5]`, and the second iteration reads
`cloud11MH.idxVec[5]` outside the vector of length 2. -/
theorem wrapDepth_failing_input :
    (∀ (e : Env) (src dMap2 : DepthMap) (T12 : Transformation) (out : DepthMap)
        (cloud11MH : MHPack) (idx12Vec : List Int),
      src.wrapDepth e dMap2 T12 = .ok out →
      src.reconstruct e MHPack.cleared 0 = .ok cloud11MH →
      src.getIdxVec e (dMap2.cameraPtr.projectPointCloud
        (T12.inverseTransform cloud11MH.cloud)) = .ok idx12Vec →
      ∀ q ∈ idx12Vec, 0 ≤ q ∧ q < (cloud11MH.idxVec.length : Int)) ∧
    demoTwoCells.WF ∧
    (demoTwoCells.reconstruct demoEnv MHPack.cleared 0).map (fun c => c.idxVec) = .ok [0, 5] ∧
    (demoTwoCells.reconstruct demoEnv MHPack.cleared 0).bind (fun c =>
      demoTwoCells.getIdxVec demoEnv ((demoMap 4 4 1).cameraPtr.projectPointCloud
        ((demoShift ⟨0, 0, 0⟩).inverseTransform c.cloud))) = .ok [0, 5] ∧
    rd ([0, 5] : List Int) 5 = .error .outOfBounds ∧
    demoTwoCells.wrapDepth demoEnv (demoMap 4 4 1) (demoShift ⟨0, 0, 0⟩) =
      .error .outOfBounds := by
  refine ⟨?_, by decide, by decide!, by decide!, by decide, by with_unfolding_all rfl⟩
  intro e src dMap2 T12 out cloud11MH idx12Vec hrun hrec hidx
  simp only [DepthMap.wrapDepth, hrec, hidx] at hrun
  cases hl : wrapFillLoop e src cloud11MH (T12.inverseTransform cloud11MH.cloud)
      (dMap2.cameraPtr.projectPointCloud (T12.inverseTransform cloud11MH.cloud)) idx12Vec 0
      (dMap2.valVec, dMap2.sigmaVec, dMap2.costVec) with
  | error f => rw [hl] at hrun; cases hrun
  | ok st => exact wrapFillLoop_ok_bounds e src cloud11MH _ _ idx12Vec 0 _ st hl

/-- C16 on a failing input.  The map `demoOffAxis` has `hMax = 1` and one valid
column, grid index 5, with depth 3.  The transform is the identity, the target
has the same camera and the same scale parameters, `xConv(uConv(x)) = x` and
`yConv(vConv(y)) = y`, and the camera projects the reconstructed point back to
its pixel `(1, 1)`.  The call `wrapDepth(T12, scaleParams)` does not return a map
with depth 3 at column 5: it reads `cloud11MH.idxVec[5]` outside the vector of
length 1. -/
theorem wrapDepth_identity_failing_input :
    demoOffAxis.hMax = 1 ∧ demoOffAxis.WF ∧ rd demoOffAxis.valVec 5 = .ok 3 ∧
    demoEnv.MIN_DEPTH ≤ 3 ∧
    demoOffAxis.toScaleParameters.xMax = (demoMap 4 4 1).toScaleParameters.xMax ∧
    demoOffAxis.toScaleParameters.yMax = (demoMap 4 4 1).toScaleParameters.yMax ∧
    (∀ x : Int, (demoMap 4 4 1).xConv ((demoMap 4 4 1).uConv x : ℚ) = x ∧
      (demoMap 4 4 1).yConv ((demoMap 4 4 1).vConv x : ℚ) = x) ∧
    (∀ Xs, (demoShift ⟨0, 0, 0⟩).inverseTransform Xs = Xs ∧
      (demoShift ⟨0, 0, 0⟩).transform Xs = Xs) ∧
    (demoOffAxis.reconstruct demoEnv MHPack.cleared 0).map
      (fun c => (c.idxVec, c.imagePointVec, (demoMap 4 4 1).cameraPtr.projectPointCloud c.cloud))
      = .ok ([5], [(1, 1)], [(1, 1)]) ∧
    demoOffAxis.wrapDepth demoEnv (demoMap 4 4 1) (demoShift ⟨0, 0, 0⟩) =
      .error .outOfBounds := by
  refine ⟨rfl, by decide, by decide!, by decide!, rfl, rfl,
    fun x => demoMap_conv_roundtrip 4 4 1 x, fun Xs => ?_, by decide!, by with_unfolding_all rfl⟩
  constructor
  · simp only [demoShift, sub_zero]
    exact List.map_id' Xs
  · simp only [demoShift, add_zero]
    exact List.map_id' Xs

theorem wrapProjectLoop_nonempty (e : Env) (cloud11MH cloud22MH : MHPack)
    (cloud21 : List Vector3d) (hval : cloud22MH.valVec = []) (q : Int) (rest : List Int)
    (i : Int) (st out : List ℚ × List ℚ) :
    wrapProjectLoop e cloud11MH cloud22MH cloud21 (q :: rest) i st ≠ .ok out := by
  have hrd : ∀ j, rd cloud22MH.valVec j = .error .outOfBounds := by
    intro j
    rw [hval]
    unfold rd
    split_ifs <;> simp
  simp only [wrapProjectLoop, hrd]
  cases rd cloud11MH.idxVec q with
  | error f => intro h; cases h
  | ok idx0 =>
    simp only []
    cases rd cloud21 i with
    | error f => intro h; cases h
    | ok X2 =>
      simp only []
      cases rd cloud11MH.cloud idx0 with
      | error f => intro h; cases h
      | ok X1 =>
        simp only []
        cases wr st.1 idx0 (X2.dot (e.normalized X1)) with
        | error f => intro h; cases h
        | ok vals => intro h; cases h

/-- C17 on a failing input.  Step 6 of `wrapDepth(dMap1, dMap2, T12, output)`
takes the sigma of every step-4 entry from `cloud22MH.valVec`, which
`reconstruct` always leaves empty: the call returns only if step 4 produces no
entry at all.  With `dMap1 = dMap2 = demoPushed 5` (one valid column) and the
identity transform, step 4 produces one entry and the first iteration reads
`cloud22MH.valVec[0]` outside the empty vector. -/
theorem wrapDepthInto_failing_input :
    (∀ (e : Env) (setTo : DepthMap → DepthMap) (dMap1 dMap2 : DepthMap) (T12 : Transformation)
        (out : DepthMap) (cloud22MH : MHPack),
      DepthMap.wrapDepthInto e setTo dMap1 dMap2 T12 = .ok out →
      dMap2.reconstruct e MHPack.cleared e.QUERY_POINTS = .ok cloud22MH →
      cloud22MH.idxVec = []) ∧
    (demoPushed 5).WF ∧
    (demoPushed 5).reconstruct demoEnv MHPack.cleared demoEnv.QUERY_POINTS =
      .ok ⟨[(0, 0)], [0], [0], [], [], [], [], [⟨0, 0, 5⟩]⟩ ∧
    DepthMap.wrapDepthInto demoEnv demoSetTo (demoPushed 5) (demoPushed 5)
      (demoShift ⟨0, 0, 0⟩) = .error .outOfBounds := by
  refine ⟨?_, by decide, by decide!, by with_unfolding_all rfl⟩
  intro e setTo dMap1 dMap2 T12 out cloud22MH hrun hrec
  have hval : cloud22MH.valVec = [] := by
    obtain ⟨_, qs, pts, cloud, _, _, _, _, rfl⟩ :=
      (reconstruct_eq_ok_iff e dMap2 MHPack.cleared e.QUERY_POINTS cloud22MH).1 hrec
    rfl
  cases hlist : cloud22MH.idxVec with
  | nil => rfl
  | cons q rest =>
    exfalso
    simp only [DepthMap.wrapDepthInto, hrec] at hrun
    cases h1 : dMap1.reconstruct e MHPack.cleared 0 with
    | error f => rw [h1] at hrun; cases hrun
    | ok cloud11MH =>
      rw [h1] at hrun
      simp only [hlist] at hrun
      cases hl : wrapProjectLoop e cloud11MH cloud22MH (T12.transform cloud22MH.cloud)
          (q :: rest) 0 ((setTo dMap1).valVec, (setTo dMap1).sigmaVec) with
      | error f => rw [hl] at hrun; cases hrun
      | ok st => exact wrapProjectLoop_nonempty e cloud11MH cloud22MH _ hval q rest 0 _ st hl

end Visgeom
